import Mathlib

set_option maxHeartbeats 1000000

/-
Verification of the colord color-conversion core (LCH / HWB / CMYK plugins,
LAB delta-E and the a11y contrast module).

The JavaScript numerics are embedded in the exact-real idealization: a finite
double is modelled as an exact real number, while the IEEE-754 special values
NaN and the two signed infinities are kept as explicit constructors, because
the library's documented behavior (clamping of NaN, the CMYK divide-by-zero
policy, clampHue on non-finite input) depends on them.
-/

namespace Colord

/-- A JavaScript number: a finite exact real, NaN, or a signed infinity. -/
inductive JsNum where
  | fin (x : ℝ)
  | nan
  | inf (pos : Bool)

namespace JsNum

/-- JS strict equality on numbers (`===`): NaN compares false to everything,
including itself. -/
def eqv : JsNum → JsNum → Prop
  | fin x, fin y => x = y
  | inf p, inf q => p = q
  | _, _ => False

/-- JS comparison a < b: any comparison with NaN is false. -/
def jlt : JsNum → JsNum → Prop
  | fin x, fin y => x < y
  | fin _, inf p => p = true
  | inf p, fin _ => p = false
  | inf p, inf q => p = false ∧ q = true
  | _, _ => False

/-- JS comparison a <= b: any comparison with NaN is false. -/
def jle : JsNum → JsNum → Prop
  | fin x, fin y => x ≤ y
  | fin _, inf p => p = true
  | inf p, fin _ => p = false
  | inf p, inf q => p = q
  | _, _ => False

/-- JS comparison a > b. -/
def jgt (a b : JsNum) : Prop := jlt b a

noncomputable instance (a b : JsNum) : Decidable (eqv a b) := Classical.dec _

noncomputable instance (a b : JsNum) : Decidable (jlt a b) := Classical.dec _

noncomputable instance (a b : JsNum) : Decidable (jle a b) := Classical.dec _

noncomputable instance (a b : JsNum) : Decidable (jgt a b) := Classical.dec _

/-- JS truthiness of a number: 0 and NaN are falsy. -/
def truthy : JsNum → Prop
  | fin x => x ≠ 0
  | nan => False
  | inf _ => True

noncomputable instance (a : JsNum) : Decidable (truthy a) := Classical.dec _

/-- Negation. -/
noncomputable def neg : JsNum → JsNum
  | fin x => fin (-x)
  | nan => nan
  | inf p => inf (!p)

/-- Addition with IEEE special-value propagation. -/
noncomputable def add : JsNum → JsNum → JsNum
  | fin x, fin y => fin (x + y)
  | fin _, inf p => inf p
  | inf p, fin _ => inf p
  | inf p, inf q => if p = q then inf p else nan
  | _, _ => nan

/-- Subtraction. -/
noncomputable def sub (a b : JsNum) : JsNum := add a (neg b)

/-- Multiplication with IEEE special-value propagation (0 times infinity is
NaN). -/
noncomputable def mul : JsNum → JsNum → JsNum
  | fin x, fin y => fin (x * y)
  | fin x, inf p => if x = 0 then nan else if 0 < x then inf p else inf (!p)
  | inf p, fin y => if y = 0 then nan else if 0 < y then inf p else inf (!p)
  | inf p, inf q => inf (p == q)
  | _, _ => nan

/-- Division: x/0 is a signed infinity for x not 0, 0/0 is NaN (the case the
CMYK converter coerces away), a finite number over infinity is 0. -/
noncomputable def div : JsNum → JsNum → JsNum
  | fin x, fin y =>
      if y = 0 then (if x = 0 then nan else if 0 < x then inf true else inf false)
      else fin (x / y)
  | fin _, inf _ => fin 0
  | inf p, fin y => if 0 ≤ y then inf p else inf (!p)
  | inf _, inf _ => nan
  | _, _ => nan

noncomputable instance : Neg JsNum := ⟨neg⟩

noncomputable instance : Add JsNum := ⟨add⟩

noncomputable instance : Sub JsNum := ⟨sub⟩

noncomputable instance : Mul JsNum := ⟨mul⟩

noncomputable instance : Div JsNum := ⟨div⟩

/-- Truncation toward zero of a real, as JS coerces the quotient in the
remainder operation. -/
noncomputable def truncR (x : ℝ) : ℤ := if 0 ≤ x then ⌊x⌋ else -⌊-x⌋

/-- JS remainder a % b: the sign follows the dividend,
a % b = a - b * trunc(a / b); NaN when the divisor is 0 or an operand is NaN
or the dividend is infinite. -/
noncomputable def mod : JsNum → JsNum → JsNum
  | fin x, fin y => if y = 0 then nan else fin (x - y * (truncR (x / y) : ℝ))
  | fin x, inf _ => fin x
  | _, _ => nan

noncomputable instance : Mod JsNum := ⟨mod⟩

/-- Math.floor. -/
noncomputable def mfloor : JsNum → JsNum
  | fin x => fin (⌊x⌋ : ℝ)
  | nan => nan
  | inf p => inf p

/-- Math.round: floor of x + 1/2 (JS rounds halves toward positive
infinity). -/
noncomputable def mround : JsNum → JsNum
  | fin x => fin (⌊x + 1 / 2⌋ : ℝ)
  | nan => nan
  | inf p => inf p

/-- Math.max of two numbers: NaN if either operand is NaN. -/
noncomputable def jmax : JsNum → JsNum → JsNum
  | fin x, fin y => fin (max x y)
  | fin x, inf p => if p then inf true else fin x
  | inf p, fin y => if p then inf true else fin y
  | inf p, inf q => inf (p || q)
  | _, _ => nan

/-- Math.min of two numbers: NaN if either operand is NaN. -/
noncomputable def jmin : JsNum → JsNum → JsNum
  | fin x, fin y => fin (min x y)
  | fin x, inf p => if p then fin x else inf false
  | inf p, fin y => if p then fin y else inf false
  | inf p, inf q => inf (p && q)
  | _, _ => nan

/-- Math.pow with a real (typically fractional) exponent. The library only
uses positive non-integer exponents (2.4, 1/2.4, 0.5, 1/3 via cbrt), for
which JS returns NaN on a negative base; NaN ** 0 is 1. -/
noncomputable def rpow : JsNum → ℝ → JsNum
  | fin x, e => if x < 0 then nan else fin (x ^ e)
  | nan, e => if e = 0 then fin 1 else nan
  | inf _, e => if 0 < e then inf true else if e = 0 then fin 1 else fin 0

/-- The ** operator with a nonnegative integer literal exponent
(x ** 2, x ** 7 and Math.pow(x, 3) in the source). -/
noncomputable def npow : JsNum → ℕ → JsNum
  | fin x, n => fin (x ^ n)
  | nan, n => if n = 0 then fin 1 else nan
  | inf p, n => if n = 0 then fin 1 else inf (p || decide (n % 2 = 0))

/-- Math.cbrt: defined for negative bases (odd real root). -/
noncomputable def cbrt : JsNum → JsNum
  | fin x => if x < 0 then fin (-((-x) ^ ((1 : ℝ) / 3))) else fin (x ^ ((1 : ℝ) / 3))
  | nan => nan
  | inf p => inf p

/-- Math.exp. -/
noncomputable def jexp : JsNum → JsNum
  | fin x => fin (Real.exp x)
  | nan => nan
  | inf p => if p then inf true else fin 0

/-- Math.cos: NaN on non-finite input. -/
noncomputable def jcos : JsNum → JsNum
  | fin x => fin (Real.cos x)
  | _ => nan

/-- Math.sin: NaN on non-finite input. -/
noncomputable def jsin : JsNum → JsNum
  | fin x => fin (Real.sin x)
  | _ => nan

/-- Math.atan2(y, x) on finite arguments, as the argument of the complex
number x + i y, which like atan2 is 0 at (0, 0) and ranges over (-pi, pi].
Infinite arguments (which never arise in this library) give NaN. -/
noncomputable def jatan2 : JsNum → JsNum → JsNum
  | fin y, fin x => fin (Complex.arg ⟨x, y⟩)
  | _, _ => nan

/-- Math.sqrt: NaN on a negative or NaN argument. -/
noncomputable def jsqrt : JsNum → JsNum
  | fin x => if x < 0 then nan else fin (Real.sqrt x)
  | nan => nan
  | inf p => if p then inf true else nan

/-- Math.abs. -/
noncomputable def jabs : JsNum → JsNum
  | fin x => fin |x|
  | nan => nan
  | inf _ => inf true

/-- isFinite: true exactly on finite numbers. -/
def isFinite : JsNum → Bool
  | fin _ => true
  | _ => false

def isNaN : JsNum → Bool
  | nan => true
  | _ => false

/-- JS array indexing a[i] for an array of numbers, immediately used in
arithmetic: a fractional, negative or out-of-range index reads `undefined`,
which the subsequent multiplication turns into NaN, so it is modelled as
NaN directly. -/
noncomputable def jsGet (l : List JsNum) : JsNum → JsNum
  | fin x =>
      if 0 ≤ x ∧ x = (⌊x⌋ : ℝ) ∧ ⌊x⌋.toNat < l.length then l.getD ⌊x⌋.toNat nan
      else nan
  | _ => nan

end JsNum

open JsNum

/-
Shared helpers (src/utils.ts as bundled into every plugin).
-/

/-- We used to work with 2 digits after the decimal point, but it was not
accurate enough, so the library produces colors with 3 digits of alpha. -/
def ALPHA_PRECISION : ℕ := 3

/-- A value of a plain input object handed to an object parser: a number, a
string, or absent (undefined). -/
inductive JsIn where
  | num (n : JsNum)
  | str (s : String)
  | undef

/-- isPresent: a string is present when non-empty, a number is always
present, anything else is not. -/
def isPresent : JsIn → Bool
  | .str s => decide (0 < s.length)
  | .num _ => true
  | .undef => false

/-- round(number, digits = 0, base = Math.pow(10, digits)):
Math.round(base * number) / base + 0. The digit count is a natural number
(the library always passes a nonnegative integer). -/
noncomputable def round (number : JsNum) (digits : ℕ) : JsNum :=
  let base : JsNum := fin ((10 : ℝ) ^ digits)
  mround (base * number) / base + fin 0

/-- floor(number, digits = 0, base = Math.pow(10, digits)):
Math.floor(base * number) / base + 0. -/
noncomputable def floor (number : JsNum) (digits : ℕ) : JsNum :=
  let base : JsNum := fin ((10 : ℝ) ^ digits)
  mfloor (base * number) / base + fin 0

/-- clamp(value, min, max): number > max ? max : number > min ? number : min.
The source defaults are min = 0 and max = 1; call sites spell them out.
NaN fails both comparisons and so clamps to the lower bound. -/
noncomputable def clamp (number lo hi : JsNum) : JsNum :=
  if jgt number hi then hi else if jgt number lo then number else lo

/-- clampHue(degrees): degrees = isFinite(degrees) ? degrees % 360 : 0;
return degrees > 0 ? degrees : degrees + 360. -/
noncomputable def clampHue (degrees : JsNum) : JsNum :=
  let d := if degrees.isFinite then degrees % fin 360 else fin 0
  if jgt d (fin 0) then d else d + fin 360

/-- Valid CSS angle units and their degree factors. rad is
360 / (Math.PI * 2); in the exact-real idealization Math.PI is pi. -/
noncomputable def ANGLE_UNITS : String → Option ℝ
  | "grad" => some (360 / 400)
  | "turn" => some 360
  | "rad" => some (360 / (Real.pi * 2))
  | _ => none

/-- parseHue(value, unit = "deg"): Number(value) * (ANGLE_UNITS[unit] || 1).
The numeric token value is supplied already converted (see the matchers
below, which capture the exact value of the decimal literal). The unit
lookup is case-sensitive even though the regexps match case-insensitively,
exactly as in the source. -/
noncomputable def parseHue (value : ℚ) (unit : String) : JsNum :=
  fin (value : ℝ) * fin ((ANGLE_UNITS unit).getD 1)

/-
Color value records. Every channel is a JS number.
-/

structure Rgba where
  r : JsNum
  g : JsNum
  b : JsNum
  a : JsNum

structure Hsva where
  h : JsNum
  s : JsNum
  v : JsNum
  a : JsNum

structure Hwba where
  h : JsNum
  w : JsNum
  b : JsNum
  a : JsNum

structure Xyza where
  x : JsNum
  y : JsNum
  z : JsNum
  a : JsNum

/-- The D50-to-D65 adaptation drops the alpha channel. -/
structure Xyz where
  x : JsNum
  y : JsNum
  z : JsNum

structure Laba where
  l : JsNum
  a : JsNum
  b : JsNum
  alpha : JsNum

structure Lcha where
  l : JsNum
  c : JsNum
  h : JsNum
  a : JsNum

structure Cmyka where
  c : JsNum
  m : JsNum
  y : JsNum
  k : JsNum
  a : JsNum

/-
RGB module.
-/

noncomputable def clampRgba (rgba : Rgba) : Rgba :=
  ⟨clamp rgba.r (fin 0) (fin 255), clamp rgba.g (fin 0) (fin 255),
   clamp rgba.b (fin 0) (fin 255), clamp rgba.a (fin 0) (fin 1)⟩

/-- Converts an RGB channel 0-255 to its linear-light form 0-1. -/
noncomputable def linearizeRgbChannel (value : JsNum) : JsNum :=
  let ratio := value / fin 255
  if jlt ratio (fin 0.04045) then ratio / fin 12.92
  else rpow ((ratio + fin 0.055) / fin 1.055) 2.4

/-- Converts a linear-light sRGB channel 0-1 back to its gamma-corrected
form 0-255. -/
noncomputable def unlinearizeRgbChannel (ratio : JsNum) : JsNum :=
  let value :=
    if jgt ratio (fin 0.0031308) then fin 1.055 * rpow ratio (1 / 2.4) - fin 0.055
    else fin 12.92 * ratio
  value * fin 255

/-
XYZ module (D50-referenced internally).
-/

structure RefWhite where
  x : ℝ
  y : ℝ
  z : ℝ

/-- The D50 standard illuminant reference white. -/
noncomputable def D50 : RefWhite := ⟨96.422, 100, 82.521⟩

/-- Limits XYZ axis values assuming XYZ is relative to D50. -/
noncomputable def clampXyza (xyza : Xyza) : Xyza :=
  ⟨clamp xyza.x (fin 0) (fin D50.x), clamp xyza.y (fin 0) (fin D50.y),
   clamp xyza.z (fin 0) (fin D50.z), clamp xyza.a (fin 0) (fin 1)⟩

/-- Bradford chromatic adaptation from D65 to D50. -/
noncomputable def adaptXyzaToD50 (xyza : Xyza) : Xyza :=
  ⟨xyza.x * fin 1.0478112 + xyza.y * fin 0.0228866 + xyza.z * fin (-0.050127),
   xyza.x * fin 0.0295424 + xyza.y * fin 0.9904844 + xyza.z * fin (-0.0170491),
   xyza.x * fin (-0.0092345) + xyza.y * fin 0.0150436 + xyza.z * fin 0.7521316,
   xyza.a⟩

/-- Bradford chromatic adaptation from D50 to D65 (alpha is dropped; the
caller keeps carrying it). -/
noncomputable def adaptXyzToD65 (xyza : Xyza) : Xyz :=
  ⟨xyza.x * fin 0.9555766 + xyza.y * fin (-0.0230393) + xyza.z * fin 0.0631636,
   xyza.x * fin (-0.0282895) + xyza.y * fin 1.0099416 + xyza.z * fin 0.0210077,
   xyza.x * fin 0.0122982 + xyza.y * fin (-0.020483) + xyza.z * fin 1.3299098⟩

/-- Converts a CIE XYZ color (D50) to RGBA (D65). -/
noncomputable def xyzaToRgba (sourceXyza : Xyza) : Rgba :=
  let xyz := adaptXyzToD65 sourceXyza
  clampRgba
    ⟨unlinearizeRgbChannel
       (fin 0.032404542 * xyz.x - fin 0.015371385 * xyz.y - fin 0.004985314 * xyz.z),
     unlinearizeRgbChannel
       (fin (-0.00969266) * xyz.x + fin 0.018760108 * xyz.y + fin 0.00041556 * xyz.z),
     unlinearizeRgbChannel
       (fin 0.000556434 * xyz.x - fin 0.002040259 * xyz.y + fin 0.010572252 * xyz.z),
     sourceXyza.a⟩

/-- Converts an RGB color (D65) to CIE XYZ (D50). -/
noncomputable def rgbaToXyza (rgba : Rgba) : Xyza :=
  let sRed := linearizeRgbChannel rgba.r
  let sGreen := linearizeRgbChannel rgba.g
  let sBlue := linearizeRgbChannel rgba.b
  let xyza : Xyza :=
    ⟨(sRed * fin 0.4124564 + sGreen * fin 0.3575761 + sBlue * fin 0.1804375) * fin 100,
     (sRed * fin 0.2126729 + sGreen * fin 0.7151522 + sBlue * fin 0.072175) * fin 100,
     (sRed * fin 0.0193339 + sGreen * fin 0.119192 + sBlue * fin 0.9503041) * fin 100,
     rgba.a⟩
  clampXyza (adaptXyzaToD50 xyza)

/-
LAB module.
-/

/-- CIELAB conversion threshold 216/24389. -/
noncomputable def e : ℝ := 216 / 24389

/-- CIELAB conversion slope 24389/27. -/
noncomputable def k : ℝ := 24389 / 27

/-- Performs RGB to CIEXYZ to LAB color conversion. -/
noncomputable def rgbaToLaba (rgba : Rgba) : Laba :=
  let xyza := rgbaToXyza rgba
  let x0 := xyza.x / fin D50.x
  let y0 := xyza.y / fin D50.y
  let z0 := xyza.z / fin D50.z
  let x1 := if jgt x0 (fin e) then cbrt x0 else (fin k * x0 + fin 16) / fin 116
  let y1 := if jgt y0 (fin e) then cbrt y0 else (fin k * y0 + fin 16) / fin 116
  let z1 := if jgt z0 (fin e) then cbrt z0 else (fin k * z0 + fin 16) / fin 116
  ⟨fin 116 * y1 - fin 16, fin 500 * (x1 - y1), fin 200 * (y1 - z1), xyza.a⟩

/-- Performs LAB to CIEXYZ to RGB color conversion. -/
noncomputable def labaToRgba (laba : Laba) : Rgba :=
  let y := (laba.l + fin 16) / fin 116
  let x := laba.a / fin 500 + y
  let z := y - laba.b / fin 200
  xyzaToRgba
    ⟨(if jgt (npow x 3) (fin e) then npow x 3 else (fin 116 * x - fin 16) / fin k) *
       fin D50.x,
     (if jgt laba.l (fin k * fin e) then npow ((laba.l + fin 16) / fin 116) 3
      else laba.l / fin k) * fin D50.y,
     (if jgt (npow z 3) (fin e) then npow z 3 else (fin 116 * z - fin 16) / fin k) *
       fin D50.z,
     laba.alpha⟩

/-
LCH module.
-/

/-- Limits LCH axis values (chroma is derived and not clamped). -/
noncomputable def clampLcha (laba : Lcha) : Lcha :=
  ⟨clamp laba.l (fin 0) (fin 100), laba.c, clampHue laba.h, laba.a⟩

/-- Rounds the LCH color object values. -/
noncomputable def roundLcha (laba : Lcha) (digits : ℕ) : Lcha :=
  ⟨round laba.l digits, round laba.c digits, round laba.h digits,
   round laba.a (if ALPHA_PRECISION > digits then ALPHA_PRECISION else digits)⟩

/-- Performs RGB to CIEXYZ to CIELAB to CIELCH color conversion. The a and b
axes are rounded to 3 decimal places to get proper values for grayscale
colors. -/
noncomputable def rgbaToLcha (rgba : Rgba) : Lcha :=
  let laba := rgbaToLaba rgba
  let a := round laba.a 3
  let b := round laba.b 3
  let hue := fin 180 * (jatan2 b a / fin Real.pi)
  ⟨laba.l, jsqrt (a * a + b * b), if jlt hue (fin 0) then hue + fin 360 else hue,
   laba.alpha⟩

/-- Performs CIELCH to CIELAB to CIEXYZ to RGB color conversion. -/
noncomputable def lchaToRgba (lcha : Lcha) : Rgba :=
  labaToRgba
    ⟨lcha.l, lcha.c * jcos ((lcha.h * fin Real.pi) / fin 180),
     lcha.c * jsin ((lcha.h * fin Real.pi) / fin 180), lcha.a⟩

/-
HSV module.
-/

/-- RGB to HSV: standard max/delta/hue-sector formula. -/
noncomputable def rgbaToHsva (rgba : Rgba) : Hsva :=
  let max := jmax rgba.r (jmax rgba.g rgba.b)
  let delta := max - jmin rgba.r (jmin rgba.g rgba.b)
  let hh :=
    if truthy delta then
      (if eqv max rgba.r then (rgba.g - rgba.b) / delta
       else if eqv max rgba.g then fin 2 + (rgba.b - rgba.r) / delta
       else fin 4 + (rgba.r - rgba.g) / delta)
    else fin 0
  ⟨fin 60 * (if jlt hh (fin 0) then hh + fin 6 else hh),
   if truthy max then (delta / max) * fin 100 else fin 0,
   (max / fin 255) * fin 100, rgba.a⟩

/-- HSV to RGB via the sector table. The source reassigns h, s and v; the
reassigned values are h1, s1, v1 here. -/
noncomputable def hsvaToRgba (hsva : Hsva) : Rgba :=
  let h1 := (hsva.h / fin 360) * fin 6
  let s1 := hsva.s / fin 100
  let v1 := hsva.v / fin 100
  let hh := mfloor h1
  let b := v1 * (fin 1 - s1)
  let c := v1 * (fin 1 - (h1 - hh) * s1)
  let d := v1 * (fin 1 - (fin 1 - h1 + hh) * s1)
  let module := hh % fin 6
  ⟨jsGet [v1, c, b, b, d, v1] module * fin 255,
   jsGet [d, v1, v1, c, b, b] module * fin 255,
   jsGet [b, b, d, v1, v1, c] module * fin 255,
   hsva.a⟩

/-
HWB module.
-/

noncomputable def clampHwba (hwba : Hwba) : Hwba :=
  ⟨clampHue hwba.h, clamp hwba.w (fin 0) (fin 100), clamp hwba.b (fin 0) (fin 100),
   clamp hwba.a (fin 0) (fin 1)⟩

noncomputable def roundHwba (hwba : Hwba) (digits : ℕ) : Hwba :=
  ⟨round hwba.h digits, round hwba.w digits, round hwba.b digits,
   round hwba.a (if ALPHA_PRECISION > digits then ALPHA_PRECISION else digits)⟩

/-- RGB to HWB: hue from HSV, whiteness from the min channel, blackness from
the max channel. -/
noncomputable def rgbaToHwba (rgba : Rgba) : Hwba :=
  let h := (rgbaToHsva rgba).h
  let w := (jmin rgba.r (jmin rgba.g rgba.b) / fin 255) * fin 100
  let b := fin 100 - (jmax rgba.r (jmax rgba.g rgba.b) / fin 255) * fin 100
  ⟨h, w, b, rgba.a⟩

/-- HWB to RGB: blackness 100 forces saturation 0 (guarding the division by
100 - blackness) and value 0. -/
noncomputable def hwbaToRgba (hwba : Hwba) : Rgba :=
  hsvaToRgba
    ⟨hwba.h,
     if eqv hwba.b (fin 100) then fin 0
     else fin 100 - (hwba.w / (fin 100 - hwba.b)) * fin 100,
     fin 100 - hwba.b, hwba.a⟩

/-
CMYK module.
-/

/-- Clamps the CMYK color object values. -/
noncomputable def clampCmyka (cmyka : Cmyka) : Cmyka :=
  ⟨clamp cmyka.c (fin 0) (fin 100), clamp cmyka.m (fin 0) (fin 100),
   clamp cmyka.y (fin 0) (fin 100), clamp cmyka.k (fin 0) (fin 100),
   clamp cmyka.a (fin 0) (fin 1)⟩

/-- Rounds the CMYK color object values. -/
noncomputable def roundCmyka (cmyka : Cmyka) (digits : ℕ) : Cmyka :=
  ⟨round cmyka.c digits, round cmyka.m digits, round cmyka.y digits,
   round cmyka.k digits,
   round cmyka.a (if ALPHA_PRECISION > digits then ALPHA_PRECISION else digits)⟩

/-- Transforms the CMYK color object to RGB. -/
noncomputable def cmykaToRgba (cmyka : Cmyka) : Rgba :=
  ⟨round (fin 255 * (fin 1 - cmyka.c / fin 100) * (fin 1 - cmyka.k / fin 100)) 0,
   round (fin 255 * (fin 1 - cmyka.m / fin 100) * (fin 1 - cmyka.k / fin 100)) 0,
   round (fin 255 * (fin 1 - cmyka.y / fin 100) * (fin 1 - cmyka.k / fin 100)) 0,
   cmyka.a⟩

/-- Converts an RGB color object to CMYK; the 0/0 NaN arising for black is
coerced to 0. -/
noncomputable def rgbaToCmyka (rgba : Rgba) : Cmyka :=
  let kk := fin 1 - jmax (rgba.r / fin 255) (jmax (rgba.g / fin 255) (rgba.b / fin 255))
  let c := (fin 1 - rgba.r / fin 255 - kk) / (fin 1 - kk)
  let m := (fin 1 - rgba.g / fin 255 - kk) / (fin 1 - kk)
  let y := (fin 1 - rgba.b / fin 255 - kk) / (fin 1 - kk)
  ⟨if isNaN c then fin 0 else round (c * fin 100) 0,
   if isNaN m then fin 0 else round (m * fin 100) 0,
   if isNaN y then fin 0 else round (y * fin 100) 0,
   round (kk * fin 100) 0,
   rgba.a⟩

/-
A11y module (relative luminance and WCAG contrast).
-/

/-- Perceived luminance of a color, 0-1, per WCAG 2.0. -/
noncomputable def getLuminance (rgba : Rgba) : JsNum :=
  let sRed := linearizeRgbChannel rgba.r
  let sGreen := linearizeRgbChannel rgba.g
  let sBlue := linearizeRgbChannel rgba.b
  fin 0.2126 * sRed + fin 0.7152 * sGreen + fin 0.0722 * sBlue

/-- Contrast ratio for a color pair, 1-21. -/
noncomputable def getContrast (rgb1 rgb2 : Rgba) : JsNum :=
  let l1 := getLuminance rgb1
  let l2 := getLuminance rgb2
  if jgt l1 l2 then (l1 + fin 0.05) / (l2 + fin 0.05)
  else (l2 + fin 0.05) / (l1 + fin 0.05)

/-- The contrast plugin method: floor(getContrast(...), 2), with the second
color already resolved to its RGBA value by the host handle. -/
noncomputable def contrastMethod (rgba1 rgba2 : Rgba) : JsNum :=
  floor (getContrast rgba1 rgba2) 2

/-
CIEDE2000 delta module.
-/

/-- The CIEDE2000 color difference of two LAB colors, exactly as computed by
getDeltaE00 (kl = kc = kh = 1). -/
noncomputable def getDeltaE00 (color1 color2 : Laba) : JsNum :=
  let l1 := color1.l
  let a1 := color1.a
  let b1 := color1.b
  let l2 := color2.l
  let a2 := color2.a
  let b2 := color2.b
  let rad2deg : JsNum := fin (180 / Real.pi)
  let deg2rad : JsNum := fin (Real.pi / 180)
  let c1 := rpow (npow a1 2 + npow b1 2) 0.5
  let c2 := rpow (npow a2 2 + npow b2 2) 0.5
  let mc := (c1 + c2) / fin 2
  let ml := (l1 + l2) / fin 2
  let c7 := npow mc 7
  let g := fin 0.5 * (fin 1 - rpow (c7 / (c7 + npow (fin 25) 7)) 0.5)
  let a11 := a1 * (fin 1 + g)
  let a22 := a2 * (fin 1 + g)
  let c11 := rpow (npow a11 2 + npow b1 2) 0.5
  let c22 := rpow (npow a22 2 + npow b2 2) 0.5
  let mc1 := (c11 + c22) / fin 2
  let h1a := if eqv a11 (fin 0) ∧ eqv b1 (fin 0) then fin 0 else jatan2 b1 a11 * rad2deg
  let h1 := if jlt h1a (fin 0) then h1a + fin 360 else h1a
  let h2a := if eqv a22 (fin 0) ∧ eqv b2 (fin 0) then fin 0 else jatan2 b2 a22 * rad2deg
  let h2 := if jlt h2a (fin 0) then h2a + fin 360 else h2a
  let dh0 := h2 - h1
  let dhAbs := jabs (h2 - h1)
  let dh :=
    if jgt dhAbs (fin 180) ∧ jle h2 h1 then dh0 + fin 360
    else if jgt dhAbs (fin 180) ∧ jgt h2 h1 then dh0 - fin 360
    else dh0
  let H0 := h1 + h2
  let H :=
    if jle dhAbs (fin 180) then H0 / fin 2
    else (if jlt (h1 + h2) (fin 360) then H0 + fin 360 else H0 - fin 360) / fin 2
  let T :=
    fin 1 - fin 0.17 * jcos (deg2rad * (H - fin 30)) +
      fin 0.24 * jcos (deg2rad * fin 2 * H) +
      fin 0.32 * jcos (deg2rad * (fin 3 * H + fin 6)) -
      fin 0.2 * jcos (deg2rad * (fin 4 * H - fin 63))
  let dL := l2 - l1
  let dC := c22 - c11
  let dH := fin 2 * jsin ((deg2rad * dh) / fin 2) * rpow (c11 * c22) 0.5
  let sL := fin 1 + (fin 0.015 * npow (ml - fin 50) 2) / rpow (fin 20 + npow (ml - fin 50) 2) 0.5
  let sC := fin 1 + fin 0.045 * mc1
  let sH := fin 1 + fin 0.015 * mc1 * T
  let dTheta := fin 30 * jexp (fin (-1) * npow ((H - fin 275) / fin 25) 2)
  let Rc := fin 2 * rpow (c7 / (c7 + npow (fin 25) 7)) 0.5
  let Rt := -Rc * jsin (deg2rad * fin 2 * dTheta)
  let kl := fin 1
  let kc := fin 1
  let kh := fin 1
  rpow (npow (dL / kl / sL) 2 + npow (dC / kc / sC) 2 + npow (dH / kh / sH) 2 +
          (Rt * dC * dH) / (kc * sC * kh * sH)) 0.5

/-- The delta plugin method with both colors already converted to their LAB
views by toLab: getDeltaE00(...) / 100, rounded to 3 digits and clamped
into 0..1. -/
noncomputable def deltaOp (lab1 lab2 : Laba) : JsNum :=
  clamp (round (getDeltaE00 lab1 lab2 / fin 100) 3) (fin 0) (fin 1)

/-
String codec module. Each fixed anchored regular expression of the source is
translated into a recursive-descent matcher over the character list; the
matchers are deterministic, which coincides with the regex semantics here
because no alternative of any optional group can consume a character that
the following grammar element accepts.
-/

/-- JS regexp whitespace class (the ASCII part: space, tab, LF, VT, FF,
CR). -/
def jsSpace (c : Char) : Bool :=
  c == ' ' || c == '\t' || c == '\n' || c == '\x0b' || c == '\x0c' || c == '\r'

/-- Greedy star of whitespace. -/
def skipSpaces : List Char → List Char
  | [] => []
  | c :: rest => if jsSpace c then skipSpaces rest else c :: rest

/-- One or more whitespace characters. -/
def matchSpaces1 : List Char → Option (List Char)
  | [] => none
  | c :: rest => if jsSpace c then some (skipSpaces rest) else none

/-- Greedy span of decimal digits. -/
def spanDigits : List Char → List Char × List Char
  | [] => ([], [])
  | c :: rest =>
      if c.isDigit then
        let p := spanDigits rest
        (c :: p.1, p.2)
      else ([], c :: rest)

/-- Decimal value of a digit string. -/
def digitsToNat (l : List Char) : ℕ :=
  l.foldl (fun acc c => 10 * acc + (c.toNat - 48)) 0

/-- The numeric token of every grammar: an optionally signed decimal with
optional fraction and a mandatory digit after the dot, exactly the regex
piece with sign, digit star, optional dot, digit plus. Returns the exact
rational value of the literal. -/
def matchNumber (l : List Char) : Option (ℚ × List Char) :=
  let sp : ℚ × List Char :=
    match l with
    | '+' :: rest => (1, rest)
    | '-' :: rest => (-1, rest)
    | rest => (1, rest)
  let p1 := spanDigits sp.2
  match p1.2 with
  | '.' :: r2 =>
      let p2 := spanDigits r2
      if p2.1.isEmpty then none
      else
        some (sp.1 * ((digitsToNat p1.1 : ℚ) + (digitsToNat p2.1 : ℚ) / (10 : ℚ) ^ p2.1.length),
              p2.2)
  | _ => if p1.1.isEmpty then none else some (sp.1 * (digitsToNat p1.1 : ℚ), p1.2)

/-- Optional percent sign; returns whether it was present. -/
def matchPercent : List Char → Bool × List Char
  | '%' :: rest => (true, rest)
  | l => (false, l)

/-- Case-insensitive literal match (the pattern is given in lowercase). -/
def stripCI : List Char → List Char → Option (List Char)
  | [], l => some l
  | _ :: _, [] => none
  | p :: ps, c :: cs => if c.toLower == p then stripCI ps cs else none

/-- One unit keyword attempt, capturing the text in its original case. -/
def tryUnit (u : String) (l : List Char) : Option (String × List Char) :=
  match stripCI u.data l with
  | some rest => some (String.mk (l.take u.length), rest)
  | none => none

/-- The optional angle-unit group, alternatives in regex order
deg, rad, grad, turn. -/
def matchUnit (l : List Char) : Option String × List Char :=
  match tryUnit "deg" l with
  | some p => (some p.1, p.2)
  | none =>
    match tryUnit "rad" l with
    | some p => (some p.1, p.2)
    | none =>
      match tryUnit "grad" l with
      | some p => (some p.1, p.2)
      | none =>
        match tryUnit "turn" l with
        | some p => (some p.1, p.2)
        | none => (none, l)

/-- The optional alpha group: a slash, spaces, a number, an optional percent
sign and trailing spaces. Absence of the group leaves the input alone; a
slash not followed by a number fails the whole match (the regex cannot
match the leftover slash either). -/
def matchAlphaPart : List Char → Option (Option (ℚ × Bool) × List Char)
  | '/' :: rest =>
      match matchNumber (skipSpaces rest) with
      | some p =>
          let pct := matchPercent p.2
          some (some (p.1, pct.1), skipSpaces pct.2)
      | none => none
  | l => some (none, l)

/-- The captures of the LCH string grammar
lch( percentage number hue-with-optional-unit optional-alpha ). -/
structure LchCaps where
  l : ℚ
  c : ℚ
  h : ℚ
  unit : Option String
  alpha : Option (ℚ × Bool)

/-- Anchored matcher for the LCH grammar (case-insensitive). -/
def lchaMatch (input : String) : Option LchCaps :=
  match stripCI "lch(".data input.data with
  | none => none
  | some l0 =>
    match matchNumber (skipSpaces l0) with
    | none => none
    | some (lv, r1) =>
      match r1 with
      | '%' :: r2 =>
        match matchSpaces1 r2 with
        | none => none
        | some r3 =>
          match matchNumber r3 with
          | none => none
          | some (cv, r4) =>
            match matchSpaces1 r4 with
            | none => none
            | some r5 =>
              match matchNumber r5 with
              | none => none
              | some (hv, r6) =>
                let up := matchUnit r6
                match matchAlphaPart (skipSpaces up.2) with
                | none => none
                | some (alpha, r9) =>
                  match r9 with
                  | [')'] => some ⟨lv, cv, hv, up.1, alpha⟩
                  | _ => none
      | _ => none

/-- The captures of the HWB string grammar
hwb( hue-with-optional-unit percentage percentage optional-alpha ). -/
structure HwbCaps where
  h : ℚ
  unit : Option String
  w : ℚ
  b : ℚ
  alpha : Option (ℚ × Bool)

/-- Anchored matcher for the HWB grammar (case-insensitive). -/
def hwbaMatch (input : String) : Option HwbCaps :=
  match stripCI "hwb(".data input.data with
  | none => none
  | some l0 =>
    match matchNumber (skipSpaces l0) with
    | none => none
    | some (hv, r1) =>
      let up := matchUnit r1
      match matchSpaces1 up.2 with
      | none => none
      | some r2 =>
        match matchNumber r2 with
        | none => none
        | some (wv, r3) =>
          match r3 with
          | '%' :: r4 =>
            match matchSpaces1 r4 with
            | none => none
            | some r5 =>
              match matchNumber r5 with
              | none => none
              | some (bv, r6) =>
                match r6 with
                | '%' :: r7 =>
                  match matchAlphaPart (skipSpaces r7) with
                  | none => none
                  | some (alpha, r8) =>
                    match r8 with
                    | [')'] => some ⟨hv, up.1, wv, bv, alpha⟩
                    | _ => none
                | _ => none
          | _ => none

/-- The captures of the device-cmyk string grammar: four numbers, each with
an optional percent sign, and an optional alpha. -/
structure CmykCaps where
  c : ℚ
  cPct : Bool
  m : ℚ
  mPct : Bool
  y : ℚ
  yPct : Bool
  k : ℚ
  kPct : Bool
  alpha : Option (ℚ × Bool)

/-- Anchored matcher for the device-cmyk grammar (case-insensitive). -/
def cmykaMatch (input : String) : Option CmykCaps :=
  match stripCI "device-cmyk(".data input.data with
  | none => none
  | some l0 =>
    match matchNumber (skipSpaces l0) with
    | none => none
    | some (cv, r1) =>
      let cp := matchPercent r1
      match matchSpaces1 cp.2 with
      | none => none
      | some r2 =>
        match matchNumber r2 with
        | none => none
        | some (mv, r3) =>
          let mp := matchPercent r3
          match matchSpaces1 mp.2 with
          | none => none
          | some r4 =>
            match matchNumber r4 with
            | none => none
            | some (yv, r5) =>
              let yp := matchPercent r5
              match matchSpaces1 yp.2 with
              | none => none
              | some r6 =>
                match matchNumber r6 with
                | none => none
                | some (kv, r7) =>
                  let kp := matchPercent r7
                  match matchAlphaPart (skipSpaces kp.2) with
                  | none => none
                  | some (alpha, r8) =>
                    match r8 with
                    | [')'] => some ⟨cv, cp.1, mv, mp.1, yv, yp.1, kv, kp.1, alpha⟩
                    | _ => none

/-- The alpha capture value: match[i] === undefined ? 1 :
Number(match[i]) / (percent ? 100 : 1). -/
noncomputable def alphaCapValue : Option (ℚ × Bool) → JsNum
  | none => fin 1
  | some (v, pct) => fin (v : ℝ) / (if pct then fin 100 else fin 1)

/-- Parses a valid LCH CSS color function, null on grammar mismatch. -/
noncomputable def parseLchaString (input : String) : Option Rgba :=
  match lchaMatch input with
  | none => none
  | some m =>
      some (lchaToRgba (clampLcha
        ⟨fin (m.l : ℝ), fin (m.c : ℝ), parseHue m.h (m.unit.getD "deg"),
         alphaCapValue m.alpha⟩))

/-- Parses a valid HWB CSS color function, null on grammar mismatch. -/
noncomputable def parseHwbaString (input : String) : Option Rgba :=
  match hwbaMatch input with
  | none => none
  | some m =>
      some (hwbaToRgba (clampHwba
        ⟨parseHue m.h (m.unit.getD "deg"), fin (m.w : ℝ), fin (m.b : ℝ),
         alphaCapValue m.alpha⟩))

/-- Parses a valid device-cmyk CSS color function, null on grammar
mismatch; a channel without a percent sign is scaled by 100. -/
noncomputable def parseCmykaString (input : String) : Option Rgba :=
  match cmykaMatch input with
  | none => none
  | some m =>
      some (cmykaToRgba (clampCmyka
        ⟨fin (m.c : ℝ) * (if m.cPct then fin 1 else fin 100),
         fin (m.m : ℝ) * (if m.mPct then fin 1 else fin 100),
         fin (m.y : ℝ) * (if m.yPct then fin 1 else fin 100),
         fin (m.k : ℝ) * (if m.kPct then fin 1 else fin 100),
         alphaCapValue m.alpha⟩))

/-
Formatters. A JS template string is modelled as the list of its literal
chunks and interpolated numbers; the numeral rendering of an interpolated
number is irrelevant to every property stated about the formatters.
-/

/-- One piece of a rendered template string. -/
inductive JTok where
  | lit (s : String)
  | num (n : JsNum)

/-- Whether a character list contains the alpha separator, a slash between
two spaces. -/
def sepSub : List Char → Bool
  | ' ' :: '/' :: ' ' :: _ => true
  | _ :: rest => sepSub rest
  | [] => false

/-- Whether a rendered template emits the alpha suffix: some literal chunk
contains the separator text. Interpolated numerals never render a slash. -/
def hasAlphaSep (toks : List JTok) : Bool :=
  toks.any fun t =>
    match t with
    | .lit s => sepSub s.data
    | .num _ => false

/-- lch(l% c h / a) when the rounded alpha is below 1, otherwise
lch(l% c h). -/
noncomputable def rgbaToLchaString (rgba : Rgba) (digits : ℕ) : List JTok :=
  let x := roundLcha (rgbaToLcha rgba) digits
  if jlt x.a (fin 1) then
    [.lit "lch(", .num x.l, .lit "% ", .num x.c, .lit " ", .num x.h, .lit " / ",
     .num x.a, .lit ")"]
  else
    [.lit "lch(", .num x.l, .lit "% ", .num x.c, .lit " ", .num x.h, .lit ")"]

/-- hwb(h w% b% / a) when the rounded alpha is below 1, otherwise
hwb(h w% b%). -/
noncomputable def rgbaToHwbaString (rgba : Rgba) (digits : ℕ) : List JTok :=
  let x := roundHwba (rgbaToHwba rgba) digits
  if jlt x.a (fin 1) then
    [.lit "hwb(", .num x.h, .lit " ", .num x.w, .lit "% ", .num x.b, .lit "% / ",
     .num x.a, .lit ")"]
  else
    [.lit "hwb(", .num x.h, .lit " ", .num x.w, .lit "% ", .num x.b, .lit "%)"]

/-- device-cmyk(c% m% y% k% / a) when the rounded alpha is below 1,
otherwise device-cmyk(c% m% y% k%). -/
noncomputable def rgbaToCmykaString (rgb : Rgba) (digits : ℕ) : List JTok :=
  let x := roundCmyka (rgbaToCmyka rgb) digits
  if jlt x.a (fin 1) then
    [.lit "device-cmyk(", .num x.c, .lit "% ", .num x.m, .lit "% ", .num x.y,
     .lit "% ", .num x.k, .lit "% / ", .num x.a, .lit ")"]
  else
    [.lit "device-cmyk(", .num x.c, .lit "% ", .num x.m, .lit "% ", .num x.y,
     .lit "% ", .num x.k, .lit "%)"]

/-
Object parsers. Number() on a string: trimmed empty gives 0, a decimal
literal (optionally with an exponent) gives its value, the Infinity
keywords give infinities, anything else gives NaN. Hexadecimal, octal and
binary literals are outside the scope of this development and are mapped
to NaN; no claim exercises them.
-/

/-- A full decimal literal for Number(): sign, digits with optional
fraction (at least one digit overall), optional exponent; the whole string
must be consumed. -/
def numLit (l : List Char) : Option ℚ :=
  let sp : ℚ × List Char :=
    match l with
    | '+' :: rest => (1, rest)
    | '-' :: rest => (-1, rest)
    | rest => (1, rest)
  let p1 := spanDigits sp.2
  let mantissa : Option (ℚ × List Char) :=
    match p1.2 with
    | '.' :: r2 =>
        let p2 := spanDigits r2
        if p1.1.isEmpty ∧ p2.1.isEmpty then none
        else
          some ((digitsToNat p1.1 : ℚ) + (digitsToNat p2.1 : ℚ) / (10 : ℚ) ^ p2.1.length,
                p2.2)
    | _ => if p1.1.isEmpty then none else some ((digitsToNat p1.1 : ℚ), p1.2)
  match mantissa with
  | none => none
  | some (v, rest) =>
    match rest with
    | [] => some (sp.1 * v)
    | c :: r1 =>
      if c == 'e' ∨ c == 'E' then
        let esp : ℤ × List Char :=
          match r1 with
          | '+' :: r2 => (1, r2)
          | '-' :: r2 => (-1, r2)
          | r2 => (1, r2)
        let p3 := spanDigits esp.2
        if p3.1.isEmpty ∨ ¬p3.2.isEmpty then none
        else some (sp.1 * v * (10 : ℚ) ^ (esp.1 * (digitsToNat p3.1 : ℤ)))
      else none

/-- Number(string). -/
noncomputable def jsStringToNum (s : String) : JsNum :=
  let t := ((s.data.dropWhile fun c => jsSpace c).reverse.dropWhile fun c => jsSpace c).reverse
  if t.isEmpty then fin 0
  else if t = "Infinity".data ∨ t = "+Infinity".data then inf true
  else if t = "-Infinity".data then inf false
  else
    match numLit t with
    | some q => fin (q : ℝ)
    | none => nan

/-- Number() applied to an object-parser channel value. -/
noncomputable def JsIn.toNumber : JsIn → JsNum
  | .num n => n
  | .str s => jsStringToNum s
  | .undef => nan

/-- parseLcha on a plain object: the arguments are the l, c, h, a fields,
absent fields are JsIn.undef, and a missing alpha defaults to 1 through
the destructuring default before Number() is applied. -/
noncomputable def parseLcha (l c h a : JsIn) : Option Rgba :=
  if !(isPresent l) || !(isPresent c) || !(isPresent h) then none
  else
    let a1 : JsIn := match a with | .undef => .num (fin 1) | v => v
    some (lchaToRgba (clampLcha
      ⟨JsIn.toNumber l, JsIn.toNumber c, JsIn.toNumber h, JsIn.toNumber a1⟩))

/-- parseHwba on a plain object. -/
noncomputable def parseHwba (h w b a : JsIn) : Option Rgba :=
  if !(isPresent h) || !(isPresent w) || !(isPresent b) then none
  else
    let a1 : JsIn := match a with | .undef => .num (fin 1) | v => v
    some (hwbaToRgba (clampHwba
      ⟨JsIn.toNumber h, JsIn.toNumber w, JsIn.toNumber b, JsIn.toNumber a1⟩))

/-- parseCmyka on a plain object. -/
noncomputable def parseCmyka (c m y kv a : JsIn) : Option Rgba :=
  if !(isPresent c) || !(isPresent m) || !(isPresent y) || !(isPresent kv) then none
  else
    let a1 : JsIn := match a with | .undef => .num (fin 1) | v => v
    some (cmykaToRgba (clampCmyka
      ⟨JsIn.toNumber c, JsIn.toNumber m, JsIn.toNumber y, JsIn.toNumber kv,
       JsIn.toNumber a1⟩))

/-- Real-valued mirror of the radicand of getDeltaE00 on finite inputs,
used only to organize the delta-E proofs; the agreement lemma below shows
the JsNum embedding reduces to it. -/
noncomputable def radE00 (l1 a1 b1 l2 a2 b2 : ℝ) : ℝ :=
  let rad2deg : ℝ := 180 / Real.pi
  let deg2rad : ℝ := Real.pi / 180
  let c1 := (a1 ^ 2 + b1 ^ 2) ^ (0.5 : ℝ)
  let c2 := (a2 ^ 2 + b2 ^ 2) ^ (0.5 : ℝ)
  let mc := (c1 + c2) / 2
  let ml := (l1 + l2) / 2
  let c7 := mc ^ 7
  let g := 0.5 * (1 - (c7 / (c7 + 25 ^ 7)) ^ (0.5 : ℝ))
  let a11 := a1 * (1 + g)
  let a22 := a2 * (1 + g)
  let c11 := (a11 ^ 2 + b1 ^ 2) ^ (0.5 : ℝ)
  let c22 := (a22 ^ 2 + b2 ^ 2) ^ (0.5 : ℝ)
  let mc1 := (c11 + c22) / 2
  let h1a := if a11 = 0 ∧ b1 = 0 then 0 else Complex.arg ⟨a11, b1⟩ * rad2deg
  let h1 := if h1a < 0 then h1a + 360 else h1a
  let h2a := if a22 = 0 ∧ b2 = 0 then 0 else Complex.arg ⟨a22, b2⟩ * rad2deg
  let h2 := if h2a < 0 then h2a + 360 else h2a
  let dh0 := h2 - h1
  let dhAbs := |h2 - h1|
  let dh :=
    if 180 < dhAbs ∧ h2 ≤ h1 then dh0 + 360
    else if 180 < dhAbs ∧ h1 < h2 then dh0 - 360
    else dh0
  let H0 := h1 + h2
  let H :=
    if dhAbs ≤ 180 then H0 / 2
    else (if h1 + h2 < 360 then H0 + 360 else H0 - 360) / 2
  let T :=
    1 - 0.17 * Real.cos (deg2rad * (H - 30)) +
      0.24 * Real.cos (deg2rad * 2 * H) +
      0.32 * Real.cos (deg2rad * (3 * H + 6)) -
      0.2 * Real.cos (deg2rad * (4 * H - 63))
  let dL := l2 - l1
  let dC := c22 - c11
  let dH := 2 * Real.sin (deg2rad * dh / 2) * (c11 * c22) ^ (0.5 : ℝ)
  let sL := 1 + 0.015 * (ml - 50) ^ 2 / (20 + (ml - 50) ^ 2) ^ (0.5 : ℝ)
  let sC := 1 + 0.045 * mc1
  let sH := 1 + 0.015 * mc1 * T
  let dTheta := 30 * Real.exp (-1 * ((H - 275) / 25) ^ 2)
  let Rc := 2 * (c7 / (c7 + 25 ^ 7)) ^ (0.5 : ℝ)
  let Rt := -Rc * Real.sin (deg2rad * 2 * dTheta)
  (dL / 1 / sL) ^ 2 + (dC / 1 / sC) ^ 2 + (dH / 1 / sH) ^ 2 +
    Rt * dC * dH / (1 * sC * 1 * sH)

/-- The chroma of a LAB point, as in radE00. -/
noncomputable def chromaE (a b : ℝ) : ℝ := (a ^ 2 + b ^ 2) ^ (0.5 : ℝ)

/-- The chroma-ratio c7 / (c7 + 25^7) shared by the g factor and Rc of
radE00. -/
noncomputable def qE (a1 b1 a2 b2 : ℝ) : ℝ :=
  let mc := (chromaE a1 b1 + chromaE a2 b2) / 2
  mc ^ 7 / (mc ^ 7 + 25 ^ 7)

/-- The g factor of radE00. -/
noncomputable def gE (a1 b1 a2 b2 : ℝ) : ℝ :=
  0.5 * (1 - qE a1 b1 a2 b2 ^ (0.5 : ℝ))

/-- The adjusted hue of a LAB point (in degrees, wrapped into 0..360), as in
radE00. -/
noncomputable def hE (a b : ℝ) : ℝ :=
  let h0 := if a = 0 ∧ b = 0 then 0 else Complex.arg ⟨a, b⟩ * (180 / Real.pi)
  if h0 < 0 then h0 + 360 else h0

/-- The part of radE00 downstream of the adjusted chromas c11, c22, the
adjusted hues h1, h2, and the chroma ratio q; radE00 is definitionally
radCore applied to those values (radE00_eq below). -/
noncomputable def radCore (l1 l2 c11 c22 h1 h2 q : ℝ) : ℝ :=
  let deg2rad : ℝ := Real.pi / 180
  let mc1 := (c11 + c22) / 2
  let ml := (l1 + l2) / 2
  let dh0 := h2 - h1
  let dhAbs := |h2 - h1|
  let dh :=
    if 180 < dhAbs ∧ h2 ≤ h1 then dh0 + 360
    else if 180 < dhAbs ∧ h1 < h2 then dh0 - 360
    else dh0
  let H0 := h1 + h2
  let H :=
    if dhAbs ≤ 180 then H0 / 2
    else (if h1 + h2 < 360 then H0 + 360 else H0 - 360) / 2
  let T :=
    1 - 0.17 * Real.cos (deg2rad * (H - 30)) +
      0.24 * Real.cos (deg2rad * 2 * H) +
      0.32 * Real.cos (deg2rad * (3 * H + 6)) -
      0.2 * Real.cos (deg2rad * (4 * H - 63))
  let dL := l2 - l1
  let dC := c22 - c11
  let dH := 2 * Real.sin (deg2rad * dh / 2) * (c11 * c22) ^ (0.5 : ℝ)
  let sL := 1 + 0.015 * (ml - 50) ^ 2 / (20 + (ml - 50) ^ 2) ^ (0.5 : ℝ)
  let sC := 1 + 0.045 * mc1
  let sH := 1 + 0.015 * mc1 * T
  let dTheta := 30 * Real.exp (-1 * ((H - 275) / 25) ^ 2)
  let Rc := 2 * q ^ (0.5 : ℝ)
  let Rt := -Rc * Real.sin (deg2rad * 2 * dTheta)
  (dL / 1 / sL) ^ 2 + (dC / 1 / sC) ^ 2 + (dH / 1 / sH) ^ 2 +
    Rt * dC * dH / (1 * sC * 1 * sH)

/-- The chroma computation of getDeltaE00 as a standalone JsNum function;
getDeltaE00 is definitionally a composition of these pieces
(deltaE_decompose below). -/
noncomputable def chromaJ (a b : JsNum) : JsNum :=
  rpow (npow a 2 + npow b 2) 0.5

/-- The chroma ratio c7 / (c7 + 25^7) of getDeltaE00. -/
noncomputable def qJ (a1 b1 a2 b2 : JsNum) : JsNum :=
  let mc := (chromaJ a1 b1 + chromaJ a2 b2) / fin 2
  let c7 := npow mc 7
  c7 / (c7 + npow (fin 25) 7)

/-- The g factor of getDeltaE00. -/
noncomputable def gJ (a1 b1 a2 b2 : JsNum) : JsNum :=
  fin 0.5 * (fin 1 - rpow (qJ a1 b1 a2 b2) 0.5)

/-- The adjusted hue (wrapped into 0..360) of getDeltaE00. -/
noncomputable def hJ (a b : JsNum) : JsNum :=
  let h0 :=
    if eqv a (fin 0) ∧ eqv b (fin 0) then fin 0
    else jatan2 b a * fin (180 / Real.pi)
  if jlt h0 (fin 0) then h0 + fin 360 else h0

/-- The part of getDeltaE00 downstream of the adjusted chromas, adjusted
hues and chroma ratio, mirroring radCore on the JsNum side. -/
noncomputable def deCoreJ (l1 l2 c11 c22 h1 h2 q : JsNum) : JsNum :=
  let deg2rad : JsNum := fin (Real.pi / 180)
  let mc1 := (c11 + c22) / fin 2
  let ml := (l1 + l2) / fin 2
  let dh0 := h2 - h1
  let dhAbs := jabs (h2 - h1)
  let dh :=
    if jgt dhAbs (fin 180) ∧ jle h2 h1 then dh0 + fin 360
    else if jgt dhAbs (fin 180) ∧ jgt h2 h1 then dh0 - fin 360
    else dh0
  let H0 := h1 + h2
  let H :=
    if jle dhAbs (fin 180) then H0 / fin 2
    else (if jlt (h1 + h2) (fin 360) then H0 + fin 360 else H0 - fin 360) / fin 2
  let T :=
    fin 1 - fin 0.17 * jcos (deg2rad * (H - fin 30)) +
      fin 0.24 * jcos (deg2rad * fin 2 * H) +
      fin 0.32 * jcos (deg2rad * (fin 3 * H + fin 6)) -
      fin 0.2 * jcos (deg2rad * (fin 4 * H - fin 63))
  let dL := l2 - l1
  let dC := c22 - c11
  let dH := fin 2 * jsin ((deg2rad * dh) / fin 2) * rpow (c11 * c22) 0.5
  let sL := fin 1 + (fin 0.015 * npow (ml - fin 50) 2) /
      rpow (fin 20 + npow (ml - fin 50) 2) 0.5
  let sC := fin 1 + fin 0.045 * mc1
  let sH := fin 1 + fin 0.015 * mc1 * T
  let dTheta := fin 30 * jexp (fin (-1) * npow ((H - fin 275) / fin 25) 2)
  let Rc := fin 2 * rpow q 0.5
  let Rt := -Rc * jsin (deg2rad * fin 2 * dTheta)
  let kl := fin 1
  let kc := fin 1
  let kh := fin 1
  rpow (npow (dL / kl / sL) 2 + npow (dC / kc / sC) 2 + npow (dH / kh / sH) 2 +
          (Rt * dC * dH) / (kc * sC * kh * sH)) 0.5

/-
Real mirrors of the LCH pipeline, used to organize the round-trip error
analysis; the agreement lemmas below show the JsNum embedding reduces to
them on finite inputs.
-/

/-- Real mirror of clamp on finite values. -/
noncomputable def clampR (x lo hi : ℝ) : ℝ :=
  if hi < x then hi else if lo < x then x else lo

/-- Real mirror of linearizeRgbChannel. -/
noncomputable def linR (v : ℝ) : ℝ :=
  if v / 255 < 0.04045 then v / 255 / 12.92
  else ((v / 255 + 0.055) / 1.055) ^ (2.4 : ℝ)

/-- Real mirror of unlinearizeRgbChannel. -/
noncomputable def unlinR (r : ℝ) : ℝ :=
  (if 0.0031308 < r then 1.055 * r ^ (1 / 2.4 : ℝ) - 0.055 else 12.92 * r) * 255

/-- Real mirror of Math.cbrt. -/
noncomputable def cbrtR (t : ℝ) : ℝ :=
  if t < 0 then -((-t) ^ ((1 : ℝ) / 3)) else t ^ ((1 : ℝ) / 3)

/-- Real mirror of the forward LAB branch function. -/
noncomputable def ffwdR (t : ℝ) : ℝ :=
  if e < t then cbrtR t else (k * t + 16) / 116

/-- Real mirror of the inverse LAB branch function used for x and z. -/
noncomputable def finvR (t : ℝ) : ℝ :=
  if e < t ^ 3 then t ^ 3 else (116 * t - 16) / k

/-- Real mirror of the inverse LAB branch function used for luminance. -/
noncomputable def yinvR (l : ℝ) : ℝ :=
  if k * e < l then ((l + 16) / 116) ^ 3 else l / k

/-- Rounding at 3 decimal places on the reals. -/
noncomputable def rnd3R (x : ℝ) : ℝ :=
  (⌊(10 : ℝ) ^ 3 * x + 1 / 2⌋ : ℝ) / (10 : ℝ) ^ 3

/-- D65 XYZ coordinates (times 100) of a color with linearized channels. -/
noncomputable def x65R (r g b : ℝ) : ℝ :=
  (linR r * 0.4124564 + linR g * 0.3575761 + linR b * 0.1804375) * 100

noncomputable def y65R (r g b : ℝ) : ℝ :=
  (linR r * 0.2126729 + linR g * 0.7151522 + linR b * 0.072175) * 100

noncomputable def z65R (r g b : ℝ) : ℝ :=
  (linR r * 0.0193339 + linR g * 0.119192 + linR b * 0.9503041) * 100

/-- The D50-adapted and clamped XYZ coordinates of an RGB color. -/
noncomputable def x50R (r g b : ℝ) : ℝ :=
  clampR (x65R r g b * 1.0478112 + y65R r g b * 0.0228866 +
    z65R r g b * (-0.050127)) 0 96.422

noncomputable def y50R (r g b : ℝ) : ℝ :=
  clampR (x65R r g b * 0.0295424 + y65R r g b * 0.9904844 +
    z65R r g b * (-0.0170491)) 0 100

noncomputable def z50R (r g b : ℝ) : ℝ :=
  clampR (x65R r g b * (-0.0092345) + y65R r g b * 0.0150436 +
    z65R r g b * 0.7521316) 0 82.521

/-- The LAB f-coordinates of an RGB color. -/
noncomputable def fxR (r g b : ℝ) : ℝ := ffwdR (x50R r g b / 96.422)

noncomputable def fyR (r g b : ℝ) : ℝ := ffwdR (y50R r g b / 100)

noncomputable def fzR (r g b : ℝ) : ℝ := ffwdR (z50R r g b / 82.521)

/-- The LAB coordinates of an RGB color. -/
noncomputable def labLR (r g b : ℝ) : ℝ := 116 * fyR r g b - 16

noncomputable def labAR (r g b : ℝ) : ℝ := 500 * (fxR r g b - fyR r g b)

noncomputable def labBR (r g b : ℝ) : ℝ := 200 * (fyR r g b - fzR r g b)

/-- The XYZ coordinates recovered from a LAB triple (backward direction). -/
noncomputable def xbR (l a : ℝ) : ℝ := finvR (a / 500 + (l + 16) / 116) * 96.422

noncomputable def ybR (l : ℝ) : ℝ := yinvR l * 100

noncomputable def zbR (l b : ℝ) : ℝ := finvR ((l + 16) / 116 - b / 200) * 82.521

/-- The D65 re-adaptation of a recovered XYZ triple. -/
noncomputable def x65bR (x y z : ℝ) : ℝ :=
  x * 0.9555766 + y * (-0.0230393) + z * 0.0631636

noncomputable def y65bR (x y z : ℝ) : ℝ :=
  x * (-0.0282895) + y * 1.0099416 + z * 0.0210077

noncomputable def z65bR (x y z : ℝ) : ℝ :=
  x * 0.0122982 + y * (-0.020483) + z * 1.3299098

/-- The final RGB channels produced from a recovered XYZ triple. -/
noncomputable def outR (x y z : ℝ) : ℝ :=
  clampR (unlinR (0.032404542 * x65bR x y z - 0.015371385 * y65bR x y z -
    0.004985314 * z65bR x y z)) 0 255

noncomputable def outG (x y z : ℝ) : ℝ :=
  clampR (unlinR ((-0.00969266) * x65bR x y z + 0.018760108 * y65bR x y z +
    0.00041556 * z65bR x y z)) 0 255

noncomputable def outB (x y z : ℝ) : ℝ :=
  clampR (unlinR (0.000556434 * x65bR x y z - 0.002040259 * y65bR x y z +
    0.010572252 * z65bR x y z)) 0 255

/-
Reduction lemmas: every JsNum operation applied to finite operands reduces
to the corresponding real operation (with the side conditions under which
no special value arises).
-/

namespace JsNum

@[simp] theorem fin_add (x y : ℝ) : (fin x + fin y : JsNum) = fin (x + y) := rfl

@[simp] theorem fin_neg (x : ℝ) : (-(fin x) : JsNum) = fin (-x) := rfl

@[simp] theorem fin_sub (x y : ℝ) : (fin x - fin y : JsNum) = fin (x - y) := by
  show add (fin x) (neg (fin y)) = _
  simp [add, neg, sub_eq_add_neg]

@[simp] theorem fin_mul (x y : ℝ) : (fin x * fin y : JsNum) = fin (x * y) := rfl

@[simp] theorem fin_div (x y : ℝ) (h : y ≠ 0) :
    (fin x / fin y : JsNum) = fin (x / y) := by
  show div (fin x) (fin y) = _
  simp [div, h]

@[simp] theorem fin_mod (x y : ℝ) (h : y ≠ 0) :
    (fin x % fin y : JsNum) = fin (x - y * (truncR (x / y) : ℝ)) := by
  show mod (fin x) (fin y) = _
  simp [mod, h]

@[simp] theorem fin_jmax (x y : ℝ) : jmax (fin x) (fin y) = fin (max x y) := rfl

@[simp] theorem fin_jmin (x y : ℝ) : jmin (fin x) (fin y) = fin (min x y) := rfl

@[simp] theorem fin_mfloor (x : ℝ) : mfloor (fin x) = fin (⌊x⌋ : ℝ) := rfl

@[simp] theorem fin_mround (x : ℝ) : mround (fin x) = fin (⌊x + 1 / 2⌋ : ℝ) := rfl

@[simp] theorem fin_rpow (x e : ℝ) (h : 0 ≤ x) : rpow (fin x) e = fin (x ^ e) := by
  simp [rpow, not_lt.2 h]

@[simp] theorem fin_npow (x : ℝ) (n : ℕ) : npow (fin x) n = fin (x ^ n) := rfl

@[simp] theorem fin_jsqrt (x : ℝ) (h : 0 ≤ x) : jsqrt (fin x) = fin (Real.sqrt x) := by
  simp [jsqrt, not_lt.2 h]

@[simp] theorem fin_jabs (x : ℝ) : jabs (fin x) = fin |x| := rfl

@[simp] theorem fin_jcos (x : ℝ) : jcos (fin x) = fin (Real.cos x) := rfl

@[simp] theorem fin_jsin (x : ℝ) : jsin (fin x) = fin (Real.sin x) := rfl

@[simp] theorem fin_jexp (x : ℝ) : jexp (fin x) = fin (Real.exp x) := rfl

@[simp] theorem fin_jatan2 (y x : ℝ) :
    jatan2 (fin y) (fin x) = fin (Complex.arg ⟨x, y⟩) := rfl

@[simp] theorem fin_jlt (x y : ℝ) : jlt (fin x) (fin y) ↔ x < y := Iff.rfl

@[simp] theorem fin_jle (x y : ℝ) : jle (fin x) (fin y) ↔ x ≤ y := Iff.rfl

@[simp] theorem fin_jgt (x y : ℝ) : jgt (fin x) (fin y) ↔ y < x := Iff.rfl

@[simp] theorem fin_eqv (x y : ℝ) : eqv (fin x) (fin y) ↔ x = y := Iff.rfl

@[simp] theorem fin_truthy (x : ℝ) : truthy (fin x) ↔ x ≠ 0 := Iff.rfl

@[simp] theorem fin_isFinite (x : ℝ) : isFinite (fin x) = true := rfl

@[simp] theorem nan_isFinite : isFinite nan = false := rfl

@[simp] theorem fin_isNaN (x : ℝ) : isNaN (fin x) = false := rfl

@[simp] theorem nan_isNaN : isNaN nan = true := rfl

end JsNum

/-- Rounding helpers reduce on finite values to a floor expression. -/
@[simp] theorem round_fin (x : ℝ) (d : ℕ) :
    round (fin x) d = fin ((⌊(10 : ℝ) ^ d * x + 1 / 2⌋ : ℝ) / (10 : ℝ) ^ d) := by
  have hb : ((10 : ℝ) ^ d) ≠ 0 := by positivity
  simp [round, hb]

@[simp] theorem floor_fin (x : ℝ) (d : ℕ) :
    floor (fin x) d = fin ((⌊(10 : ℝ) ^ d * x⌋ : ℝ) / (10 : ℝ) ^ d) := by
  have hb : ((10 : ℝ) ^ d) ≠ 0 := by positivity
  simp [floor, hb]

/-- clamp on finite values is the two-sided real clamp. -/
theorem clamp_fin (x lo hi : ℝ) :
    clamp (fin x) (fin lo) (fin hi) =
      if hi < x then fin hi else if lo < x then fin x else fin lo := by
  simp only [clamp, JsNum.fin_jgt]

/-- clamp of NaN resolves to the lower bound. -/
theorem clamp_nan (lo hi : JsNum) : clamp JsNum.nan lo hi = lo := by
  cases lo <;> cases hi <;> simp [clamp, jgt, jlt]

/-- clamp on a finite value already inside the bounds is the identity. -/
theorem clamp_fin_of_mem (x lo hi : ℝ) (h1 : lo ≤ x) (h2 : x ≤ hi) :
    clamp (fin x) (fin lo) (fin hi) = fin x := by
  rw [clamp_fin]
  rcases lt_or_eq_of_le h1 with h | h
  · rw [if_neg (not_lt.2 h2), if_pos h]
  · rw [if_neg (not_lt.2 h2), if_neg (by rw [h]; exact lt_irrefl x)]
    exact congrArg _ h

/-- C1: the claim says clampHue returns 0 on non-finite input and otherwise
lands in the half-open range 0 inclusive to 360 exclusive. The code agrees
with the claimed wraparound at -1 and 361, but on NaN (and on every finite
multiple of 360, such as 0) it returns 360, because the shift branch tests
degrees > 0 rather than degrees >= 0; this contradicts the claim and the
doc comment of clampHue itself, which promises 0 for NaN and Infinity. -/
theorem c1_clampHue_values :
    clampHue JsNum.nan = fin 360 ∧ clampHue (fin (-1)) = fin 359 ∧
      clampHue (fin 361) = fin 1 ∧ clampHue (fin 0) = fin 360 := by
  have h360 : (360 : ℝ) ≠ 0 := by norm_num
  have t1 : truncR ((-1 : ℝ) / 360) = 0 := by
    rw [truncR, if_neg (by norm_num)]
    have : ⌊-((-1 : ℝ) / 360)⌋ = 0 := by
      rw [Int.floor_eq_zero_iff]
      constructor <;> norm_num
    rw [this]; ring
  have t2 : truncR ((361 : ℝ) / 360) = 1 := by
    rw [truncR, if_pos (by norm_num)]
    rw [Int.floor_eq_iff]
    constructor <;> norm_num
  have t3 : truncR ((0 : ℝ) / 360) = 0 := by
    rw [truncR, if_pos (by norm_num)]
    norm_num
  refine ⟨?_, ?_, ?_, ?_⟩
  · simp only [clampHue, JsNum.nan_isFinite, Bool.false_eq_true, if_false]
    norm_num
  · simp only [clampHue, JsNum.fin_isFinite, if_true]
    rw [JsNum.fin_mod _ _ h360, t1]
    norm_num
  · simp only [clampHue, JsNum.fin_isFinite, if_true]
    rw [JsNum.fin_mod _ _ h360, t2]
    norm_num
  · simp only [clampHue, JsNum.fin_isFinite, if_true]
    rw [JsNum.fin_mod _ _ h360, t3]
    norm_num

/-- Floor of a concrete real, by its bounds. -/
theorem floor_eval (r : ℝ) (n : ℤ) (h1 : (n : ℝ) ≤ r) (h2 : r < n + 1) :
    ⌊r⌋ = n := Int.floor_eq_iff.2 ⟨h1, h2⟩

/-- Rounding at d digits leaves a value alone when scaling by 10^d makes it
an integer. -/
theorem round_fin_self (x : ℝ) (d : ℕ) (n : ℤ) (h : (10 : ℝ) ^ d * x = (n : ℝ)) :
    round (fin x) d = fin x := by
  have hb : ((10 : ℝ) ^ d) ≠ 0 := by positivity
  have hfl : ⌊(10 : ℝ) ^ d * x + 1 / 2⌋ = n := by
    rw [h, add_comm, Int.floor_add_int]
    norm_num [Int.floor_eq_zero_iff, Set.mem_Ico]
  rw [round_fin, hfl]
  congr 1
  field_simp
  linarith [h]

/-- C3: converting RGB black to CMYK gives c = m = y = 0 and k = 100 with
the alpha passed through untouched: k is 1, so each of c, m, y is the NaN
of 0/0 and the isNaN fallback turns it into 0 instead of erroring. -/
theorem c3_rgbaToCmyka_black (a : JsNum) :
    rgbaToCmyka ⟨fin 0, fin 0, fin 0, a⟩ = ⟨fin 0, fin 0, fin 0, fin 100, a⟩ := by
  have hz : (fin 0 / fin 255 : JsNum) = fin 0 := by
    rw [JsNum.fin_div _ _ (by norm_num : (255 : ℝ) ≠ 0)]; norm_num
  have hnan : (fin 0 / fin 0 : JsNum) = JsNum.nan := by
    show JsNum.div _ _ = _
    simp [JsNum.div]
  have hround : round (fin (100 : ℝ)) 0 = fin 100 :=
    round_fin_self 100 0 100 (by norm_num)
  simp only [rgbaToCmyka, hz]
  norm_num [hnan, hround]

/-- C9: the presentation rounding of LCH, HWB and CMYK values rounds the
alpha channel at max(3, digits) digits, so alpha keeps at least 3 digits of
precision whatever precision is requested for the other channels. -/
theorem c9_alpha_digits (lcha : Lcha) (hwba : Hwba) (cmyka : Cmyka) (d : ℕ) :
    (roundLcha lcha d).a = round lcha.a (max 3 d) ∧
      (roundHwba hwba d).a = round hwba.a (max 3 d) ∧
      (roundCmyka cmyka d).a = round cmyka.a (max 3 d) := by
  have hm : (if ALPHA_PRECISION > d then ALPHA_PRECISION else d) = max 3 d := by
    simp only [ALPHA_PRECISION]
    split <;> omega
  exact ⟨by rw [roundLcha, hm], by rw [roundHwba, hm], by rw [roundCmyka, hm]⟩

/-- C10: an object parser returns null exactly when some required channel
is not present (missing, or an empty string); any present channel passes,
even a non-numeric string, which Number() coerces to NaN and the conversion
clamps or propagates instead of rejecting. The last two conjuncts exhibit
this: a present non-numeric string channel still produces a color, while an
empty-string channel produces null. -/
theorem c10_object_parsers :
    (∀ l c h a : JsIn,
        parseLcha l c h a = none ↔
          (isPresent l && isPresent c && isPresent h) = false) ∧
      (∀ h w b a : JsIn,
        parseHwba h w b a = none ↔
          (isPresent h && isPresent w && isPresent b) = false) ∧
      (∀ c m y kv a : JsIn,
        parseCmyka c m y kv a = none ↔
          (isPresent c && isPresent m && isPresent y && isPresent kv) = false) ∧
      (parseLcha (.str "fifty") (.num (fin 30)) (.num (fin 20)) .undef).isSome = true ∧
      parseHwba (.str "x") (.num (fin 20)) (.str "") .undef = none := by
  refine ⟨?_, ?_, ?_, rfl, rfl⟩
  · intro l c h a
    cases hl : isPresent l <;> cases hc : isPresent c <;> cases hh : isPresent h <;>
      simp [parseLcha, hl, hc, hh]
  · intro h w b a
    cases hh : isPresent h <;> cases hw : isPresent w <;> cases hb : isPresent b <;>
      simp [parseHwba, hh, hw, hb]
  · intro c m y kv a
    cases hc : isPresent c <;> cases hm : isPresent m <;> cases hy : isPresent y <;>
      cases hk : isPresent kv <;> simp [parseCmyka, hc, hm, hy, hk]

/-- C8: each string parser returns null exactly on grammar mismatch of its
fixed anchored matcher; a match always yields a color, and parsing is a
total function, so malformed input is a normal null outcome, never an
exception. -/
theorem c8_string_parse_null (s : String) :
    (parseLchaString s = none ↔ lchaMatch s = none) ∧
      (parseHwbaString s = none ↔ hwbaMatch s = none) ∧
      (parseCmykaString s = none ↔ cmykaMatch s = none) := by
  refine ⟨?_, ?_, ?_⟩
  · cases hm : lchaMatch s <;> simp [parseLchaString, hm]
  · cases hm : hwbaMatch s <;> simp [parseHwbaString, hm]
  · cases hm : cmykaMatch s <;> simp [parseCmykaString, hm]

/-- The JS remainder of an integer in 0..6 by 6 is an integer in 0..5. -/
theorem mod6_of_floor (m : ℤ) (h0 : 0 ≤ m) (h6 : m ≤ 6) :
    ∃ j : ℤ, (fin (m : ℝ) % fin 6 : JsNum) = fin (j : ℝ) ∧ 0 ≤ j ∧ j.toNat < 6 := by
  have h6r : (6 : ℝ) ≠ 0 := by norm_num
  rw [JsNum.fin_mod _ _ h6r]
  rcases eq_or_lt_of_le h6 with heq | hlt
  · refine ⟨0, ?_, le_refl 0, by norm_num⟩
    subst heq
    have ht : truncR (((6 : ℤ) : ℝ) / 6) = 1 := by
      rw [truncR, if_pos (by positivity)]
      push_cast
      norm_num [Int.floor_one]
    rw [ht]
    push_cast
    norm_num
  · refine ⟨m, ?_, h0, by omega⟩
    have ht : truncR ((m : ℝ) / 6) = 0 := by
      rw [truncR, if_pos (div_nonneg (by exact_mod_cast h0) (by norm_num))]
      rw [Int.floor_eq_zero_iff, Set.mem_Ico]
      refine ⟨div_nonneg (by exact_mod_cast h0) (by norm_num), ?_⟩
      rw [div_lt_one (by norm_num)]
      exact_mod_cast hlt
    rw [ht]
    norm_num

/-- Indexing a six-element all-zero sector table at a valid integer index
yields zero. -/
theorem jsGet_six_zeros (j : ℤ) (h0 : 0 ≤ j) (hl : j.toNat < 6) :
    jsGet [fin 0, fin 0, fin 0, fin 0, fin 0, fin 0] (fin (j : ℝ)) = fin 0 := by
  simp only [jsGet, Int.floor_intCast, List.length_cons, List.length_nil]
  rw [if_pos ⟨by exact_mod_cast h0, trivial, by simpa using hl⟩]
  generalize j.toNat = n at hl ⊢
  interval_cases n <;> rfl

/-- HSV to RGB at saturation 0 and value 0 is black for every hue in the
range 0..360 produced by clampHue and the HSV formulas. -/
theorem hsva_black (h : ℝ) (a : JsNum) (hlo : 0 ≤ h) (hhi : h ≤ 360) :
    hsvaToRgba ⟨fin h, fin 0, fin 0, a⟩ = ⟨fin 0, fin 0, fin 0, a⟩ := by
  have hrfl : hsvaToRgba ⟨fin h, fin 0, fin 0, a⟩ =
      ⟨jsGet [fin 0 / fin 100,
              fin 0 / fin 100 * (fin 1 - (fin h / fin 360 * fin 6 -
                mfloor (fin h / fin 360 * fin 6)) * (fin 0 / fin 100)),
              fin 0 / fin 100 * (fin 1 - fin 0 / fin 100),
              fin 0 / fin 100 * (fin 1 - fin 0 / fin 100),
              fin 0 / fin 100 * (fin 1 - (fin 1 - (fin h / fin 360 * fin 6) +
                mfloor (fin h / fin 360 * fin 6)) * (fin 0 / fin 100)),
              fin 0 / fin 100]
         (mfloor (fin h / fin 360 * fin 6) % fin 6) * fin 255,
       jsGet [fin 0 / fin 100 * (fin 1 - (fin 1 - (fin h / fin 360 * fin 6) +
                mfloor (fin h / fin 360 * fin 6)) * (fin 0 / fin 100)),
              fin 0 / fin 100, fin 0 / fin 100,
              fin 0 / fin 100 * (fin 1 - (fin h / fin 360 * fin 6 -
                mfloor (fin h / fin 360 * fin 6)) * (fin 0 / fin 100)),
              fin 0 / fin 100 * (fin 1 - fin 0 / fin 100),
              fin 0 / fin 100 * (fin 1 - fin 0 / fin 100)]
         (mfloor (fin h / fin 360 * fin 6) % fin 6) * fin 255,
       jsGet [fin 0 / fin 100 * (fin 1 - fin 0 / fin 100),
              fin 0 / fin 100 * (fin 1 - fin 0 / fin 100),
              fin 0 / fin 100 * (fin 1 - (fin 1 - (fin h / fin 360 * fin 6) +
                mfloor (fin h / fin 360 * fin 6)) * (fin 0 / fin 100)),
              fin 0 / fin 100, fin 0 / fin 100,
              fin 0 / fin 100 * (fin 1 - (fin h / fin 360 * fin 6 -
                mfloor (fin h / fin 360 * fin 6)) * (fin 0 / fin 100))]
         (mfloor (fin h / fin 360 * fin 6) % fin 6) * fin 255,
       a⟩ := rfl
  rw [hrfl]
  have hS : (fin (0 : ℝ) / fin 100 : JsNum) = fin 0 := by
    rw [JsNum.fin_div _ _ (by norm_num)]; norm_num
  have hH : (fin h / fin 360 * fin 6 : JsNum) = fin (h / 60) := by
    rw [JsNum.fin_div _ _ (by norm_num), JsNum.fin_mul]
    congr 1
    ring
  rw [hS, hH, JsNum.fin_mfloor]
  have hB : (fin (0:ℝ) * (fin 1 - fin 0) : JsNum) = fin 0 := by norm_num
  have hC : (fin (0:ℝ) * (fin 1 - (fin (h / 60) - fin ((⌊h / 60⌋ : ℤ) : ℝ)) * fin 0) :
      JsNum) = fin 0 := by norm_num
  have hD : (fin (0:ℝ) * (fin 1 - (fin 1 - fin (h / 60) + fin ((⌊h / 60⌋ : ℤ) : ℝ)) * fin 0) :
      JsNum) = fin 0 := by norm_num
  rw [hB, hC, hD]
  have hm0 : 0 ≤ ⌊h / 60⌋ := Int.floor_nonneg.2 (by positivity)
  have hm6 : ⌊h / 60⌋ ≤ 6 := by
    have hx : h / 60 ≤ 6 := by
      rw [div_le_iff₀ (by norm_num : (0:ℝ) < 60)]; linarith
    calc ⌊h / 60⌋ ≤ ⌊(6 : ℝ)⌋ := Int.floor_le_floor hx
      _ = 6 := floor_eval 6 6 (by norm_num) (by norm_num)
  obtain ⟨j, hj, hj0, hjl⟩ := mod6_of_floor ⌊h / 60⌋ hm0 hm6
  rw [hj, jsGet_six_zeros j hj0 hjl]
  norm_num

/-- C4: an HWB color with blackness 100 converts to pure black for every
hue in the hue domain and every whiteness: the blackness test guards the
division by 100 - blackness, forcing saturation 0, and value is 0. -/
theorem c4_hwb_blackness100 (h w : ℝ) (a : JsNum) (h1 : 0 ≤ h) (h2 : h ≤ 360) :
    hwbaToRgba ⟨fin h, fin w, fin 100, a⟩ = ⟨fin 0, fin 0, fin 0, a⟩ := by
  have hstep : hwbaToRgba ⟨fin h, fin w, fin 100, a⟩ =
      hsvaToRgba ⟨fin h, fin 0, fin 0, a⟩ := by
    simp only [hwbaToRgba]
    rw [if_pos (show eqv (fin (100 : ℝ)) (fin 100) from rfl)]
    norm_num
  rw [hstep]
  exact hsva_black h a h1 h2

/-- C4 witness: a concrete instance of the degenerate HWB conversion. -/
theorem c4_witness :
    hwbaToRgba ⟨fin 120, fin 30, fin 100, fin 1⟩ = ⟨fin 0, fin 0, fin 0, fin 1⟩ :=
  c4_hwb_blackness100 120 30 (fin 1) (by norm_num) (by norm_num)

/-- The alpha reaching the LCH formatter is the input alpha clamped into
0..1 (by clampXyza on the way through XYZ) and rounded at the alpha
precision. -/
theorem lch_alpha_path (rgba : Rgba) (d : ℕ) :
    (roundLcha (rgbaToLcha rgba) d).a =
      round (clamp rgba.a (fin 0) (fin 1))
        (if ALPHA_PRECISION > d then ALPHA_PRECISION else d) := rfl

/-- The alpha reaching the HWB formatter is the input alpha rounded at the
alpha precision. -/
theorem hwb_alpha_path (rgba : Rgba) (d : ℕ) :
    (roundHwba (rgbaToHwba rgba) d).a =
      round rgba.a (if ALPHA_PRECISION > d then ALPHA_PRECISION else d) := rfl

/-- The alpha reaching the CMYK formatter is the input alpha rounded at the
alpha precision. -/
theorem cmyk_alpha_path (rgba : Rgba) (d : ℕ) :
    (roundCmyka (rgbaToCmyka rgba) d).a =
      round rgba.a (if ALPHA_PRECISION > d then ALPHA_PRECISION else d) := rfl

/-- When the rounded alpha is exactly 1, none of the three formatters emits
the alpha separator. -/
theorem suffix_off_of_alpha_one (rgba : Rgba) (d : ℕ)
    (hlch : (roundLcha (rgbaToLcha rgba) d).a = fin 1)
    (hhwb : (roundHwba (rgbaToHwba rgba) d).a = fin 1)
    (hcmyk : (roundCmyka (rgbaToCmyka rgba) d).a = fin 1) :
    hasAlphaSep (rgbaToLchaString rgba d) = false ∧
      hasAlphaSep (rgbaToHwbaString rgba d) = false ∧
      hasAlphaSep (rgbaToCmykaString rgba d) = false := by
  refine ⟨?_, ?_, ?_⟩
  · simp only [rgbaToLchaString]
    rw [hlch, if_neg (by simp)]
    rfl
  · simp only [rgbaToHwbaString]
    rw [hhwb, if_neg (by simp)]
    rfl
  · simp only [rgbaToCmykaString]
    rw [hcmyk, if_neg (by simp)]
    rfl

/-- C5: the LCH, HWB and CMYK formatters emit the alpha suffix only when
the rounded alpha is strictly below 1: with alpha exactly 1 the suffix
never appears for any digit count, and with alpha 0.999995 and a requested
digit count of at most 3 the alpha precision floor of 3 digits rounds the
alpha to exactly 1, so the suffix is suppressed as well. -/
theorem c5_alpha_suffix (rgba : Rgba) (d : ℕ) :
    (rgba.a = fin 1 →
      hasAlphaSep (rgbaToLchaString rgba d) = false ∧
        hasAlphaSep (rgbaToHwbaString rgba d) = false ∧
        hasAlphaSep (rgbaToCmykaString rgba d) = false) ∧
      (rgba.a = fin 0.999995 → d ≤ 3 →
        hasAlphaSep (rgbaToLchaString rgba d) = false ∧
          hasAlphaSep (rgbaToHwbaString rgba d) = false ∧
          hasAlphaSep (rgbaToCmykaString rgba d) = false) := by
  constructor
  · intro ha
    have hone : round (fin (1 : ℝ)) (if ALPHA_PRECISION > d then ALPHA_PRECISION else d) =
        fin 1 :=
      round_fin_self 1 _ (10 ^ (if ALPHA_PRECISION > d then ALPHA_PRECISION else d))
        (by push_cast; ring)
    apply suffix_off_of_alpha_one
    · rw [lch_alpha_path, ha, clamp_fin_of_mem 1 0 1 (by norm_num) le_rfl, hone]
    · rw [hwb_alpha_path, ha, hone]
    · rw [cmyk_alpha_path, ha, hone]
  · intro ha hd
    have hm3 : (if ALPHA_PRECISION > d then ALPHA_PRECISION else d) = 3 := by
      simp only [ALPHA_PRECISION]
      split <;> omega
    have hr : round (fin (0.999995 : ℝ)) 3 = fin 1 := by
      rw [round_fin,
        floor_eval ((10 : ℝ) ^ 3 * 0.999995 + 1 / 2) 1000 (by norm_num) (by norm_num)]
      norm_num
    apply suffix_off_of_alpha_one
    · rw [lch_alpha_path, ha, hm3, clamp_fin_of_mem _ _ _ (by norm_num) (by norm_num), hr]
    · rw [hwb_alpha_path, ha, hm3, hr]
    · rw [cmyk_alpha_path, ha, hm3, hr]

/-- C5 witness: with alpha exactly 1 no formatter renders the separator. -/
theorem c5_witness :
    hasAlphaSep (rgbaToLchaString ⟨fin 255, fin 0, fin 0, fin 1⟩ 2) = false ∧
      hasAlphaSep (rgbaToHwbaString ⟨fin 255, fin 0, fin 0, fin 1⟩ 2) = false ∧
      hasAlphaSep (rgbaToCmykaString ⟨fin 255, fin 0, fin 0, fin 1⟩ 2) = false :=
  (c5_alpha_suffix ⟨fin 255, fin 0, fin 0, fin 1⟩ 2).1 rfl

/-- Flooring at d digits leaves a value alone when scaling by 10^d makes it
an integer. -/
theorem floor_fin_self (x : ℝ) (d : ℕ) (n : ℤ) (h : (10 : ℝ) ^ d * x = (n : ℝ)) :
    floor (fin x) d = fin x := by
  have hb : ((10 : ℝ) ^ d) ≠ 0 := by positivity
  rw [floor_fin, h, Int.floor_intCast]
  congr 1
  field_simp
  linarith [h]

/-- Gamma linearization of the extreme channel values. -/
theorem linearize_255 : linearizeRgbChannel (fin 255) = fin 1 := by
  simp only [linearizeRgbChannel]
  rw [JsNum.fin_div _ _ (by norm_num : (255 : ℝ) ≠ 0)]
  rw [if_neg (by norm_num)]
  rw [JsNum.fin_add, JsNum.fin_div _ _ (by norm_num : (1.055 : ℝ) ≠ 0)]
  have : (255 / 255 + 0.055) / 1.055 = (1 : ℝ) := by norm_num
  rw [this, JsNum.fin_rpow _ _ (by norm_num)]
  rw [Real.one_rpow]

theorem linearize_0 : linearizeRgbChannel (fin 0) = fin 0 := by
  simp only [linearizeRgbChannel]
  rw [JsNum.fin_div _ _ (by norm_num : (255 : ℝ) ≠ 0)]
  rw [if_pos (by norm_num)]
  rw [JsNum.fin_div _ _ (by norm_num : (12.92 : ℝ) ≠ 0)]
  norm_num

/-- Gamma linearization maps a valid channel into 0..1. -/
theorem linearize_bounds (x : ℝ) (h0 : 0 ≤ x) (h255 : x ≤ 255) :
    ∃ v : ℝ, linearizeRgbChannel (fin x) = fin v ∧ 0 ≤ v ∧ v ≤ 1 := by
  simp only [linearizeRgbChannel]
  rw [JsNum.fin_div _ _ (by norm_num : (255 : ℝ) ≠ 0)]
  by_cases hc : x / 255 < 0.04045
  · rw [if_pos (by simpa using hc)]
    rw [JsNum.fin_div _ _ (by norm_num : (12.92 : ℝ) ≠ 0)]
    refine ⟨x / 255 / 12.92, rfl, by positivity, ?_⟩
    rw [div_le_one (by norm_num)]
    linarith
  · rw [if_neg (by simpa using hc)]
    rw [JsNum.fin_add, JsNum.fin_div _ _ (by norm_num : (1.055 : ℝ) ≠ 0)]
    have hbase0 : (0 : ℝ) ≤ (x / 255 + 0.055) / 1.055 := by positivity
    have hbase1 : (x / 255 + 0.055) / 1.055 ≤ 1 := by
      rw [div_le_one (by norm_num)]
      have : x / 255 ≤ 1 := by
        rw [div_le_one (by norm_num)]; linarith
      linarith
    rw [JsNum.fin_rpow _ _ hbase0]
    exact ⟨_, rfl, Real.rpow_nonneg hbase0 _, Real.rpow_le_one hbase0 hbase1 (by norm_num)⟩

/-- Relative luminance of a valid color is a finite value in 0..1. -/
theorem luminance_bounds (r g b : ℝ) (a : JsNum)
    (hr0 : 0 ≤ r) (hr1 : r ≤ 255) (hg0 : 0 ≤ g) (hg1 : g ≤ 255)
    (hb0 : 0 ≤ b) (hb1 : b ≤ 255) :
    ∃ v : ℝ, getLuminance ⟨fin r, fin g, fin b, a⟩ = fin v ∧ 0 ≤ v ∧ v ≤ 1 := by
  obtain ⟨v1, e1, l1, u1⟩ := linearize_bounds r hr0 hr1
  obtain ⟨v2, e2, l2, u2⟩ := linearize_bounds g hg0 hg1
  obtain ⟨v3, e3, l3, u3⟩ := linearize_bounds b hb0 hb1
  refine ⟨0.2126 * v1 + 0.7152 * v2 + 0.0722 * v3, ?_, by positivity, by linarith⟩
  simp only [getLuminance, e1, e2, e3, JsNum.fin_mul, JsNum.fin_add]

/-- Luminance of pure white is exactly 1, of pure black exactly 0. -/
theorem luminance_white (a : JsNum) :
    getLuminance ⟨fin 255, fin 255, fin 255, a⟩ = fin 1 := by
  simp only [getLuminance, linearize_255, JsNum.fin_mul, JsNum.fin_add]
  norm_num

theorem luminance_black (a : JsNum) :
    getLuminance ⟨fin 0, fin 0, fin 0, a⟩ = fin 0 := by
  simp only [getLuminance, linearize_0, JsNum.fin_mul, JsNum.fin_add]
  norm_num

/-- C7: the contrast method gives exactly 1 for white on white and exactly
21 (well within 0.01) for white on black, and for every pair of valid RGB
colors the contrast ratio (lighter luminance + 0.05) over (darker
luminance + 0.05) is a finite value between 1 and 21. -/
theorem c7_contrast :
    contrastMethod ⟨fin 255, fin 255, fin 255, fin 1⟩ ⟨fin 255, fin 255, fin 255, fin 1⟩ =
        fin 1 ∧
      contrastMethod ⟨fin 255, fin 255, fin 255, fin 1⟩ ⟨fin 0, fin 0, fin 0, fin 1⟩ =
        fin 21 ∧
      ∀ (r1 g1 b1 : ℝ) (a1 : JsNum) (r2 g2 b2 : ℝ) (a2 : JsNum),
        0 ≤ r1 → r1 ≤ 255 → 0 ≤ g1 → g1 ≤ 255 → 0 ≤ b1 → b1 ≤ 255 →
        0 ≤ r2 → r2 ≤ 255 → 0 ≤ g2 → g2 ≤ 255 → 0 ≤ b2 → b2 ≤ 255 →
        ∃ q : ℝ,
          getContrast ⟨fin r1, fin g1, fin b1, a1⟩ ⟨fin r2, fin g2, fin b2, a2⟩ = fin q ∧
            1 ≤ q ∧ q ≤ 21 := by
  refine ⟨?_, ?_, ?_⟩
  · simp only [contrastMethod, getContrast, luminance_white]
    rw [if_neg (by simp)]
    rw [JsNum.fin_add, JsNum.fin_div _ _ (by norm_num : (1 + 0.05 : ℝ) ≠ 0)]
    have : (1 + 0.05 : ℝ) / (1 + 0.05) = 1 := by norm_num
    rw [this]
    exact floor_fin_self 1 2 100 (by norm_num)
  · simp only [contrastMethod, getContrast, luminance_white, luminance_black]
    rw [if_pos (by norm_num)]
    rw [JsNum.fin_add, JsNum.fin_add, JsNum.fin_div _ _ (by norm_num : (0 + 0.05 : ℝ) ≠ 0)]
    have : (1 + 0.05 : ℝ) / (0 + 0.05) = 21 := by norm_num
    rw [this]
    exact floor_fin_self 21 2 2100 (by norm_num)
  · intro r1 g1 b1 a1 r2 g2 b2 a2 h1 h2 h3 h4 h5 h6 h7 h8 h9 h10 h11 h12
    obtain ⟨q1, e1, l1, u1⟩ := luminance_bounds r1 g1 b1 a1 h1 h2 h3 h4 h5 h6
    obtain ⟨q2, e2, l2, u2⟩ := luminance_bounds r2 g2 b2 a2 h7 h8 h9 h10 h11 h12
    simp only [getContrast, e1, e2]
    by_cases hc : q2 < q1
    · rw [if_pos (by simpa using hc)]
      rw [JsNum.fin_add, JsNum.fin_add,
        JsNum.fin_div _ _ (by linarith : (q2 + 0.05 : ℝ) ≠ 0)]
      refine ⟨_, rfl, ?_, ?_⟩
      · rw [le_div_iff₀ (by linarith)]
        linarith
      · rw [div_le_iff₀ (by linarith)]
        linarith
    · rw [if_neg (by simpa using hc)]
      rw [JsNum.fin_add, JsNum.fin_add,
        JsNum.fin_div _ _ (by linarith : (q1 + 0.05 : ℝ) ≠ 0)]
      push_neg at hc
      refine ⟨_, rfl, ?_, ?_⟩
      · rw [le_div_iff₀ (by linarith)]
        linarith
      · rw [div_le_iff₀ (by linarith)]
        linarith

/-- C7 witness: the contrast-range bound at the white and black pair. -/
theorem c7_witness :
    ∃ q : ℝ,
      getContrast ⟨fin 255, fin 255, fin 255, fin 1⟩ ⟨fin 0, fin 0, fin 0, fin 1⟩ = fin q ∧
        1 ≤ q ∧ q ≤ 21 :=
  c7_contrast.2.2 255 255 255 (fin 1) 0 0 0 (fin 1)
    (by norm_num) (by norm_num) (by norm_num) (by norm_num) (by norm_num) (by norm_num)
    (by norm_num) (by norm_num) (by norm_num) (by norm_num) (by norm_num) (by norm_num)

/-- Helper: the in-gamut CMYK value (5, 5, 5, 50) converts to
RGB (121, 121, 121) and back to CMYK (0, 0, 0, 53): the c channel moves
from 5 to 0, an error of 5 units, far beyond a 1-unit tolerance
(rgbaToCmyka rederives k from the max channel, so non-canonical CMYK
values are not preserved). -/
theorem cmyk_rev_cex :
    rgbaToCmyka (cmykaToRgba ⟨fin 5, fin 5, fin 5, fin 50, fin 1⟩) =
        ⟨fin 0, fin 0, fin 0, fin 53, fin 1⟩ ∧
      ¬ (|(0 : ℝ) - 5| ≤ 1) := by
  have h1 : cmykaToRgba ⟨fin 5, fin 5, fin 5, fin 50, fin 1⟩ =
      ⟨fin 121, fin 121, fin 121, fin 1⟩ := by
    have hch : (fin (255 : ℝ) * (fin 1 - fin 5 / fin 100) * (fin 1 - fin 50 / fin 100) :
        JsNum) = fin 121.125 := by norm_num
    have hr : round (fin (121.125 : ℝ)) 0 = fin 121 := by
      rw [round_fin,
        floor_eval ((10 : ℝ) ^ 0 * 121.125 + 1 / 2) 121 (by norm_num) (by norm_num)]
      norm_num
    simp only [cmykaToRgba]
    rw [hch, hr]
  refine ⟨?_, by norm_num⟩
  rw [h1]
  have hA : (fin (1 : ℝ) -
      jmax (fin 121 / fin 255) (jmax (fin 121 / fin 255) (fin 121 / fin 255)) : JsNum) =
      fin (134 / 255) := by norm_num
  have hnum : (fin (1 : ℝ) - fin 121 / fin 255 - fin (134 / 255) : JsNum) = fin 0 := by
    norm_num
  have hden : (fin (1 : ℝ) - fin (134 / 255) : JsNum) = fin (121 / 255) := by norm_num
  have hc : (fin (0 : ℝ) / fin ((121 : ℝ) / 255) : JsNum) = fin 0 := by norm_num
  have hr0 : round (fin (0 : ℝ) * fin 100) 0 = fin 0 := by
    have hz : (fin (0 : ℝ) * fin 100 : JsNum) = fin 0 := by norm_num
    rw [hz]
    exact round_fin_self 0 0 0 (by norm_num)
  have hrk : round (fin ((134 : ℝ) / 255) * fin 100) 0 = fin 53 := by
    have hm : (fin ((134 : ℝ) / 255) * fin 100 : JsNum) = fin (13400 / 255) := by norm_num
    rw [hm, round_fin,
      floor_eval ((10 : ℝ) ^ 0 * (13400 / 255) + 1 / 2) 53 (by norm_num) (by norm_num)]
    norm_num
  simp only [rgbaToCmyka]
  rw [hA, hnum, hden, hc, hr0, hrk]
  simp [JsNum.fin_isNaN]

/-- The JS remainder leaves an integer in 0..5 alone when divided by 6. -/
theorem mod6_small (j : ℤ) (h0 : 0 ≤ j) (hlt : j < 6) :
    (fin (j : ℝ) % fin 6 : JsNum) = fin (j : ℝ) := by
  rw [JsNum.fin_mod _ _ (by norm_num : (6 : ℝ) ≠ 0)]
  have ht : truncR ((j : ℝ) / 6) = 0 := by
    rw [truncR, if_pos (div_nonneg (by exact_mod_cast h0) (by norm_num))]
    rw [Int.floor_eq_zero_iff, Set.mem_Ico]
    refine ⟨div_nonneg (by exact_mod_cast h0) (by norm_num), ?_⟩
    rw [div_lt_one (by norm_num)]
    exact_mod_cast hlt
  rw [ht]
  norm_num

/-- Sector-table access at a valid integer index is plain list indexing. -/
theorem jsGet_entry (l : List JsNum) (j : ℤ) (h0 : 0 ≤ j) (hl : j.toNat < l.length) :
    jsGet l (fin (j : ℝ)) = l.getD j.toNat JsNum.nan := by
  simp only [jsGet, Int.floor_intCast]
  rw [if_pos ⟨by exact_mod_cast h0, trivial, hl⟩]

/-- Full evaluation of hsvaToRgba on finite channels once the sector (the
floor of the scaled hue) is known: every component is the sector table read
at that index. -/
theorem hsva_eval (hv sv vv : ℝ) (a : JsNum) (j : ℤ) (h0 : 0 ≤ j) (hlt : j < 6)
    (hfl : ⌊hv / 360 * 6⌋ = j) :
    hsvaToRgba ⟨fin hv, fin sv, fin vv, a⟩ =
      ⟨List.getD
          [fin (vv / 100), fin (vv / 100 * (1 - (hv / 360 * 6 - (j : ℝ)) * (sv / 100))),
           fin (vv / 100 * (1 - sv / 100)), fin (vv / 100 * (1 - sv / 100)),
           fin (vv / 100 * (1 - (1 - hv / 360 * 6 + (j : ℝ)) * (sv / 100))),
           fin (vv / 100)] j.toNat JsNum.nan * fin 255,
       List.getD
          [fin (vv / 100 * (1 - (1 - hv / 360 * 6 + (j : ℝ)) * (sv / 100))),
           fin (vv / 100), fin (vv / 100),
           fin (vv / 100 * (1 - (hv / 360 * 6 - (j : ℝ)) * (sv / 100))),
           fin (vv / 100 * (1 - sv / 100)),
           fin (vv / 100 * (1 - sv / 100))] j.toNat JsNum.nan * fin 255,
       List.getD
          [fin (vv / 100 * (1 - sv / 100)), fin (vv / 100 * (1 - sv / 100)),
           fin (vv / 100 * (1 - (1 - hv / 360 * 6 + (j : ℝ)) * (sv / 100))),
           fin (vv / 100), fin (vv / 100),
           fin (vv / 100 * (1 - (hv / 360 * 6 - (j : ℝ)) * (sv / 100)))]
          j.toNat JsNum.nan * fin 255,
       a⟩ := by
  have h360 : (360 : ℝ) ≠ 0 := by norm_num
  have h100 : (100 : ℝ) ≠ 0 := by norm_num
  simp only [hsvaToRgba]
  rw [JsNum.fin_div hv 360 h360, JsNum.fin_mul, JsNum.fin_div sv 100 h100,
    JsNum.fin_div vv 100 h100, JsNum.fin_mfloor, hfl]
  rw [mod6_small j h0 hlt]
  rw [jsGet_entry _ j h0 (by simp only [List.length_cons, List.length_nil]; omega),
    jsGet_entry _ j h0 (by simp only [List.length_cons, List.length_nil]; omega),
    jsGet_entry _ j h0 (by simp only [List.length_cons, List.length_nil]; omega)]
  simp only [JsNum.fin_sub, JsNum.fin_add, JsNum.fin_mul]

/-- rgbaToHwba on finite channels: hue from HSV, whiteness and blackness in
closed form. -/
theorem rgba_to_hwba_form (r g b : ℝ) (a : JsNum) :
    rgbaToHwba ⟨fin r, fin g, fin b, a⟩ =
      ⟨(rgbaToHsva ⟨fin r, fin g, fin b, a⟩).h,
       fin (min r (min g b) / 255 * 100),
       fin (100 - max r (max g b) / 255 * 100), a⟩ := by
  simp only [rgbaToHwba, JsNum.fin_jmin, JsNum.fin_jmax]
  rw [JsNum.fin_div (min r (min g b)) 255 (by norm_num),
    JsNum.fin_div (max r (max g b)) 255 (by norm_num)]
  simp only [JsNum.fin_mul, JsNum.fin_sub]

/-- hwbaToRgba on finite channels with a nonzero max channel: the whiteness
and blackness derived from a color with max channel M and min channel m
feed HSV with saturation 100 - m/M*100 and value M/255*100. -/
theorem hwb_to_hsva_input (H M m : ℝ) (a : JsNum) (hM : M ≠ 0) :
    hwbaToRgba ⟨fin H, fin (m / 255 * 100), fin (100 - M / 255 * 100), a⟩ =
      hsvaToRgba ⟨fin H, fin (100 - m / M * 100), fin (M / 255 * 100), a⟩ := by
  have hMv : M / 255 * 100 ≠ 0 :=
    mul_ne_zero (div_ne_zero hM (by norm_num)) (by norm_num)
  simp only [hwbaToRgba]
  rw [if_neg (show ¬ eqv (fin (100 - M / 255 * 100)) (fin 100) from by
    simp only [JsNum.fin_eqv]
    intro hc
    apply hMv
    linarith)]
  have hd : (fin (100 : ℝ) - fin (100 - M / 255 * 100) : JsNum) = fin (M / 255 * 100) := by
    rw [JsNum.fin_sub]
    congr 1
    ring
  rw [hd]
  rw [JsNum.fin_div _ _ hMv]
  have hq : m / 255 * 100 / (M / 255 * 100) = m / M := by
    field_simp
    ring
  rw [hq, JsNum.fin_mul, JsNum.fin_sub]

/-- The hue component of rgbaToHsva, in closed form, when the delta is not
zero: one of the three sector formulas selected by which channel attains
the max, shifted by 6 when negative. -/
theorem hsva_h_eval (r g b : ℝ) (a : JsNum)
    (hd : max r (max g b) - min r (min g b) ≠ 0) :
    ∃ X : ℝ,
      (rgbaToHsva ⟨fin r, fin g, fin b, a⟩).h =
          fin (60 * (if X < 0 then X + 6 else X)) ∧
        ((max r (max g b) = r ∧
            X = (g - b) / (max r (max g b) - min r (min g b))) ∨
          (max r (max g b) ≠ r ∧ max r (max g b) = g ∧
            X = 2 + (b - r) / (max r (max g b) - min r (min g b))) ∨
          (max r (max g b) ≠ r ∧ max r (max g b) ≠ g ∧
            X = 4 + (r - g) / (max r (max g b) - min r (min g b)))) := by
  simp only [rgbaToHsva, JsNum.fin_jmax, JsNum.fin_jmin, JsNum.fin_sub]
  rw [if_pos (show truthy (fin (max r (max g b) - min r (min g b))) from hd)]
  have houter : ∀ X : ℝ,
      (fin 60 * (if jlt (fin X) (fin 0) then fin X + fin 6 else fin X) : JsNum) =
        fin (60 * (if X < 0 then X + 6 else X)) := by
    intro X
    by_cases hx : X < 0
    · rw [if_pos (show jlt (fin X) (fin 0) from hx), if_pos hx, JsNum.fin_add,
        JsNum.fin_mul]
    · rw [if_neg (show ¬ jlt (fin X) (fin 0) from hx), if_neg hx, JsNum.fin_mul]
  by_cases h1 : max r (max g b) = r
  · rw [if_pos (show eqv (fin (max r (max g b))) (fin r) from h1)]
    rw [JsNum.fin_div _ _ hd]
    exact ⟨_, houter _, Or.inl ⟨h1, rfl⟩⟩
  · rw [if_neg (show ¬ eqv (fin (max r (max g b))) (fin r) from h1)]
    by_cases h2 : max r (max g b) = g
    · rw [if_pos (show eqv (fin (max r (max g b))) (fin g) from h2)]
      rw [JsNum.fin_div _ _ hd, JsNum.fin_add]
      exact ⟨_, houter _, Or.inr (Or.inl ⟨h1, h2, rfl⟩)⟩
    · rw [if_neg (show ¬ eqv (fin (max r (max g b))) (fin g) from h2)]
      rw [JsNum.fin_div _ _ hd, JsNum.fin_add]
      exact ⟨_, houter _, Or.inr (Or.inr ⟨h1, h2, rfl⟩)⟩

end Colord

namespace Colord

open JsNum

theorem hwb_roundtrip_gray (r g b : ℝ) (a : JsNum)
    (hr0 : 0 ≤ r) (hg0 : 0 ≤ g) (hb0 : 0 ≤ b)
    (hdelta : max r (max g b) - min r (min g b) = 0) :
    hwbaToRgba (rgbaToHwba ⟨fin r, fin g, fin b, a⟩) = ⟨fin r, fin g, fin b, a⟩ := by
  have hrM : r ≤ max r (max g b) := le_max_left _ _
  have hgM : g ≤ max r (max g b) := le_trans (le_max_left _ _) (le_max_right _ _)
  have hbM : b ≤ max r (max g b) := le_trans (le_max_right _ _) (le_max_right _ _)
  have hmr : min r (min g b) ≤ r := min_le_left _ _
  have hmg : min r (min g b) ≤ g := le_trans (min_le_right _ _) (min_le_left _ _)
  have hmb : min r (min g b) ≤ b := le_trans (min_le_right _ _) (min_le_right _ _)
  have hMm : max r (max g b) = min r (min g b) := by linarith
  have hrv : r = max r (max g b) := le_antisymm hrM (le_trans (le_of_eq hMm) hmr)
  have hgv : g = max r (max g b) := le_antisymm hgM (le_trans (le_of_eq hMm) hmg)
  have hbv : b = max r (max g b) := le_antisymm hbM (le_trans (le_of_eq hMm) hmb)
  rw [rgba_to_hwba_form]
  have hh : (rgbaToHsva ⟨fin r, fin g, fin b, a⟩).h = fin 0 := by
    simp only [rgbaToHsva, JsNum.fin_jmax, JsNum.fin_jmin, JsNum.fin_sub]
    rw [if_neg (show ¬ truthy (fin (max r (max g b) - min r (min g b))) from
      fun hne => hne hdelta)]
    rw [if_neg (show ¬ jlt (fin (0 : ℝ)) (fin 0) from lt_irrefl 0)]
    rw [JsNum.fin_mul]
    norm_num
  rw [hh]
  by_cases hM0 : max r (max g b) = 0
  · have hr' : r = 0 := hrv.trans hM0
    have hg' : g = 0 := hgv.trans hM0
    have hb' : b = 0 := hbv.trans hM0
    subst hr'
    subst hg'
    subst hb'
    have h1 : hwbaToRgba ⟨fin 0, fin (min 0 (min 0 0) / 255 * 100),
        fin (100 - max 0 (max 0 0) / 255 * 100), a⟩ = hsvaToRgba ⟨fin 0, fin 0, fin 0, a⟩ := by
      simp only [hwbaToRgba]
      rw [if_pos (show eqv (fin (100 - max (0:ℝ) (max 0 0) / 255 * 100)) (fin 100) from
        by norm_num)]
      norm_num
    rw [h1, hsva_black 0 a le_rfl (by norm_num)]
  · rw [hwb_to_hsva_input 0 (max r (max g b)) (min r (min g b)) a hM0]
    rw [hsva_eval 0 _ _ a 0 le_rfl (by norm_num) (by norm_num)]
    simp only [Int.toNat_zero, List.getD_cons_zero, JsNum.fin_mul, Rgba.mk.injEq,
      JsNum.fin.injEq]
    refine ⟨?_, ?_, ?_, trivial⟩
    · field_simp
      linarith [hrv]
    · rw [← hMm]
      push_cast
      field_simp
      linarith [hgv]
    · rw [← hMm]
      field_simp
      linarith [hbv]

end Colord

namespace Colord

open JsNum

theorem getD6_0 (e0 e1 e2 e3 e4 e5 d : JsNum) :
    List.getD [e0, e1, e2, e3, e4, e5] 0 d = e0 := rfl

theorem getD6_1 (e0 e1 e2 e3 e4 e5 d : JsNum) :
    List.getD [e0, e1, e2, e3, e4, e5] 1 d = e1 := rfl

theorem getD6_2 (e0 e1 e2 e3 e4 e5 d : JsNum) :
    List.getD [e0, e1, e2, e3, e4, e5] 2 d = e2 := rfl

theorem getD6_3 (e0 e1 e2 e3 e4 e5 d : JsNum) :
    List.getD [e0, e1, e2, e3, e4, e5] 3 d = e3 := rfl

theorem getD6_4 (e0 e1 e2 e3 e4 e5 d : JsNum) :
    List.getD [e0, e1, e2, e3, e4, e5] 4 d = e4 := rfl

theorem getD6_5 (e0 e1 e2 e3 e4 e5 d : JsNum) :
    List.getD [e0, e1, e2, e3, e4, e5] 5 d = e5 := rfl

theorem hwb_roundtrip_sat (r g b : ℝ) (a : JsNum)
    (hr0 : 0 ≤ r) (hg0 : 0 ≤ g) (hb0 : 0 ≤ b)
    (hdelta : max r (max g b) - min r (min g b) ≠ 0) :
    hwbaToRgba (rgbaToHwba ⟨fin r, fin g, fin b, a⟩) = ⟨fin r, fin g, fin b, a⟩ := by
  have hrM : r ≤ max r (max g b) := le_max_left _ _
  have hgM : g ≤ max r (max g b) := le_trans (le_max_left _ _) (le_max_right _ _)
  have hbM : b ≤ max r (max g b) := le_trans (le_max_right _ _) (le_max_right _ _)
  have hmr : min r (min g b) ≤ r := min_le_left _ _
  have hmg : min r (min g b) ≤ g := le_trans (min_le_right _ _) (min_le_left _ _)
  have hmb : min r (min g b) ≤ b := le_trans (min_le_right _ _) (min_le_right _ _)
  have hm0 : 0 ≤ min r (min g b) := le_min hr0 (le_min hg0 hb0)
  have hMne : max r (max g b) ≠ 0 :=
    ne_of_gt (lt_of_le_of_lt hm0
      (lt_of_le_of_ne (le_trans hmr hrM) (Ne.symm (sub_ne_zero.mp hdelta))))
  rw [rgba_to_hwba_form]
  obtain ⟨X, hhX, hcase⟩ := hsva_h_eval r g b a hdelta
  rw [hhX, hwb_to_hsva_input _ _ _ a hMne]
  obtain ⟨M, hMdef⟩ : ∃ M, max r (max g b) = M := ⟨_, rfl⟩
  obtain ⟨m, hmdef⟩ : ∃ m, min r (min g b) = m := ⟨_, rfl⟩
  rw [hMdef] at hrM hgM hbM hMne hcase ⊢
  rw [hmdef] at hmr hmg hmb hm0 hcase ⊢
  rw [hMdef, hmdef] at hdelta
  have hlt : m < M :=
    lt_of_le_of_ne (hmr.trans hrM) (Ne.symm (sub_ne_zero.mp hdelta))
  have hDpos : (0 : ℝ) < M - m := sub_pos.2 hlt
  rcases hcase with ⟨hMr, hX⟩ | ⟨hMnr, hMg, hX⟩ | ⟨hMnr, hMng, hX⟩
  · -- the max channel is r
    rw [hMr] at hgM hbM hMne hDpos hX ⊢
    by_cases hgb : b ≤ g
    · -- the min channel is b
      have hmv : m = b := by
        rw [← hmdef, min_eq_right hgb]
        exact min_eq_right hbM
      rw [hmv] at hDpos hX ⊢
      have hDne : r - b ≠ 0 := ne_of_gt hDpos
      subst hX
      have hX0 : (0 : ℝ) ≤ (g - b) / (r - b) :=
        div_nonneg (by linarith) (le_of_lt hDpos)
      have hXle : (g - b) / (r - b) ≤ 1 := by
        rw [div_le_one hDpos]
        linarith
      rw [if_neg (not_lt.2 hX0)]
      rcases lt_or_eq_of_le hXle with hX1 | hX1
      · rw [hsva_eval (60 * ((g - b) / (r - b))) _ _ a 0 le_rfl (by norm_num) (by
          rw [show (60 : ℝ) * ((g - b) / (r - b)) / 360 * 6 = (g - b) / (r - b) from
            by ring, Int.floor_eq_zero_iff, Set.mem_Ico]
          exact ⟨hX0, hX1⟩)]
        simp only [Int.toNat_zero, getD6_0, JsNum.fin_mul, Rgba.mk.injEq, JsNum.fin.injEq]
        refine ⟨?_, ?_, ?_, trivial⟩
        · field_simp <;> ring
        · rw [show (60 : ℝ) * ((g - b) / (r - b)) / 360 * 6 = (g - b) / (r - b) from
            by ring]
          push_cast
          field_simp
          ring
        · field_simp <;> ring
      · rw [hsva_eval (60 * ((g - b) / (r - b))) _ _ a 1 (by norm_num) (by norm_num) (by
          rw [show (60 : ℝ) * ((g - b) / (r - b)) / 360 * 6 = (g - b) / (r - b) from
            by ring, hX1]
          exact floor_eval 1 1 (by norm_num) (by norm_num))]
        have hgb_eq : g - b = r - b := (div_eq_one_iff_eq hDne).1 hX1
        simp only [Int.toNat_one, getD6_1, JsNum.fin_mul, Rgba.mk.injEq, JsNum.fin.injEq]
        refine ⟨?_, ?_, ?_, trivial⟩
        · rw [show (60 : ℝ) * ((g - b) / (r - b)) / 360 * 6 = (g - b) / (r - b) from
            by ring, hX1]
          push_cast
          field_simp
          ring
        · field_simp
          linarith [hgb_eq]
        · field_simp <;> ring
    · -- the min channel is g
      have hgb' : g < b := not_le.1 hgb
      have hmv : m = g := by
        rw [← hmdef, min_eq_left (le_of_lt hgb')]
        exact min_eq_right hgM
      rw [hmv] at hDpos hX ⊢
      have hDne : r - g ≠ 0 := ne_of_gt hDpos
      subst hX
      have hXneg : (g - b) / (r - g) < 0 :=
        div_neg_of_neg_of_pos (by linarith) hDpos
      have hXm1 : (-1 : ℝ) ≤ (g - b) / (r - g) := by
        rw [le_div_iff₀ hDpos]
        linarith
      rw [if_pos hXneg]
      rw [hsva_eval (60 * ((g - b) / (r - g) + 6)) _ _ a 5 (by norm_num) (by norm_num) (by
        rw [show (60 : ℝ) * ((g - b) / (r - g) + 6) / 360 * 6 = (g - b) / (r - g) + 6 from
          by ring]
        exact floor_eval _ 5 (by push_cast; linarith) (by push_cast; linarith))]
      simp only [show ((5 : ℤ).toNat) = 5 from rfl, getD6_5, JsNum.fin_mul, Rgba.mk.injEq,
        JsNum.fin.injEq]
      refine ⟨?_, ?_, ?_, trivial⟩
      · field_simp <;> ring
      · field_simp <;> ring
      · rw [show (60 : ℝ) * ((g - b) / (r - g) + 6) / 360 * 6 = (g - b) / (r - g) + 6 from
          by ring]
        push_cast
        field_simp
        ring
  · -- the max channel is g
    rw [hMg] at hrM hbM hMne hDpos hX ⊢
    have hrg : r < g := lt_of_le_of_ne hrM (fun he => hMnr (hMg.trans he.symm))
    have hmingb : min g b = b := min_eq_right hbM
    by_cases hbr : b < r
    · -- the min channel is b
      have hmv : m = b := by
        rw [← hmdef, hmingb]
        exact min_eq_right (le_of_lt hbr)
      rw [hmv] at hDpos hX ⊢
      have hDne : g - b ≠ 0 := ne_of_gt hDpos
      subst hX
      have hq1 : (-1 : ℝ) < (b - r) / (g - b) := by
        rw [lt_div_iff₀ hDpos]
        linarith
      have hq2 : (b - r) / (g - b) < 0 :=
        div_neg_of_neg_of_pos (by linarith) hDpos
      rw [if_neg (not_lt.2 (by linarith : (0 : ℝ) ≤ 2 + (b - r) / (g - b)))]
      rw [hsva_eval (60 * (2 + (b - r) / (g - b))) _ _ a 1 (by norm_num) (by norm_num) (by
        rw [show (60 : ℝ) * (2 + (b - r) / (g - b)) / 360 * 6 = 2 + (b - r) / (g - b) from
          by ring]
        exact floor_eval _ 1 (by push_cast; linarith) (by push_cast; linarith))]
      simp only [Int.toNat_one, getD6_1, JsNum.fin_mul, Rgba.mk.injEq, JsNum.fin.injEq]
      refine ⟨?_, ?_, ?_, trivial⟩
      · rw [show (60 : ℝ) * (2 + (b - r) / (g - b)) / 360 * 6 = 2 + (b - r) / (g - b) from
          by ring]
        push_cast
        field_simp
        ring
      · field_simp <;> ring
      · field_simp <;> ring
    · -- the min channel is r
      have hrb : r ≤ b := not_lt.1 hbr
      have hmv : m = r := by
        rw [← hmdef, hmingb]
        exact min_eq_left hrb
      rw [hmv] at hDpos hX ⊢
      have hDne : g - r ≠ 0 := ne_of_gt hDpos
      subst hX
      have hq0 : (0 : ℝ) ≤ (b - r) / (g - r) :=
        div_nonneg (by linarith) (le_of_lt hDpos)
      have hqle : (b - r) / (g - r) ≤ 1 := by
        rw [div_le_one hDpos]
        linarith
      rw [if_neg (not_lt.2 (by linarith : (0 : ℝ) ≤ 2 + (b - r) / (g - r)))]
      rcases lt_or_eq_of_le hqle with hq3 | hq3
      · rw [hsva_eval (60 * (2 + (b - r) / (g - r))) _ _ a 2 (by norm_num) (by norm_num) (by
          rw [show (60 : ℝ) * (2 + (b - r) / (g - r)) / 360 * 6 = 2 + (b - r) / (g - r) from
            by ring]
          exact floor_eval _ 2 (by push_cast; linarith) (by push_cast; linarith))]
        simp only [show ((2 : ℤ).toNat) = 2 from rfl, getD6_2, JsNum.fin_mul,
          Rgba.mk.injEq, JsNum.fin.injEq]
        refine ⟨?_, ?_, ?_, trivial⟩
        · field_simp <;> ring
        · field_simp <;> ring
        · rw [show (60 : ℝ) * (2 + (b - r) / (g - r)) / 360 * 6 = 2 + (b - r) / (g - r) from
            by ring]
          push_cast
          field_simp
          ring
      · have hbg : b = g := by
          have h1 : (b - r) / (g - r) = 1 := hq3
          rw [div_eq_one_iff_eq hDne] at h1
          linarith
        rw [hsva_eval (60 * (2 + (b - r) / (g - r))) _ _ a 3 (by norm_num) (by norm_num) (by
          rw [show (60 : ℝ) * (2 + (b - r) / (g - r)) / 360 * 6 = 2 + (b - r) / (g - r) from
            by ring, hq3]
          exact floor_eval _ 3 (by norm_num) (by norm_num))]
        simp only [show ((3 : ℤ).toNat) = 3 from rfl, getD6_3, JsNum.fin_mul,
          Rgba.mk.injEq, JsNum.fin.injEq]
        refine ⟨?_, ?_, ?_, trivial⟩
        · field_simp <;> ring
        · rw [show (60 : ℝ) * (2 + (b - r) / (g - r)) / 360 * 6 = 2 + (b - r) / (g - r) from
            by ring, hq3]
          push_cast
          field_simp
          ring
        · field_simp
          linarith [hbg]
  · -- the max channel is b
    have hMb : M = b := by
      have hch := max_choice r (max g b)
      rw [hMdef] at hch
      rcases hch with h | h
      · exact absurd h hMnr
      · rcases max_choice g b with h2 | h2
        · exact absurd (h.trans h2) hMng
        · exact h.trans h2
    rw [hMb] at hrM hgM hMne hDpos hX hMnr hMng ⊢
    have hrb : r < b := lt_of_le_of_ne hrM (fun he => hMnr he.symm)
    have hgb : g < b := lt_of_le_of_ne hgM (fun he => hMng he.symm)
    have hmingb : min g b = g := min_eq_left (le_of_lt hgb)
    by_cases hrg : r < g
    · -- the min channel is r
      have hmv : m = r := by
        rw [← hmdef, hmingb]
        exact min_eq_left (le_of_lt hrg)
      rw [hmv] at hDpos hX ⊢
      have hDne : b - r ≠ 0 := ne_of_gt hDpos
      subst hX
      have hq1 : (-1 : ℝ) < (r - g) / (b - r) := by
        rw [lt_div_iff₀ hDpos]
        linarith
      have hq2 : (r - g) / (b - r) < 0 :=
        div_neg_of_neg_of_pos (by linarith) hDpos
      rw [if_neg (not_lt.2 (by linarith : (0 : ℝ) ≤ 4 + (r - g) / (b - r)))]
      rw [hsva_eval (60 * (4 + (r - g) / (b - r))) _ _ a 3 (by norm_num) (by norm_num) (by
        rw [show (60 : ℝ) * (4 + (r - g) / (b - r)) / 360 * 6 = 4 + (r - g) / (b - r) from
          by ring]
        exact floor_eval _ 3 (by push_cast; linarith) (by push_cast; linarith))]
      simp only [show ((3 : ℤ).toNat) = 3 from rfl, getD6_3, JsNum.fin_mul,
        Rgba.mk.injEq, JsNum.fin.injEq]
      refine ⟨?_, ?_, ?_, trivial⟩
      · field_simp <;> ring
      · rw [show (60 : ℝ) * (4 + (r - g) / (b - r)) / 360 * 6 = 4 + (r - g) / (b - r) from
          by ring]
        push_cast
        field_simp
        ring
      · field_simp <;> ring
    · -- the min channel is g
      have hgr : g ≤ r := not_lt.1 hrg
      have hmv : m = g := by
        rw [← hmdef, hmingb]
        exact min_eq_right hgr
      rw [hmv] at hDpos hX ⊢
      have hDne : b - g ≠ 0 := ne_of_gt hDpos
      subst hX
      have hq0 : (0 : ℝ) ≤ (r - g) / (b - g) :=
        div_nonneg (by linarith) (le_of_lt hDpos)
      have hq1 : (r - g) / (b - g) < 1 := by
        rw [div_lt_one hDpos]
        linarith
      rw [if_neg (not_lt.2 (by linarith : (0 : ℝ) ≤ 4 + (r - g) / (b - g)))]
      rw [hsva_eval (60 * (4 + (r - g) / (b - g))) _ _ a 4 (by norm_num) (by norm_num) (by
        rw [show (60 : ℝ) * (4 + (r - g) / (b - g)) / 360 * 6 = 4 + (r - g) / (b - g) from
          by ring]
        exact floor_eval _ 4 (by push_cast; linarith) (by push_cast; linarith))]
      simp only [show ((4 : ℤ).toNat) = 4 from rfl, getD6_4, JsNum.fin_mul,
        Rgba.mk.injEq, JsNum.fin.injEq]
      refine ⟨?_, ?_, ?_, trivial⟩
      · rw [show (60 : ℝ) * (4 + (r - g) / (b - g)) / 360 * 6 = 4 + (r - g) / (b - g) from
          by ring]
        push_cast
        field_simp
        ring
      · field_simp <;> ring
      · field_simp <;> ring

/-- Helper: for every RGBA color with real channels in [0, 255], converting
to HWB with rgbaToHwba and back with hwbaToRgba returns exactly the original
color; the alpha channel passes through unchanged. -/
theorem hwb_forward (r g b : ℝ) (a : JsNum)
    (hr0 : 0 ≤ r) (hr255 : r ≤ 255) (hg0 : 0 ≤ g) (hg255 : g ≤ 255)
    (hb0 : 0 ≤ b) (hb255 : b ≤ 255) :
    hwbaToRgba (rgbaToHwba ⟨fin r, fin g, fin b, a⟩) = ⟨fin r, fin g, fin b, a⟩ := by
  by_cases hdelta : max r (max g b) - min r (min g b) = 0
  · exact hwb_roundtrip_gray r g b a hr0 hg0 hb0 hdelta
  · exact hwb_roundtrip_sat r g b a hr0 hg0 hb0 hdelta


end Colord

namespace Colord

open JsNum

theorem ite_fin (P : Prop) [Decidable P] (x y : ℝ) :
    (if P then fin x else fin y) = fin (if P then x else y) := by
  split_ifs <;> rfl

theorem sH_pos (m A B C D : ℝ) (hm : 0 ≤ m) :
    (0 : ℝ) < 1 + 0.015 * m * (1 - 0.17 * Real.cos A + 0.24 * Real.cos B +
      0.32 * Real.cos C - 0.2 * Real.cos D) := by
  have hT : (0.07 : ℝ) ≤ 1 - 0.17 * Real.cos A + 0.24 * Real.cos B +
      0.32 * Real.cos C - 0.2 * Real.cos D := by
    have h1 := Real.cos_le_one A
    have h2 := Real.neg_one_le_cos B
    have h3 := Real.neg_one_le_cos C
    have h4 := Real.cos_le_one D
    linarith
  have hprod : (0 : ℝ) ≤ 0.015 * m * (1 - 0.17 * Real.cos A + 0.24 * Real.cos B +
      0.32 * Real.cos C - 0.2 * Real.cos D) :=
    mul_nonneg (mul_nonneg (by norm_num) hm) (le_trans (by norm_num) hT)
  linarith

theorem fin_div_sH (x m A B C D : ℝ) (hm : 0 ≤ m) :
    (fin x / fin (1 + 0.015 * m * (1 - 0.17 * Real.cos A + 0.24 * Real.cos B +
        0.32 * Real.cos C - 0.2 * Real.cos D)) : JsNum) =
      fin (x / (1 + 0.015 * m * (1 - 0.17 * Real.cos A + 0.24 * Real.cos B +
        0.32 * Real.cos C - 0.2 * Real.cos D))) :=
  fin_div _ _ (ne_of_gt (sH_pos m A B C D hm))

theorem fin_div_sH2 (x s m A B C D : ℝ) (hs : 0 ≤ s) (hm : 0 ≤ m) :
    (fin x / fin (1 * (1 + 0.045 * s) * 1 *
        (1 + 0.015 * m * (1 - 0.17 * Real.cos A + 0.24 * Real.cos B +
          0.32 * Real.cos C - 0.2 * Real.cos D))) : JsNum) =
      fin (x / (1 * (1 + 0.045 * s) * 1 *
        (1 + 0.015 * m * (1 - 0.17 * Real.cos A + 0.24 * Real.cos B +
          0.32 * Real.cos C - 0.2 * Real.cos D)))) := by
  refine fin_div _ _ ?_
  have h1 : (0 : ℝ) < 1 + 0.045 * s := by nlinarith
  have h2 := sH_pos m A B C D hm
  positivity

theorem chromaE_nonneg (a b : ℝ) : 0 ≤ chromaE a b := by
  unfold chromaE
  positivity

theorem qE_nonneg (a1 b1 a2 b2 : ℝ) : 0 ≤ qE a1 b1 a2 b2 := by
  have h1 := chromaE_nonneg a1 b1
  have h2 := chromaE_nonneg a2 b2
  have hmc : (0 : ℝ) ≤ (chromaE a1 b1 + chromaE a2 b2) / 2 := by linarith
  have h7 : (0 : ℝ) ≤ ((chromaE a1 b1 + chromaE a2 b2) / 2) ^ 7 := pow_nonneg hmc 7
  have h25 : (0 : ℝ) < 25 ^ 7 := by norm_num
  simp only [qE]
  exact div_nonneg h7 (by linarith)

theorem chromaJ_agree (a b : ℝ) : chromaJ (fin a) (fin b) = fin (chromaE a b) := by
  unfold chromaJ chromaE
  rw [fin_npow, fin_npow, fin_add, fin_rpow _ _ (by positivity)]

theorem qJ_agree (a1 b1 a2 b2 : ℝ) :
    qJ (fin a1) (fin b1) (fin a2) (fin b2) = fin (qE a1 b1 a2 b2) := by
  have h1 := chromaE_nonneg a1 b1
  have h2 := chromaE_nonneg a2 b2
  have hmc : (0 : ℝ) ≤ (chromaE a1 b1 + chromaE a2 b2) / 2 := by linarith
  have hden : ((chromaE a1 b1 + chromaE a2 b2) / 2) ^ 7 + 25 ^ 7 ≠ 0 := by
    have h7 : (0 : ℝ) ≤ ((chromaE a1 b1 + chromaE a2 b2) / 2) ^ 7 := pow_nonneg hmc 7
    have h25 : (0 : ℝ) < 25 ^ 7 := by norm_num
    exact ne_of_gt (by linarith)
  simp only [qJ, qE, chromaJ_agree, fin_add]
  rw [fin_div _ _ two_ne_zero, fin_npow, fin_npow, fin_add, fin_div _ _ hden]

theorem gJ_agree (a1 b1 a2 b2 : ℝ) :
    gJ (fin a1) (fin b1) (fin a2) (fin b2) = fin (gE a1 b1 a2 b2) := by
  simp only [gJ, gE, qJ_agree]
  rw [fin_rpow _ _ (qE_nonneg a1 b1 a2 b2), fin_sub, fin_mul]

theorem hJ_agree (a b : ℝ) : hJ (fin a) (fin b) = fin (hE a b) := by
  simp only [hJ, hE, fin_eqv, fin_jatan2, fin_mul, ite_fin, fin_jlt, fin_add]

theorem deltaE_decompose (l1 a1 b1 l2 a2 b2 al1 al2 : JsNum) :
    getDeltaE00 ⟨l1, a1, b1, al1⟩ ⟨l2, a2, b2, al2⟩ =
      deCoreJ l1 l2 (chromaJ (a1 * (fin 1 + gJ a1 b1 a2 b2)) b1)
        (chromaJ (a2 * (fin 1 + gJ a1 b1 a2 b2)) b2)
        (hJ (a1 * (fin 1 + gJ a1 b1 a2 b2)) b1)
        (hJ (a2 * (fin 1 + gJ a1 b1 a2 b2)) b2)
        (qJ a1 b1 a2 b2) := rfl

set_option maxHeartbeats 1000000 in
theorem deCoreJ_agree (l1 l2 c11 c22 h1 h2 q : ℝ)
    (hc11 : 0 ≤ c11) (hc22 : 0 ≤ c22) (hq : 0 ≤ q) :
    deCoreJ (fin l1) (fin l2) (fin c11) (fin c22) (fin h1) (fin h2) (fin q) =
      rpow (fin (radCore l1 l2 c11 c22 h1 h2 q)) 0.5 := by
  simp (disch := first
      | assumption
      | positivity
      | (exact ne_of_gt (by nlinarith [hc11, hc22, hq]))
      | nlinarith [hc11, hc22, hq]) only
    [deCoreJ, radCore, ite_fin, fin_add, fin_neg, fin_sub, fin_mul, fin_div,
     fin_npow, fin_rpow, fin_jabs, fin_jcos, fin_jsin, fin_jexp, fin_jlt, fin_jle,
     fin_jgt, fin_eqv, fin_div_sH, fin_div_sH2]


end Colord

namespace Colord

open JsNum

theorem radCore_self (l c h q : ℝ) : radCore l l c c h h q = 0 := by
  unfold radCore
  simp only [sub_self, abs_zero]
  norm_num [Real.sin_zero]

theorem radE00_eq (l1 a1 b1 l2 a2 b2 : ℝ) :
    radE00 l1 a1 b1 l2 a2 b2 =
      radCore l1 l2 (chromaE (a1 * (1 + gE a1 b1 a2 b2)) b1)
        (chromaE (a2 * (1 + gE a1 b1 a2 b2)) b2)
        (hE (a1 * (1 + gE a1 b1 a2 b2)) b1)
        (hE (a2 * (1 + gE a1 b1 a2 b2)) b2)
        (qE a1 b1 a2 b2) := rfl

theorem radE00_self (l a b : ℝ) : radE00 l a b l a b = 0 := by
  rw [radE00_eq]
  exact radCore_self l _ _ _

theorem qE_symm (a1 b1 a2 b2 : ℝ) : qE a2 b2 a1 b1 = qE a1 b1 a2 b2 := by
  unfold qE
  rw [add_comm (chromaE a2 b2) (chromaE a1 b1)]

theorem gE_symm (a1 b1 a2 b2 : ℝ) : gE a2 b2 a1 b1 = gE a1 b1 a2 b2 := by
  unfold gE
  rw [qE_symm]

theorem deltaE_agree (l1 a1 b1 l2 a2 b2 : ℝ) (al1 al2 : JsNum) :
    getDeltaE00 ⟨fin l1, fin a1, fin b1, al1⟩ ⟨fin l2, fin a2, fin b2, al2⟩ =
      rpow (fin (radE00 l1 a1 b1 l2 a2 b2)) 0.5 := by
  rw [deltaE_decompose, radE00_eq]
  simp only [gJ_agree, fin_add, fin_mul, chromaJ_agree, hJ_agree, qJ_agree]
  exact deCoreJ_agree _ _ _ _ _ _ _ (chromaE_nonneg _ _) (chromaE_nonneg _ _)
    (qE_nonneg _ _ _ _)

theorem dh_neg (x y : ℝ) :
    (if 180 < |y - x| ∧ x ≤ y then x - y + 360
      else if 180 < |y - x| ∧ y < x then x - y - 360 else x - y) =
    -(if 180 < |y - x| ∧ y ≤ x then y - x + 360
      else if 180 < |y - x| ∧ x < y then y - x - 360 else y - x) := by
  by_cases hA : 180 < |y - x|
  · by_cases hxy : x ≤ y
    · rcases lt_or_eq_of_le hxy with hlt | heq
      · rw [if_pos ⟨hA, hxy⟩, if_neg (fun hc => not_le.2 hlt hc.2), if_pos ⟨hA, hlt⟩]
        ring
      · exfalso
        rw [heq, sub_self, abs_zero] at hA
        linarith
    · have hyx : y < x := not_le.1 hxy
      rw [if_neg (fun hc => hxy hc.2), if_pos ⟨hA, hyx⟩, if_pos ⟨hA, le_of_lt hyx⟩]
      ring
  · rw [if_neg (fun hc => hA hc.1), if_neg (fun hc => hA hc.1),
      if_neg (fun hc => hA hc.1), if_neg (fun hc => hA hc.1)]
    ring

theorem radCore_swap (l1 l2 c11 c22 h1 h2 q : ℝ) :
    radCore l2 l1 c22 c11 h2 h1 q = radCore l1 l2 c11 c22 h1 h2 q := by
  simp only [radCore]
  rw [abs_sub_comm h1 h2, add_comm h2 h1, add_comm l2 l1, mul_comm c22 c11,
    dh_neg h1 h2]
  rw [show ∀ d : ℝ, Real.pi / 180 * -d / 2 = -(Real.pi / 180 * d / 2) from
    fun d => by ring]
  rw [Real.sin_neg]
  ring

theorem radE00_symm (l1 a1 b1 l2 a2 b2 : ℝ) :
    radE00 l2 a2 b2 l1 a1 b1 = radE00 l1 a1 b1 l2 a2 b2 := by
  rw [radE00_eq l2 a2 b2 l1 a1 b1, radE00_eq l1 a1 b1 l2 a2 b2]
  rw [gE_symm a1 b1 a2 b2, qE_symm a1 b1 a2 b2]
  exact radCore_swap l1 l2 _ _ _ _ _

theorem clamp01_mem (y : JsNum) :
    ∃ q : ℝ, clamp y (fin 0) (fin 1) = fin q ∧ 0 ≤ q ∧ q ≤ 1 := by
  cases y with
  | fin x =>
    rw [clamp_fin]
    split_ifs with h1 h2
    · exact ⟨1, rfl, by norm_num⟩
    · exact ⟨x, rfl, le_of_lt h2, not_lt.1 h1⟩
    · exact ⟨0, rfl, le_rfl, zero_le_one⟩
  | nan => exact ⟨0, clamp_nan _ _, le_rfl, zero_le_one⟩
  | inf p =>
    cases p
    · exact ⟨0, by simp [clamp, jgt, jlt], le_rfl, zero_le_one⟩
    · exact ⟨1, by simp [clamp, jgt, jlt], zero_le_one, le_rfl⟩

end Colord

namespace Colord

open JsNum

/-- C6: the delta plugin operation normalizes the CIEDE2000 difference by
dividing it by 100, rounding to 3 digits and clamping into 0..1; on finite
LAB coordinates it is zero when both colors are equal and symmetric in its
two arguments (for any alpha channels), and on all inputs its result is a
finite value in [0, 1]. -/
theorem c6_delta_properties :
    (∀ lab1 lab2 : Laba, deltaOp lab1 lab2 =
        clamp (round (getDeltaE00 lab1 lab2 / fin 100) 3) (fin 0) (fin 1)) ∧
    (∀ l a b : ℝ, ∀ al : JsNum,
        deltaOp ⟨fin l, fin a, fin b, al⟩ ⟨fin l, fin a, fin b, al⟩ = fin 0) ∧
    (∀ l1 a1 b1 l2 a2 b2 : ℝ, ∀ al1 al2 : JsNum,
        deltaOp ⟨fin l1, fin a1, fin b1, al1⟩ ⟨fin l2, fin a2, fin b2, al2⟩ =
          deltaOp ⟨fin l2, fin a2, fin b2, al2⟩ ⟨fin l1, fin a1, fin b1, al1⟩) ∧
    (∀ lab1 lab2 : Laba, ∃ q : ℝ, deltaOp lab1 lab2 = fin q ∧ 0 ≤ q ∧ q ≤ 1) := by
  refine ⟨fun lab1 lab2 => rfl, ?_, ?_, ?_⟩
  · intro l a b al
    unfold deltaOp
    rw [deltaE_agree, radE00_self]
    rw [fin_rpow _ _ le_rfl, Real.zero_rpow (by norm_num)]
    rw [fin_div _ _ (by norm_num : (100 : ℝ) ≠ 0)]
    rw [show (0 : ℝ) / 100 = 0 from by norm_num]
    rw [round_fin_self 0 3 0 (by norm_num)]
    exact clamp_fin_of_mem 0 0 1 le_rfl zero_le_one
  · intro l1 a1 b1 l2 a2 b2 al1 al2
    unfold deltaOp
    rw [deltaE_agree, deltaE_agree, radE00_symm]
  · intro lab1 lab2
    unfold deltaOp
    exact clamp01_mem _

end Colord

namespace Colord

open JsNum

theorem cmyk_fwd_cex :
    cmykaToRgba (rgbaToCmyka ⟨fin 254, fin 253, fin 253, fin 1⟩) =
      ⟨fin 255, fin 255, fin 255, fin 1⟩ := by
  have h1 : rgbaToCmyka ⟨fin 254, fin 253, fin 253, fin 1⟩ =
      ⟨fin 0, fin 0, fin 0, fin 0, fin 1⟩ := by
    have hkk : (fin (1 : ℝ) -
        jmax (fin 254 / fin 255) (jmax (fin 253 / fin 255) (fin 253 / fin 255)) :
        JsNum) = fin (1 / 255) := by norm_num
    have hcn : (fin (1 : ℝ) - fin 254 / fin 255 - fin (1 / 255) : JsNum) = fin 0 := by
      norm_num
    have hmn : (fin (1 : ℝ) - fin 253 / fin 255 - fin (1 / 255) : JsNum) =
        fin (1 / 255) := by norm_num
    have hden : (fin (1 : ℝ) - fin (1 / 255) : JsNum) = fin (254 / 255) := by norm_num
    have hcq : (fin (0 : ℝ) / fin ((254 : ℝ) / 255) : JsNum) = fin 0 := by norm_num
    have hmq : (fin ((1 : ℝ) / 255) / fin ((254 : ℝ) / 255) : JsNum) =
        fin (1 / 254) := by norm_num
    have hr0 : round (fin (0 : ℝ) * fin 100) 0 = fin 0 := by
      have hz : (fin (0 : ℝ) * fin 100 : JsNum) = fin 0 := by norm_num
      rw [hz]
      exact round_fin_self 0 0 0 (by norm_num)
    have hrm : round (fin ((1 : ℝ) / 254) * fin 100) 0 = fin 0 := by
      have hm : (fin ((1 : ℝ) / 254) * fin 100 : JsNum) = fin (100 / 254) := by norm_num
      rw [hm, round_fin,
        floor_eval ((10 : ℝ) ^ 0 * (100 / 254) + 1 / 2) 0 (by norm_num) (by norm_num)]
      norm_num
    have hrk : round (fin ((1 : ℝ) / 255) * fin 100) 0 = fin 0 := by
      have hm : (fin ((1 : ℝ) / 255) * fin 100 : JsNum) = fin (100 / 255) := by norm_num
      rw [hm, round_fin,
        floor_eval ((10 : ℝ) ^ 0 * (100 / 255) + 1 / 2) 0 (by norm_num) (by norm_num)]
      norm_num
    simp only [rgbaToCmyka]
    rw [hkk, hcn, hmn, hden, hcq, hmq, hr0, hrm, hrk]
    simp [JsNum.fin_isNaN]
  rw [h1]
  have hch : (fin (255 : ℝ) * (fin 1 - fin 0 / fin 100) * (fin 1 - fin 0 / fin 100) :
      JsNum) = fin 255 := by norm_num
  simp only [cmykaToRgba]
  rw [hch, round_fin_self 255 0 255 (by norm_num)]

theorem lch_rev_cex :
    rgbaToLcha (lchaToRgba ⟨fin 0, fin 0, fin 100, fin 1⟩) =
      ⟨fin 0, fin 0, fin 0, fin 1⟩ := by
  have h1 : lchaToRgba ⟨fin 0, fin 0, fin 100, fin 1⟩ =
      labaToRgba ⟨fin 0, fin 0, fin 0, fin 1⟩ := by
    simp only [lchaToRgba]
    rw [JsNum.fin_mul, JsNum.fin_div _ _ (by norm_num : (180 : ℝ) ≠ 0),
      JsNum.fin_jcos, JsNum.fin_jsin, JsNum.fin_mul, JsNum.fin_mul]
    norm_num
  have h2 : labaToRgba ⟨fin 0, fin 0, fin 0, fin 1⟩ =
      xyzaToRgba ⟨fin 0, fin 0, fin 0, fin 1⟩ := by
    simp only [labaToRgba, D50]
    norm_num [JsNum.fin_add, JsNum.fin_sub, JsNum.fin_mul, JsNum.fin_div,
      JsNum.fin_npow, JsNum.fin_jgt, e, k]
  have h3 : xyzaToRgba ⟨fin 0, fin 0, fin 0, fin 1⟩ = ⟨fin 0, fin 0, fin 0, fin 1⟩ := by
    simp only [xyzaToRgba, adaptXyzToD65, clampRgba, unlinearizeRgbChannel]
    norm_num [JsNum.fin_add, JsNum.fin_sub, JsNum.fin_mul, JsNum.fin_div,
      JsNum.fin_jgt, clamp_fin]
  have h4 : rgbaToLaba ⟨fin 0, fin 0, fin 0, fin 1⟩ = ⟨fin 0, fin 0, fin 0, fin 1⟩ := by
    simp only [rgbaToLaba, rgbaToXyza, adaptXyzaToD50, clampXyza, linearize_0, D50]
    norm_num [JsNum.fin_add, JsNum.fin_sub, JsNum.fin_mul, JsNum.fin_div,
      JsNum.fin_jgt, clamp_fin, e, k]
  have harg : Complex.arg ⟨0, 0⟩ = 0 := by
    rw [show (⟨0, 0⟩ : ℂ) = 0 from Complex.ext rfl rfl, Complex.arg_zero]
  rw [h1, h2, h3]
  simp only [rgbaToLcha, h4]
  rw [round_fin_self 0 3 0 (by norm_num), JsNum.fin_jatan2, harg]
  rw [JsNum.fin_div _ _ Real.pi_ne_zero, JsNum.fin_mul]
  norm_num [JsNum.fin_jsqrt, JsNum.fin_jlt, Real.sqrt_zero]

end Colord

namespace Colord

open JsNum

theorem hwb_rev_cex :
    rgbaToHwba (hwbaToRgba ⟨fin 200, fin 60, fin 40, fin 1⟩) =
      ⟨fin 0, fin 60, fin 40, fin 1⟩ := by
  have h1 : hwbaToRgba ⟨fin 200, fin 60, fin 40, fin 1⟩ =
      ⟨fin 153, fin 153, fin 153, fin 1⟩ := by
    simp only [hwbaToRgba]
    rw [if_neg (by rw [JsNum.fin_eqv]; norm_num)]
    have hs : (fin (100 : ℝ) - fin 60 / (fin 100 - fin 40) * fin 100 : JsNum) =
        fin 0 := by norm_num
    have hv : (fin (100 : ℝ) - fin 40 : JsNum) = fin 60 := by norm_num
    rw [hs, hv]
    rw [hsva_eval 200 0 60 (fin 1) 3 (by norm_num) (by norm_num) (by
      rw [show (200 : ℝ) / 360 * 6 = 10 / 3 from by norm_num]
      exact floor_eval (10 / 3) 3 (by norm_num) (by norm_num))]
    simp only [show ((3 : ℤ).toNat) = 3 from rfl, getD6_3, JsNum.fin_mul]
    norm_num
  rw [h1, rgba_to_hwba_form]
  have hh : (rgbaToHsva ⟨fin 153, fin 153, fin 153, fin 1⟩).h = fin 0 := by
    simp only [rgbaToHsva]
    norm_num [JsNum.fin_jmax, JsNum.fin_jmin, JsNum.fin_sub, JsNum.fin_truthy,
      JsNum.fin_jlt, JsNum.fin_mul]
  rw [hh]
  norm_num [Hwba.mk.injEq]

end Colord

namespace Colord

open JsNum

theorem clamp_finR (x lo hi : ℝ) :
    clamp (fin x) (fin lo) (fin hi) = fin (clampR x lo hi) := by
  rw [clamp_fin]
  unfold clampR
  split_ifs <;> rfl

theorem linearize_agree (v : ℝ) :
    linearizeRgbChannel (fin v) = fin (linR v) := by
  unfold linearizeRgbChannel linR
  rw [JsNum.fin_div _ _ (by norm_num : (255 : ℝ) ≠ 0)]
  by_cases h : v / 255 < 0.04045
  · rw [if_pos (by exact h), if_pos h,
      JsNum.fin_div _ _ (by norm_num : (12.92 : ℝ) ≠ 0)]
  · rw [if_neg (by exact h), if_neg h, JsNum.fin_add,
      JsNum.fin_div _ _ (by norm_num : (1.055 : ℝ) ≠ 0),
      JsNum.fin_rpow _ _ (by push_neg at h; positivity)]

theorem unlinearize_agree (t : ℝ) :
    unlinearizeRgbChannel (fin t) = fin (unlinR t) := by
  unfold unlinearizeRgbChannel unlinR
  by_cases h : (0.0031308 : ℝ) < t
  · rw [if_pos (by exact h), if_pos h,
      JsNum.fin_rpow _ _ (le_of_lt (lt_trans (by norm_num) h)),
      JsNum.fin_mul, JsNum.fin_sub, JsNum.fin_mul]
  · rw [if_neg (by exact h), if_neg h, JsNum.fin_mul, JsNum.fin_mul]

theorem cbrt_finR (t : ℝ) : cbrt (fin t) = fin (cbrtR t) := by
  unfold cbrtR
  simp only [cbrt]
  split_ifs <;> rfl

theorem ffwd_agree (t : ℝ) :
    (if jgt (fin t) (fin e) then cbrt (fin t)
     else (fin k * fin t + fin 16) / fin 116) = fin (ffwdR t) := by
  unfold ffwdR
  by_cases h : e < t
  · rw [if_pos (by exact h), if_pos h, cbrt_finR]
  · rw [if_neg (by exact h), if_neg h, JsNum.fin_mul, JsNum.fin_add,
      JsNum.fin_div _ _ (by norm_num : (116 : ℝ) ≠ 0)]

theorem laba_agree (r g b av : ℝ) :
    rgbaToLaba ⟨fin r, fin g, fin b, fin av⟩ =
      ⟨fin (labLR r g b), fin (labAR r g b), fin (labBR r g b),
       fin (clampR av 0 1)⟩ := by
  have hx : rgbaToXyza ⟨fin r, fin g, fin b, fin av⟩ =
      ⟨fin (x50R r g b), fin (y50R r g b), fin (z50R r g b),
       fin (clampR av 0 1)⟩ := by
    simp only [rgbaToXyza, adaptXyzaToD50, clampXyza, D50, linearize_agree,
      JsNum.fin_mul, JsNum.fin_add, clamp_finR]
    simp only [x50R, y50R, z50R, x65R, y65R, z65R]
  simp only [rgbaToLaba, hx, D50]
  rw [JsNum.fin_div _ _ (by norm_num : (96.422 : ℝ) ≠ 0),
    JsNum.fin_div _ _ (by norm_num : (100 : ℝ) ≠ 0),
    JsNum.fin_div _ _ (by norm_num : (82.521 : ℝ) ≠ 0)]
  rw [ffwd_agree, ffwd_agree, ffwd_agree]
  simp only [labLR, labAR, labBR, fxR, fyR, fzR, JsNum.fin_mul, JsNum.fin_sub]

theorem labaToRgba_agree (l a b al : ℝ) :
    labaToRgba ⟨fin l, fin a, fin b, fin al⟩ =
      ⟨fin (outR (xbR l a) (ybR l) (zbR l b)),
       fin (outG (xbR l a) (ybR l) (zbR l b)),
       fin (outB (xbR l a) (ybR l) (zbR l b)),
       fin (clampR al 0 1)⟩ := by
  have hxyz : labaToRgba ⟨fin l, fin a, fin b, fin al⟩ =
      xyzaToRgba ⟨fin (xbR l a), fin (ybR l), fin (zbR l b), fin al⟩ := by
    simp only [labaToRgba, D50]
    rw [JsNum.fin_add, JsNum.fin_div _ _ (by norm_num : (116 : ℝ) ≠ 0),
      JsNum.fin_div _ _ (by norm_num : (500 : ℝ) ≠ 0), JsNum.fin_add,
      JsNum.fin_div _ _ (by norm_num : (200 : ℝ) ≠ 0), JsNum.fin_sub]
    simp only [JsNum.fin_npow]
    have hb1 : (if jgt (fin ((a / 500 + (l + 16) / 116) ^ 3)) (fin e)
        then fin ((a / 500 + (l + 16) / 116) ^ 3)
        else (fin 116 * fin (a / 500 + (l + 16) / 116) - fin 16) / fin k) =
        fin (finvR (a / 500 + (l + 16) / 116)) := by
      unfold finvR
      by_cases h : e < (a / 500 + (l + 16) / 116) ^ 3
      · rw [if_pos (by exact h), if_pos h]
      · rw [if_neg (by exact h), if_neg h, JsNum.fin_mul, JsNum.fin_sub,
          JsNum.fin_div _ _ (by norm_num [k] : Colord.k ≠ 0)]
    have hb2 : (if jgt (fin l) (fin k * fin e) then fin (((l + 16) / 116) ^ 3)
        else fin l / fin k) = fin (yinvR l) := by
      unfold yinvR
      rw [JsNum.fin_mul]
      by_cases h : k * e < l
      · rw [if_pos (by exact h), if_pos h]
      · rw [if_neg (by exact h), if_neg h,
          JsNum.fin_div _ _ (by norm_num [k] : Colord.k ≠ 0)]
    have hb3 : (if jgt (fin (((l + 16) / 116 - b / 200) ^ 3)) (fin e)
        then fin (((l + 16) / 116 - b / 200) ^ 3)
        else (fin 116 * fin ((l + 16) / 116 - b / 200) - fin 16) / fin k) =
        fin (finvR ((l + 16) / 116 - b / 200)) := by
      unfold finvR
      by_cases h : e < ((l + 16) / 116 - b / 200) ^ 3
      · rw [if_pos (by exact h), if_pos h]
      · rw [if_neg (by exact h), if_neg h, JsNum.fin_mul, JsNum.fin_sub,
          JsNum.fin_div _ _ (by norm_num [k] : Colord.k ≠ 0)]
    rw [hb1, hb2, hb3]
    simp only [xbR, ybR, zbR, JsNum.fin_mul]
  rw [hxyz]
  simp only [xyzaToRgba, adaptXyzToD65, clampRgba, JsNum.fin_mul, JsNum.fin_add,
    unlinearize_agree, clamp_finR]
  simp only [outR, outG, outB, x65bR, y65bR, z65bR, JsNum.fin_mul, JsNum.fin_add,
    JsNum.fin_sub, unlinearize_agree, clamp_finR]

end Colord

namespace Colord

open JsNum

theorem polar_shift (x y : ℝ) :
    Real.cos ((if 180 * (Complex.arg ⟨x, y⟩ / Real.pi) < 0 then
        180 * (Complex.arg ⟨x, y⟩ / Real.pi) + 360
      else 180 * (Complex.arg ⟨x, y⟩ / Real.pi)) * Real.pi / 180) =
      Real.cos (Complex.arg ⟨x, y⟩) ∧
    Real.sin ((if 180 * (Complex.arg ⟨x, y⟩ / Real.pi) < 0 then
        180 * (Complex.arg ⟨x, y⟩ / Real.pi) + 360
      else 180 * (Complex.arg ⟨x, y⟩ / Real.pi)) * Real.pi / 180) =
      Real.sin (Complex.arg ⟨x, y⟩) := by
  have hpi := Real.pi_ne_zero
  split_ifs with h
  · have harg : (180 * (Complex.arg ⟨x, y⟩ / Real.pi) + 360) * Real.pi / 180 =
        Complex.arg ⟨x, y⟩ + 2 * Real.pi := by
      field_simp
      ring
    rw [harg, Real.cos_add_two_pi, Real.sin_add_two_pi]
    exact ⟨rfl, rfl⟩
  · have harg : 180 * (Complex.arg ⟨x, y⟩ / Real.pi) * Real.pi / 180 =
        Complex.arg ⟨x, y⟩ := by
      field_simp
    rw [harg]
    exact ⟨rfl, rfl⟩

theorem polar_recover (x y : ℝ) :
    Real.sqrt (x * x + y * y) *
        Real.cos ((if 180 * (Complex.arg ⟨x, y⟩ / Real.pi) < 0 then
            180 * (Complex.arg ⟨x, y⟩ / Real.pi) + 360
          else 180 * (Complex.arg ⟨x, y⟩ / Real.pi)) * Real.pi / 180) = x ∧
      Real.sqrt (x * x + y * y) *
        Real.sin ((if 180 * (Complex.arg ⟨x, y⟩ / Real.pi) < 0 then
            180 * (Complex.arg ⟨x, y⟩ / Real.pi) + 360
          else 180 * (Complex.arg ⟨x, y⟩ / Real.pi)) * Real.pi / 180) = y := by
  have habs : Real.sqrt (x * x + y * y) = Complex.abs ⟨x, y⟩ := by
    rw [Complex.abs_apply, Complex.normSq_mk]
  obtain ⟨hc, hs⟩ := polar_shift x y
  rw [hc, hs, habs]
  exact ⟨Complex.abs_mul_cos_arg _, Complex.abs_mul_sin_arg _⟩

theorem round3_fin (x : ℝ) : round (fin x) 3 = fin (rnd3R x) := by
  rw [round_fin]
  rfl

theorem lch_roundtrip_lab (r g b av : ℝ) :
    lchaToRgba (rgbaToLcha ⟨fin r, fin g, fin b, fin av⟩) =
      labaToRgba ⟨fin (labLR r g b), fin (rnd3R (labAR r g b)),
        fin (rnd3R (labBR r g b)), fin (clampR av 0 1)⟩ := by
  simp only [rgbaToLcha, laba_agree, round3_fin, lchaToRgba]
  rw [JsNum.fin_jatan2]
  rw [JsNum.fin_div _ _ Real.pi_ne_zero, JsNum.fin_mul]
  simp only [JsNum.fin_add, JsNum.fin_jlt, ite_fin, JsNum.fin_mul]
  rw [JsNum.fin_jsqrt _ (add_nonneg (mul_self_nonneg _) (mul_self_nonneg _))]
  rw [JsNum.fin_div _ _ (by norm_num : (180 : ℝ) ≠ 0), JsNum.fin_jcos,
    JsNum.fin_jsin, JsNum.fin_mul, JsNum.fin_mul]
  obtain ⟨hc, hs⟩ := polar_recover (rnd3R (labAR r g b)) (rnd3R (labBR r g b))
  rw [hc, hs]

end Colord

namespace Colord

open JsNum

theorem clampR_of_mem (x lo hi : ℝ) (h1 : lo ≤ x) (h2 : x ≤ hi) :
    clampR x lo hi = x := by
  unfold clampR
  rcases lt_or_eq_of_le h1 with h | h
  · rw [if_neg (not_lt.2 h2), if_pos h]
  · rw [if_neg (not_lt.2 h2), if_neg (by rw [h]; exact lt_irrefl x), h]

theorem clampR_mem (x lo hi : ℝ) (h : lo ≤ hi) :
    lo ≤ clampR x lo hi ∧ clampR x lo hi ≤ hi := by
  unfold clampR
  split_ifs with h1 h2
  · exact ⟨h, le_rfl⟩
  · exact ⟨le_of_lt h2, not_lt.1 h1⟩
  · exact ⟨le_rfl, h⟩

theorem clampR_le_of (x c : ℝ) (h : x ≤ c) (h0 : 0 ≤ c) :
    clampR x 0 255 ≤ c := by
  unfold clampR
  split_ifs with h1 h2
  · linarith
  · exact h
  · exact h0

theorem clampR_ge_of (x c : ℝ) (h : c ≤ x) (h255 : c ≤ 255) :
    c ≤ clampR x 0 255 := by
  unfold clampR
  split_ifs with h1 h2
  · exact h255
  · exact h
  · push_neg at h2
    linarith

theorem clampR_down (x d hi : ℝ) (hx : 0 ≤ x) (hxd : x ≤ hi + d) (hhi : 0 ≤ hi)
    (hd : 0 ≤ d) : x - d ≤ clampR x 0 hi ∧ clampR x 0 hi ≤ x := by
  unfold clampR
  split_ifs with h1 h2
  · constructor <;> linarith
  · exact ⟨by linarith, le_rfl⟩
  · push_neg at h2
    have hx0 : x = 0 := le_antisymm h2 hx
    rw [hx0]
    constructor <;> linarith

theorem rnd3_close (x : ℝ) : |rnd3R x - x| ≤ 1 / 2000 := by
  unfold rnd3R
  have h1 : (⌊(10 : ℝ) ^ 3 * x + 1 / 2⌋ : ℝ) ≤ (10 : ℝ) ^ 3 * x + 1 / 2 :=
    Int.floor_le _
  have h2 : (10 : ℝ) ^ 3 * x + 1 / 2 - 1 < (⌊(10 : ℝ) ^ 3 * x + 1 / 2⌋ : ℝ) :=
    Int.sub_one_lt_floor _
  rw [show ((10 : ℝ) ^ 3) = 1000 from by norm_num] at h1 h2 ⊢
  rw [abs_le]
  constructor <;> [linarith; linarith]

theorem linR_mem (v : ℝ) (h0 : 0 ≤ v) (h1 : v ≤ 255) :
    0 ≤ linR v ∧ linR v ≤ 1 := by
  unfold linR
  split_ifs with h
  · refine ⟨by positivity, ?_⟩
    rw [div_le_one (by norm_num)]
    linarith
  · push_neg at h
    have hb0 : (0 : ℝ) ≤ (v / 255 + 0.055) / 1.055 := by positivity
    have hb1 : (v / 255 + 0.055) / 1.055 ≤ 1 := by
      rw [div_le_one (by norm_num)]
      have : v / 255 ≤ 1 := by rw [div_le_one (by norm_num)]; linarith
      linarith
    exact ⟨Real.rpow_nonneg hb0 _, Real.rpow_le_one hb0 hb1 (by norm_num)⟩

theorem rpow_third_cube (x : ℝ) (hx : 0 ≤ x) :
    (x ^ ((1 : ℝ) / 3)) ^ (3 : ℕ) = x := by
  rw [← Real.rpow_natCast (x ^ ((1 : ℝ) / 3)) 3, ← Real.rpow_mul hx]
  norm_num

theorem cube_rpow_third (x : ℝ) (hx : 0 ≤ x) :
    (x ^ (3 : ℕ)) ^ ((1 : ℝ) / 3) = x := by
  rw [← Real.rpow_natCast x 3, ← Real.rpow_mul hx]
  norm_num

theorem cube_lt_cube (a b : ℝ) (ha : 0 ≤ a) (hb : 0 ≤ b) :
    a ^ (3 : ℕ) < b ^ (3 : ℕ) ↔ a < b :=
  pow_lt_pow_iff_left₀ ha hb (by norm_num)

theorem ffwd_mem (t : ℝ) (h0 : 0 ≤ t) (h1 : t ≤ 1) :
    4 / 29 ≤ ffwdR t ∧ ffwdR t ≤ 1 := by
  by_cases h : e < t
  · have hffwd : ffwdR t = t ^ ((1 : ℝ) / 3) := by
      unfold ffwdR cbrtR
      rw [if_pos h, if_neg (not_lt.2 h0)]
    rw [hffwd]
    constructor
    · have hec : Colord.e ^ ((1 : ℝ) / 3) ≤ t ^ ((1 : ℝ) / 3) :=
        Real.rpow_le_rpow (by norm_num [e]) (le_of_lt h) (by norm_num)
      have he3 : Colord.e ^ ((1 : ℝ) / 3) = 6 / 29 := by
        rw [show Colord.e = ((6 : ℝ) / 29) ^ (3 : ℕ) from by norm_num [e]]
        exact cube_rpow_third _ (by norm_num)
      rw [he3] at hec
      linarith
    · exact Real.rpow_le_one h0 h1 (by norm_num)
  · have hffwd : ffwdR t = (k * t + 16) / 116 := by
      unfold ffwdR
      rw [if_neg h]
    rw [hffwd]
    push_neg at h
    have hkt0 : (0 : ℝ) ≤ k * t := mul_nonneg (by norm_num [k]) h0
    have hkt8 : k * t ≤ 8 := by
      have hke : k * Colord.e = 8 := by norm_num [k, e]
      calc k * t ≤ k * Colord.e :=
            mul_le_mul_of_nonneg_left h (by norm_num [k])
        _ = 8 := hke
    constructor
    · rw [div_le_div_iff₀ (by norm_num) (by norm_num)]
      linarith
    · rw [div_le_one (by norm_num)]
      linarith

theorem finv_ffwd (t : ℝ) (h0 : 0 ≤ t) (h1 : t ≤ 1) : finvR (ffwdR t) = t := by
  by_cases h : e < t
  · have hffwd : ffwdR t = t ^ ((1 : ℝ) / 3) := by
      unfold ffwdR cbrtR
      rw [if_pos h, if_neg (not_lt.2 h0)]
    rw [hffwd]
    unfold finvR
    rw [rpow_third_cube t h0, if_pos h]
  · have hffwd : ffwdR t = (k * t + 16) / 116 := by
      unfold ffwdR
      rw [if_neg h]
    rw [hffwd]
    unfold finvR
    push_neg at h
    have hval : (0 : ℝ) ≤ (k * t + 16) / 116 := by
      have : (0 : ℝ) ≤ k * t := mul_nonneg (by norm_num [k]) h0
      positivity
    have hle : (k * t + 16) / 116 ≤ 6 / 29 := by
      have hke : k * Colord.e = 8 := by norm_num [k, e]
      have hkt8 : k * t ≤ 8 := by
        calc k * t ≤ k * Colord.e :=
              mul_le_mul_of_nonneg_left h (by norm_num [k])
          _ = 8 := hke
      rw [div_le_div_iff₀ (by norm_num) (by norm_num)]
      linarith
    have hcube : ((k * t + 16) / 116) ^ (3 : ℕ) ≤ e := by
      rw [show Colord.e = ((6 : ℝ) / 29) ^ (3 : ℕ) from by norm_num [e]]
      exact pow_le_pow_left₀ hval hle 3
    rw [if_neg (not_lt.2 hcube)]
    have hk : Colord.k ≠ 0 := by norm_num [k]
    field_simp

theorem yinv_exact (t : ℝ) (h0 : 0 ≤ t) (h1 : t ≤ 1) :
    yinvR (116 * ffwdR t - 16) = t := by
  have hke : k * Colord.e = 8 := by norm_num [k, e]
  by_cases h : e < t
  · have hffwd : ffwdR t = t ^ ((1 : ℝ) / 3) := by
      unfold ffwdR cbrtR
      rw [if_pos h, if_neg (not_lt.2 h0)]
    rw [hffwd]
    unfold yinvR
    have hc : (6 : ℝ) / 29 < t ^ ((1 : ℝ) / 3) := by
      have hec : Colord.e ^ ((1 : ℝ) / 3) < t ^ ((1 : ℝ) / 3) :=
        Real.rpow_lt_rpow (by norm_num [e]) h (by norm_num)
      have he3 : Colord.e ^ ((1 : ℝ) / 3) = 6 / 29 := by
        rw [show Colord.e = ((6 : ℝ) / 29) ^ (3 : ℕ) from by norm_num [e]]
        exact cube_rpow_third _ (by norm_num)
      linarith [he3 ▸ hec]
    rw [if_pos (by rw [hke]; nlinarith)]
    have harg : (116 * t ^ ((1 : ℝ) / 3) - 16 + 16) / 116 = t ^ ((1 : ℝ) / 3) := by
      ring
    rw [harg, rpow_third_cube t h0]
  · have hffwd : ffwdR t = (k * t + 16) / 116 := by
      unfold ffwdR
      rw [if_neg h]
    rw [hffwd]
    unfold yinvR
    push_neg at h
    have hkt8 : k * t ≤ 8 := by
      calc k * t ≤ k * Colord.e :=
            mul_le_mul_of_nonneg_left h (by norm_num [k])
        _ = 8 := hke
    have harg : 116 * ((k * t + 16) / 116) - 16 = k * t := by ring
    rw [harg, if_neg (by rw [hke]; linarith)]
    have hk : Colord.k ≠ 0 := by norm_num [k]
    field_simp

theorem finv_mono_incr (t1 t2 : ℝ) (h0 : 0 ≤ t1) (h12 : t1 ≤ t2) (h2 : t2 ≤ 1.1) :
    0 ≤ finvR t2 - finvR t1 ∧ finvR t2 - finvR t1 ≤ 3.63 * (t2 - t1) := by
  unfold finvR
  have he3 : Colord.e = ((6 : ℝ) / 29) ^ (3 : ℕ) := by norm_num [e]
  have hc1 : (e < t1 ^ (3 : ℕ)) ↔ (6 / 29 : ℝ) < t1 := by
    rw [he3]
    exact cube_lt_cube _ _ (by norm_num) h0
  have hc2 : (e < t2 ^ (3 : ℕ)) ↔ (6 / 29 : ℝ) < t2 := by
    rw [he3]
    exact cube_lt_cube _ _ (by norm_num) (le_trans h0 h12)
  have hk : (0 : ℝ) < k := by norm_num [k]
  split_ifs with hT2 hT1 hT1
  · -- both cube
    have ht1 : (6 / 29 : ℝ) < t1 := hc1.1 hT1
    have hmono : t1 ^ (3 : ℕ) ≤ t2 ^ (3 : ℕ) := pow_le_pow_left₀ h0 h12 3
    have hfact : t2 ^ (3 : ℕ) - t1 ^ (3 : ℕ) =
        (t2 - t1) * (t2 ^ 2 + t1 * t2 + t1 ^ 2) := by ring
    have hbd : t2 ^ 2 + t1 * t2 + t1 ^ 2 ≤ 3.63 := by nlinarith
    constructor
    · linarith
    · rw [hfact]
      nlinarith [mul_le_mul_of_nonneg_left hbd (by linarith : (0:ℝ) ≤ t2 - t1)]
  · -- t2 cube, t1 linear
    have ht1 : ¬ (6 / 29 : ℝ) < t1 := fun hh => hT1 (hc1.2 hh)
    have ht2 : (6 / 29 : ℝ) < t2 := hc2.1 hT2
    push_neg at ht1
    have hmid1 : (116 * t1 - 16) / k ≤ e := by
      rw [div_le_iff₀ hk]
      have h8 : k * Colord.e = 8 := by norm_num [k, e]
      nlinarith
    have hcu : t2 ^ (3 : ℕ) - ((6 : ℝ) / 29) ^ (3 : ℕ) ≤ 3.63 * (t2 - 6 / 29) := by
      have hfact : t2 ^ (3 : ℕ) - ((6 : ℝ) / 29) ^ (3 : ℕ) =
          (t2 - 6 / 29) * (t2 ^ 2 + (6 / 29) * t2 + (6 / 29) ^ 2) := by ring
      have hbd : t2 ^ 2 + (6 / 29) * t2 + (6 / 29) ^ 2 ≤ 3.63 := by nlinarith
      have := mul_le_mul_of_nonneg_left hbd (by linarith : (0 : ℝ) ≤ t2 - 6 / 29)
      nlinarith [hfact]
    have hgap : Colord.e - (116 * t1 - 16) / k = 116 / k * (6 / 29 - t1) := by
      field_simp
      norm_num [e, k]
      ring
    have hgap2 : Colord.e - (116 * t1 - 16) / k ≤ 3.63 * (6 / 29 - t1) := by
      rw [hgap]
      apply mul_le_mul_of_nonneg_right _ (by linarith)
      norm_num [k]
    have hcube2 : Colord.e ≤ t2 ^ (3 : ℕ) := by
      rw [he3]
      exact pow_le_pow_left₀ (by norm_num) (le_of_lt ht2) 3
    constructor
    · linarith
    · linarith
  · -- t2 linear, t1 cube: impossible
    exfalso
    have ht1 : (6 / 29 : ℝ) < t1 := hc1.1 hT1
    have ht2 : ¬ (6 / 29 : ℝ) < t2 := fun hh => hT2 (hc2.2 hh)
    push_neg at ht2
    linarith
  · -- both linear
    have h116 : (116 * t2 - 16) / k - (116 * t1 - 16) / k = 116 / k * (t2 - t1) := by
      field_simp
      ring
    have hnn : (0 : ℝ) ≤ 116 / k * (t2 - t1) :=
      mul_nonneg (by positivity) (by linarith)
    have hsl : 116 / k * (t2 - t1) ≤ 3.63 * (t2 - t1) := by
      apply mul_le_mul_of_nonneg_right _ (by linarith)
      norm_num [k]
    constructor
    · linarith [h116, hnn]
    · linarith [h116, hsl]

end Colord

namespace Colord

open JsNum

theorem rpow_1224 (x : ℝ) (hx : 0 ≤ x) :
    (x ^ ((1 / 2.4 : ℝ))) ^ (12 : ℕ) = x ^ (5 : ℕ) := by
  rw [← Real.rpow_natCast (x ^ ((1 / 2.4 : ℝ))) 12, ← Real.rpow_mul hx,
    show ((1 / 2.4 : ℝ)) * ((12 : ℕ) : ℝ) = ((5 : ℕ) : ℝ) from by norm_num,
    Real.rpow_natCast]

theorem rpow_524 (x : ℝ) (hx : 0 ≤ x) :
    (x ^ ((2.4 : ℝ))) ^ (5 : ℕ) = x ^ (12 : ℕ) := by
  rw [← Real.rpow_natCast (x ^ ((2.4 : ℝ))) 5, ← Real.rpow_mul hx,
    show ((2.4 : ℝ)) * ((5 : ℕ) : ℝ) = ((12 : ℕ) : ℝ) from by norm_num,
    Real.rpow_natCast]

theorem rpow_514 (x : ℝ) (hx : 0 ≤ x) :
    (x ^ ((1.4 : ℝ))) ^ (5 : ℕ) = x ^ (7 : ℕ) := by
  rw [← Real.rpow_natCast (x ^ ((1.4 : ℝ))) 5, ← Real.rpow_mul hx,
    show ((1.4 : ℝ)) * ((5 : ℕ) : ℝ) = ((7 : ℕ) : ℝ) from by norm_num,
    Real.rpow_natCast]

theorem gamma_v0_lb :
    (0.003130805 : ℝ) ≤ (((0.04045 : ℝ) + 0.055) / 1.055) ^ (2.4 : ℝ) := by
  have hx : (0 : ℝ) ≤ ((0.04045 : ℝ) + 0.055) / 1.055 := by norm_num
  apply le_of_pow_le_pow_left (by norm_num : (5 : ℕ) ≠ 0)
    (Real.rpow_nonneg hx _)
  rw [rpow_524 _ hx]
  norm_num

theorem x0_14_lb :
    (0.0345 : ℝ) ≤ (((0.04045 : ℝ) + 0.055) / 1.055) ^ (1.4 : ℝ) := by
  have hx : (0 : ℝ) ≤ ((0.04045 : ℝ) + 0.055) / 1.055 := by norm_num
  apply le_of_pow_le_pow_left (by norm_num : (5 : ℕ) ≠ 0)
    (Real.rpow_nonneg hx _)
  rw [rpow_514 _ hx]
  norm_num

theorem unlin_crack_ub :
    ((0.04045 : ℝ) / 12.92) ^ ((1 / 2.4 : ℝ)) ≤ 0.090475 := by
  have hx : (0 : ℝ) ≤ (0.04045 : ℝ) / 12.92 := by norm_num
  apply le_of_pow_le_pow_left (by norm_num : (12 : ℕ) ≠ 0) (by norm_num)
  rw [rpow_1224 _ hx]
  norm_num

theorem unlin_crack_lb :
    (0.090471 : ℝ) ≤ (0.0031308 : ℝ) ^ ((1 / 2.4 : ℝ)) := by
  apply le_of_pow_le_pow_left (by norm_num : (12 : ℕ) ≠ 0)
    (Real.rpow_nonneg (by norm_num) _)
  rw [rpow_1224 _ (by norm_num)]
  norm_num

theorem bern (x0 x : ℝ) (h0 : 0 < x0) (hx : x0 ≤ x) :
    x0 ^ (2.4 : ℝ) + 2.4 * x0 ^ (1.4 : ℝ) * (x - x0) ≤ x ^ (2.4 : ℝ) := by
  have hs : (-1 : ℝ) ≤ (x - x0) / x0 := by
    have : (0 : ℝ) ≤ (x - x0) / x0 := div_nonneg (by linarith) h0.le
    linarith
  have hb := one_add_mul_self_le_rpow_one_add hs (by norm_num : (1 : ℝ) ≤ 2.4)
  have h1 : (1 + (x - x0) / x0 : ℝ) = x / x0 := by field_simp
  rw [h1] at hb
  have hp24 : (0 : ℝ) < x0 ^ (2.4 : ℝ) := Real.rpow_pos_of_pos h0 _
  have hmul := mul_le_mul_of_nonneg_right hb hp24.le
  have hxr : (x / x0) ^ (2.4 : ℝ) * x0 ^ (2.4 : ℝ) = x ^ (2.4 : ℝ) := by
    rw [← Real.mul_rpow (div_nonneg (le_trans h0.le hx) h0.le) h0.le,
      div_mul_cancel₀ _ (ne_of_gt h0)]
  have hsplit : x0 ^ (2.4 : ℝ) = x0 * x0 ^ (1.4 : ℝ) := by
    rw [show (2.4 : ℝ) = 1 + 1.4 from by norm_num, Real.rpow_add h0,
      Real.rpow_one]
  have hL : (1 + 2.4 * ((x - x0) / x0)) * x0 ^ (2.4 : ℝ) =
      x0 ^ (2.4 : ℝ) + 2.4 * x0 ^ (1.4 : ℝ) * (x - x0) := by
    rw [hsplit]
    field_simp
    ring
  rw [hxr, hL] at hmul
  exact hmul

theorem rpow_24_collapse (X : ℝ) (hX : 0 ≤ X) :
    (X ^ (2.4 : ℝ)) ^ ((1 / 2.4 : ℝ)) = X := by
  rw [← Real.rpow_mul hX, show (2.4 : ℝ) * (1 / 2.4) = 1 from by norm_num,
    Real.rpow_one]

theorem U_up (s y : ℝ) (hs : 0 ≤ s) (hy : y ≤ linR s) : unlinR y ≤ s + 0.001 := by
  unfold linR at hy
  unfold unlinR
  by_cases hyb : (0.0031308 : ℝ) < y
  · rw [if_pos hyb]
    have hy0 : (0 : ℝ) ≤ y := le_of_lt (lt_trans (by norm_num) hyb)
    by_cases hsb : s / 255 < 0.04045
    · rw [if_pos hsb] at hy
      have hyv : y ≤ (0.04045 : ℝ) / 12.92 := by
        refine le_trans hy ?h
        rw [div_le_div_iff_of_pos_right (by norm_num)]
        exact hsb.le
      have hq : y ^ ((1 / 2.4 : ℝ)) ≤ 0.090475 :=
        le_trans (Real.rpow_le_rpow hy0 hyv (by norm_num)) unlin_crack_ub
      have hslow : (10.3147 : ℝ) ≤ s := by
        have h2 : (0.0031308 : ℝ) < s / 255 / 12.92 := lt_of_lt_of_le hyb hy
        rw [div_div, lt_div_iff₀ (by norm_num : (0 : ℝ) < 255 * 12.92)] at h2
        linarith
      linarith [hq, hslow]
    · rw [if_neg hsb] at hy
      have hX0 : (0 : ℝ) ≤ (s / 255 + 0.055) / 1.055 := by positivity
      have hmono : y ^ ((1 / 2.4 : ℝ)) ≤
          (((s / 255 + 0.055) / 1.055) ^ ((2.4 : ℝ))) ^ ((1 / 2.4 : ℝ)) :=
        Real.rpow_le_rpow hy0 hy (by norm_num)
      rw [rpow_24_collapse _ hX0,
        le_div_iff₀ (by norm_num : (0 : ℝ) < 1.055)] at hmono
      linarith [hmono]
  · rw [if_neg hyb]
    push_neg at hyb
    by_cases hsb : s / 255 < 0.04045
    · rw [if_pos hsb, div_div,
        le_div_iff₀ (by norm_num : (0 : ℝ) < 255 * 12.92)] at hy
      linarith [hy]
    · push_neg at hsb
      linarith [hyb, hsb]

theorem U_down (s y : ℝ) (hs : 0 ≤ s) (hy : linR s ≤ y) :
    s - 0.001 ≤ unlinR y := by
  unfold linR at hy
  unfold unlinR
  by_cases hsb : s / 255 < 0.04045
  · rw [if_pos hsb] at hy
    by_cases hyb : (0.0031308 : ℝ) < y
    · rw [if_pos hyb]
      have hq : (0.090471 : ℝ) ≤ y ^ ((1 / 2.4 : ℝ)) :=
        le_trans unlin_crack_lb
          (Real.rpow_le_rpow (by norm_num) (le_of_lt hyb) (by norm_num))
      linarith [hq, hsb]
    · rw [if_neg hyb]
      rw [div_div, div_le_iff₀ (by norm_num : (0 : ℝ) < 255 * 12.92)] at hy
      linarith [hy]
  · push_neg at hsb
    rw [if_neg (not_lt.2 (by linarith : (0.04045 : ℝ) ≤ s / 255))] at hy
    have hX0 : (0 : ℝ) ≤ (s / 255 + 0.055) / 1.055 := by positivity
    by_cases hyb : (0.0031308 : ℝ) < y
    · rw [if_pos hyb]
      have hmono : (((s / 255 + 0.055) / 1.055) ^ ((2.4 : ℝ))) ^ ((1 / 2.4 : ℝ)) ≤
          y ^ ((1 / 2.4 : ℝ)) :=
        Real.rpow_le_rpow (Real.rpow_nonneg hX0 _) hy (by norm_num)
      rw [rpow_24_collapse _ hX0,
        div_le_iff₀ (by norm_num : (0 : ℝ) < 1.055)] at hmono
      linarith [hmono]
    · exfalso
      push_neg at hyb
      have hbase : ((0.04045 : ℝ) + 0.055) / 1.055 ≤ (s / 255 + 0.055) / 1.055 := by
        rw [div_le_div_iff_of_pos_right (by norm_num)]
        linarith
      have hmono2 : (((0.04045 : ℝ) + 0.055) / 1.055) ^ ((2.4 : ℝ)) ≤
          ((s / 255 + 0.055) / 1.055) ^ ((2.4 : ℝ)) :=
        Real.rpow_le_rpow (by norm_num) hbase (by norm_num)
      linarith [gamma_v0_lb, hmono2, hy, hyb]

theorem lin_incr (t : ℝ) (h0 : 0 ≤ t) (h1 : t ≤ 255) :
    linR t + 0.0001 ≤ linR (t + 0.995) := by
  unfold linR
  by_cases hb2 : (t + 0.995) / 255 < 0.04045
  · rw [if_pos hb2, if_pos (by linarith : t / 255 < 0.04045)]
    rw [div_div, div_div, ← sub_nonneg]
    have hsub : (t + 0.995) / (255 * 12.92) - (t / (255 * 12.92) + 0.0001) =
        (0.995 - 0.0001 * (255 * 12.92)) / (255 * 12.92) := by ring
    rw [hsub]
    exact div_nonneg (by norm_num) (by norm_num)
  · rw [if_neg hb2]
    push_neg at hb2
    have hx2ge : ((0.04045 : ℝ) + 0.055) / 1.055 ≤
        ((t + 0.995) / 255 + 0.055) / 1.055 := by
      rw [div_le_div_iff_of_pos_right (by norm_num)]
      linarith
    have hx0pos : (0 : ℝ) < ((0.04045 : ℝ) + 0.055) / 1.055 := by norm_num
    by_cases hb1 : t / 255 < 0.04045
    · rw [if_pos hb1]
      have hb := bern (((0.04045 : ℝ) + 0.055) / 1.055)
        (((t + 0.995) / 255 + 0.055) / 1.055) hx0pos hx2ge
      have hdiff : ((t + 0.995) / 255 + 0.055) / 1.055 -
          ((0.04045 : ℝ) + 0.055) / 1.055 = (t - 9.31975) * (40 / 10761) := by
        field_simp
        ring
      rw [hdiff] at hb
      have htlo : (9.31975 : ℝ) ≤ t := by linarith [hb2]
      have hDnn : (0 : ℝ) ≤ (t - 9.31975) * (40 / 10761) :=
        mul_nonneg (by linarith) (by norm_num)
      have hslope : (0.0828 : ℝ) ≤
          2.4 * (((0.04045 : ℝ) + 0.055) / 1.055) ^ ((1.4 : ℝ)) := by
        linarith [x0_14_lb]
      have hprod := mul_le_mul_of_nonneg_right hslope hDnn
      have e1 : t / 255 / 12.92 = t * (5 / 16473) := by
        field_simp
        ring
      rw [e1]
      linarith [hb, gamma_v0_lb, hprod]
    · rw [if_neg hb1]
      push_neg at hb1
      have hx1pos : (0 : ℝ) < (t / 255 + 0.055) / 1.055 := by positivity
      have hx12 : (t / 255 + 0.055) / 1.055 ≤
          ((t + 0.995) / 255 + 0.055) / 1.055 := by
        rw [div_le_div_iff_of_pos_right (by norm_num)]
        linarith
      have hb2g := bern ((t / 255 + 0.055) / 1.055)
        (((t + 0.995) / 255 + 0.055) / 1.055) hx1pos hx12
      have hdiff : ((t + 0.995) / 255 + 0.055) / 1.055 -
          (t / 255 + 0.055) / 1.055 = (0.995 : ℝ) * (40 / 10761) := by
        field_simp
        ring
      rw [hdiff] at hb2g
      have hx10 : ((0.04045 : ℝ) + 0.055) / 1.055 ≤ (t / 255 + 0.055) / 1.055 := by
        rw [div_le_div_iff_of_pos_right (by norm_num)]
        linarith
      have h14 : (0.0345 : ℝ) ≤ ((t / 255 + 0.055) / 1.055) ^ ((1.4 : ℝ)) :=
        le_trans x0_14_lb (Real.rpow_le_rpow (by norm_num) hx10 (by norm_num))
      have hc : (0.0001 : ℝ) ≤ 2.4 * 0.0345 * ((0.995 : ℝ) * (40 / 10761)) := by
        norm_num
      linarith [hb2g, h14, hc]

end Colord

namespace Colord

open JsNum

theorem finv_close (t s d : ℝ) (h0t : 0 ≤ t) (h0s : 0 ≤ s) (h1t : t ≤ 1.1)
    (h1s : s ≤ 1.1) (hst : |s - t| ≤ d) : |finvR s - finvR t| ≤ 3.63 * d := by
  rw [abs_le] at hst
  rcases le_total t s with h | h
  · have hm := finv_mono_incr t s h0t h h1s
    rw [abs_le]
    constructor <;> linarith [hm.1, hm.2]
  · have hm := finv_mono_incr s t h0s h h1t
    rw [abs_le]
    constructor <;> linarith [hm.1, hm.2]

theorem chan_out (r w : ℝ) (hr0 : 0 ≤ r) (hr1 : r ≤ 255)
    (hw1 : linR r - 0.00005 ≤ w) (hw2 : w ≤ linR r + 0.00005) :
    r - 1 ≤ clampR (unlinR w) 0 255 ∧ clampR (unlinR w) 0 255 ≤ r + 1 := by
  constructor
  · by_cases hc : r < 0.995
    · have hm := (clampR_mem (unlinR w) 0 255 (by norm_num)).1
      linarith
    · push_neg at hc
      have hli := lin_incr (r - 0.995) (by linarith) (by linarith)
      rw [show r - 0.995 + 0.995 = r from by ring] at hli
      have hud := U_down (r - 0.995) w (by linarith) (by linarith)
      have hcg := clampR_ge_of (unlinR w) (r - 0.995 - 0.001)
        (by linarith) (by linarith)
      linarith
  · have hli := lin_incr r hr0 hr1
    have huu := U_up (r + 0.995) w (by linarith) (by linarith)
    have hcl := clampR_le_of (unlinR w) (r + 0.995 + 0.001)
      (by linarith) (by linarith)
    linarith

theorem near_id (a b c X Y Z xv yv zv : ℝ)
    (ha0 : 0 ≤ a) (ha1 : a ≤ 1) (hb0 : 0 ≤ b) (hb1 : b ≤ 1)
    (hc0 : 0 ≤ c) (hc1 : c ≤ 1)
    (hX : X = (a * 0.4124564 + b * 0.3575761 + c * 0.1804375) * 100)
    (hY : Y = (a * 0.2126729 + b * 0.7151522 + c * 0.072175) * 100)
    (hZ : Z = (a * 0.0193339 + b * 0.119192 + c * 0.9503041) * 100)
    (hxv1 : X * 1.0478112 + Y * 0.0228866 + Z * (-0.050127) - 0.00036 ≤ xv)
    (hxv2 : xv ≤ X * 1.0478112 + Y * 0.0228866 + Z * (-0.050127) + 0.00036)
    (hyv1 : X * 0.0295424 + Y * 0.9904844 + Z * (-0.0170491) - 0.00002 ≤ yv)
    (hyv2 : yv ≤ X * 0.0295424 + Y * 0.9904844 + Z * (-0.0170491) + 0.00002)
    (hzv1 : X * (-0.0092345) + Y * 0.0150436 + Z * 0.7521316 - 0.00075 ≤ zv)
    (hzv2 : zv ≤ X * (-0.0092345) + Y * 0.0150436 + Z * 0.7521316 + 0.00075) :
    (a - 0.00005 ≤ 0.032404542 * x65bR xv yv zv - 0.015371385 * y65bR xv yv zv -
        0.004985314 * z65bR xv yv zv ∧
      0.032404542 * x65bR xv yv zv - 0.015371385 * y65bR xv yv zv -
        0.004985314 * z65bR xv yv zv ≤ a + 0.00005) ∧
    (b - 0.00005 ≤ (-0.00969266) * x65bR xv yv zv + 0.018760108 * y65bR xv yv zv +
        0.00041556 * z65bR xv yv zv ∧
      (-0.00969266) * x65bR xv yv zv + 0.018760108 * y65bR xv yv zv +
        0.00041556 * z65bR xv yv zv ≤ b + 0.00005) ∧
    (c - 0.00005 ≤ 0.000556434 * x65bR xv yv zv - 0.002040259 * y65bR xv yv zv +
        0.010572252 * z65bR xv yv zv ∧
      0.000556434 * x65bR xv yv zv - 0.002040259 * y65bR xv yv zv +
        0.010572252 * z65bR xv yv zv ≤ c + 0.00005) := by
  simp only [x65bR, y65bR, z65bR]
  subst hX hY hZ
  refine ⟨⟨?_, ?_⟩, ⟨?_, ?_⟩, ⟨?_, ?_⟩⟩ <;>
    linarith [hxv1, hxv2, hyv1, hyv2, hzv1, hzv2, ha0, ha1, hb0, hb1, hc0, hc1]

theorem lch_forward (r g b av : ℝ)
    (hr0 : 0 ≤ r) (hr1 : r ≤ 255) (hg0 : 0 ≤ g) (hg1 : g ≤ 255)
    (hb0 : 0 ≤ b) (hb1 : b ≤ 255) (ha0 : 0 ≤ av) (ha1 : av ≤ 1) :
    ∃ r2 g2 b2 : ℝ,
      lchaToRgba (rgbaToLcha ⟨fin r, fin g, fin b, fin av⟩) =
        ⟨fin r2, fin g2, fin b2, fin av⟩ ∧
      |r2 - r| ≤ 1 ∧ |g2 - g| ≤ 1 ∧ |b2 - b| ≤ 1 := by
  have hstep := lch_roundtrip_lab r g b av
  rw [labaToRgba_agree] at hstep
  rw [show clampR (clampR av 0 1) 0 1 = av from by
    rw [clampR_of_mem av 0 1 ha0 ha1, clampR_of_mem av 0 1 ha0 ha1]] at hstep
  obtain ⟨hur0, hur1⟩ := linR_mem r hr0 hr1
  obtain ⟨hug0, hug1⟩ := linR_mem g hg0 hg1
  obtain ⟨hub0, hub1⟩ := linR_mem b hb0 hb1
  have hX : x65R r g b =
      (linR r * 0.4124564 + linR g * 0.3575761 + linR b * 0.1804375) * 100 := rfl
  have hY : y65R r g b =
      (linR r * 0.2126729 + linR g * 0.7151522 + linR b * 0.072175) * 100 := rfl
  have hZ : z65R r g b =
      (linR r * 0.0193339 + linR g * 0.119192 + linR b * 0.9503041) * 100 := rfl
  have hVX0 : 0 ≤ x65R r g b * 1.0478112 + y65R r g b * 0.0228866 +
      z65R r g b * (-0.050127) := by
    rw [hX, hY, hZ]; linarith
  have hVX1 : x65R r g b * 1.0478112 + y65R r g b * 0.0228866 +
      z65R r g b * (-0.050127) ≤ 96.422 := by
    rw [hX, hY, hZ]; linarith
  have hVY0 : 0 ≤ x65R r g b * 0.0295424 + y65R r g b * 0.9904844 +
      z65R r g b * (-0.0170491) := by
    rw [hX, hY, hZ]; linarith
  have hVY1 : x65R r g b * 0.0295424 + y65R r g b * 0.9904844 +
      z65R r g b * (-0.0170491) ≤ 100 + 0.00001 := by
    rw [hX, hY, hZ]; linarith
  have hVZ0 : 0 ≤ x65R r g b * (-0.0092345) + y65R r g b * 0.0150436 +
      z65R r g b * 0.7521316 := by
    rw [hX, hY, hZ]; linarith
  have hVZ1 : x65R r g b * (-0.0092345) + y65R r g b * 0.0150436 +
      z65R r g b * 0.7521316 ≤ 82.521 := by
    rw [hX, hY, hZ]; linarith
  have hx50 : x50R r g b = x65R r g b * 1.0478112 + y65R r g b * 0.0228866 +
      z65R r g b * (-0.050127) := clampR_of_mem _ _ _ hVX0 hVX1
  have hz50 : z50R r g b = x65R r g b * (-0.0092345) + y65R r g b * 0.0150436 +
      z65R r g b * 0.7521316 := clampR_of_mem _ _ _ hVZ0 hVZ1
  have hy50 : (x65R r g b * 0.0295424 + y65R r g b * 0.9904844 +
        z65R r g b * (-0.0170491)) - 0.00001 ≤ y50R r g b ∧
      y50R r g b ≤ x65R r g b * 0.0295424 + y65R r g b * 0.9904844 +
        z65R r g b * (-0.0170491) :=
    clampR_down _ _ _ hVY0 hVY1 (by norm_num) (by norm_num)
  have hy50m : 0 ≤ y50R r g b ∧ y50R r g b ≤ 100 :=
    clampR_mem _ _ _ (by norm_num)
  -- f-coordinate domains
  have htX0 : 0 ≤ x50R r g b / 96.422 := by
    rw [hx50]; exact div_nonneg hVX0 (by norm_num)
  have htX1 : x50R r g b / 96.422 ≤ 1 := by
    rw [hx50, div_le_one (by norm_num)]; linarith [hVX1]
  have htY0 : 0 ≤ y50R r g b / 100 := div_nonneg hy50m.1 (by norm_num)
  have htY1 : y50R r g b / 100 ≤ 1 := by
    rw [div_le_one (by norm_num)]; exact hy50m.2
  have htZ0 : 0 ≤ z50R r g b / 82.521 := by
    rw [hz50]; exact div_nonneg hVZ0 (by norm_num)
  have htZ1 : z50R r g b / 82.521 ≤ 1 := by
    rw [hz50, div_le_one (by norm_num)]; linarith [hVZ1]
  have hfx : 4 / 29 ≤ fxR r g b ∧ fxR r g b ≤ 1 := ffwd_mem _ htX0 htX1
  have hfz : 4 / 29 ≤ fzR r g b ∧ fzR r g b ≤ 1 := ffwd_mem _ htZ0 htZ1
  -- the y channel of the backward map is exact
  have hyv : ybR (labLR r g b) = y50R r g b := by
    have hy := yinv_exact (y50R r g b / 100) htY0 htY1
    show yinvR (116 * ffwdR (y50R r g b / 100) - 16) * 100 = y50R r g b
    rw [hy, div_mul_cancel₀ _ (by norm_num : (100 : ℝ) ≠ 0)]
  -- the x channel of the backward map is close up to the rounding perturbation
  have hargx : rnd3R (labAR r g b) / 500 + (labLR r g b + 16) / 116 =
      fxR r g b + (rnd3R (labAR r g b) - labAR r g b) / 500 := by
    simp only [labAR, labLR]; ring
  have hdx : |(rnd3R (labAR r g b) - labAR r g b) / 500| ≤ 0.000001 := by
    rw [abs_div, show |(500 : ℝ)| = 500 from by norm_num]
    have := rnd3_close (labAR r g b)
    rw [div_le_iff₀ (by norm_num : (0 : ℝ) < 500)]
    linarith
  have hax : |(rnd3R (labAR r g b) / 500 + (labLR r g b + 16) / 116) -
      fxR r g b| ≤ 0.000001 := by
    rw [hargx, add_sub_cancel_left]
    exact hdx
  obtain ⟨haxl, haxr⟩ := abs_le.1 hax
  have hfcx := finv_close (fxR r g b)
    (rnd3R (labAR r g b) / 500 + (labLR r g b + 16) / 116) 0.000001
    (by linarith [hfx.1]) (by linarith [hfx.1]) (by linarith [hfx.2])
    (by linarith [hfx.2]) hax
  have hfix : finvR (fxR r g b) = x50R r g b / 96.422 := finv_ffwd _ htX0 htX1
  have hxbd : |xbR (labLR r g b) (rnd3R (labAR r g b)) - x50R r g b| ≤ 0.00036 := by
    have hrw : xbR (labLR r g b) (rnd3R (labAR r g b)) - x50R r g b =
        (finvR (rnd3R (labAR r g b) / 500 + (labLR r g b + 16) / 116) -
          finvR (fxR r g b)) * 96.422 := by
      show finvR (rnd3R (labAR r g b) / 500 + (labLR r g b + 16) / 116) * 96.422 -
          x50R r g b = _
      rw [sub_mul, hfix, div_mul_cancel₀ _ (by norm_num : (96.422 : ℝ) ≠ 0)]
    rw [hrw, abs_mul, show |(96.422 : ℝ)| = 96.422 from by norm_num]
    calc |finvR (rnd3R (labAR r g b) / 500 + (labLR r g b + 16) / 116) -
          finvR (fxR r g b)| * 96.422 ≤ 3.63 * 0.000001 * 96.422 :=
            mul_le_mul_of_nonneg_right hfcx (by norm_num)
      _ ≤ 0.00036 := by norm_num
  -- the z channel of the backward map: rounding perturbation
  have hargz : (labLR r g b + 16) / 116 - rnd3R (labBR r g b) / 200 =
      fzR r g b + (labBR r g b - rnd3R (labBR r g b)) / 200 := by
    simp only [labBR, labLR]; ring
  have hdz : |(labBR r g b - rnd3R (labBR r g b)) / 200| ≤ 0.0000025 := by
    rw [abs_div, show |(200 : ℝ)| = 200 from by norm_num]
    have h := rnd3_close (labBR r g b)
    rw [abs_sub_comm] at h
    rw [div_le_iff₀ (by norm_num : (0 : ℝ) < 200)]
    linarith
  have haz : |((labLR r g b + 16) / 116 - rnd3R (labBR r g b) / 200) -
      fzR r g b| ≤ 0.0000025 := by
    rw [hargz, add_sub_cancel_left]
    exact hdz
  obtain ⟨hazl, hazr⟩ := abs_le.1 haz
  have hfcz := finv_close (fzR r g b)
    ((labLR r g b + 16) / 116 - rnd3R (labBR r g b) / 200) 0.0000025
    (by linarith [hfz.1]) (by linarith [hfz.1]) (by linarith [hfz.2])
    (by linarith [hfz.2]) haz
  have hfiz : finvR (fzR r g b) = z50R r g b / 82.521 := finv_ffwd _ htZ0 htZ1
  have hzbd : |zbR (labLR r g b) (rnd3R (labBR r g b)) - z50R r g b| ≤ 0.00075 := by
    have hrw : zbR (labLR r g b) (rnd3R (labBR r g b)) - z50R r g b =
        (finvR ((labLR r g b + 16) / 116 - rnd3R (labBR r g b) / 200) -
          finvR (fzR r g b)) * 82.521 := by
      show finvR ((labLR r g b + 16) / 116 - rnd3R (labBR r g b) / 200) * 82.521 -
          z50R r g b = _
      rw [sub_mul, hfiz, div_mul_cancel₀ _ (by norm_num : (82.521 : ℝ) ≠ 0)]
    rw [hrw, abs_mul, show |(82.521 : ℝ)| = 82.521 from by norm_num]
    calc |finvR ((labLR r g b + 16) / 116 - rnd3R (labBR r g b) / 200) -
          finvR (fzR r g b)| * 82.521 ≤ 3.63 * 0.0000025 * 82.521 :=
            mul_le_mul_of_nonneg_right hfcz (by norm_num)
      _ ≤ 0.00075 := by norm_num
  obtain ⟨hxbl, hxbr⟩ := abs_le.1 hxbd
  obtain ⟨hzbl, hzbr⟩ := abs_le.1 hzbd
  -- assemble the linear-light reconstruction bounds
  have hni := near_id (linR r) (linR g) (linR b) (x65R r g b) (y65R r g b)
    (z65R r g b) (xbR (labLR r g b) (rnd3R (labAR r g b))) (ybR (labLR r g b))
    (zbR (labLR r g b) (rnd3R (labBR r g b)))
    hur0 hur1 hug0 hug1 hub0 hub1 hX hY hZ
    (by linarith [hxbl, hx50]) (by linarith [hxbr, hx50])
    (by rw [hyv]; linarith [hy50.1]) (by rw [hyv]; linarith [hy50.2])
    (by linarith [hzbl, hz50]) (by linarith [hzbr, hz50])
  have hcR := chan_out r _ hr0 hr1 hni.1.1 hni.1.2
  have hcG := chan_out g _ hg0 hg1 hni.2.1.1 hni.2.1.2
  have hcB := chan_out b _ hb0 hb1 hni.2.2.1 hni.2.2.2
  refine ⟨_, _, _, hstep, ?_, ?_, ?_⟩
  · simp only [outR]
    rw [abs_le]
    exact ⟨by linarith [hcR.1], by linarith [hcR.2]⟩
  · simp only [outG]
    rw [abs_le]
    exact ⟨by linarith [hcG.1], by linarith [hcG.2]⟩
  · simp only [outB]
    rw [abs_le]
    exact ⟨by linarith [hcB.1], by linarith [hcB.2]⟩

end Colord

namespace Colord

open JsNum

/-- C2 counterexamples: four of the six claimed round-trip directions fail.
The CMYK round trip fails in both directions: cmyka(5, 5, 5, 50) maps to
rgba(121, 121, 121) and back to cmyka(0, 0, 0, 53), a 5-unit error in c,
and rgba(254, 253, 253) maps to cmyka(0, 0, 0, 0) and back to
rgba(255, 255, 255), a 2-unit error in g; the LCH and HWB round trips fail
in the reverse (model-to-model) direction because achromatic colors lose
their hue: lcha(0, 0, 100) maps to black and back to lcha(0, 0, 0), a
100-degree hue error, and hwba(200, 60, 40) maps to the gray
rgba(153, 153, 153) and back to hwba(0, 60, 40), a 200-degree hue error. -/
theorem c2_roundtrip_counterexamples :
    (rgbaToCmyka (cmykaToRgba ⟨fin 5, fin 5, fin 5, fin 50, fin 1⟩) =
        ⟨fin 0, fin 0, fin 0, fin 53, fin 1⟩ ∧ ¬ (|(0 : ℝ) - 5| ≤ 1)) ∧
    (cmykaToRgba (rgbaToCmyka ⟨fin 254, fin 253, fin 253, fin 1⟩) =
        ⟨fin 255, fin 255, fin 255, fin 1⟩ ∧ ¬ (|(255 : ℝ) - 253| ≤ 1)) ∧
    (rgbaToLcha (lchaToRgba ⟨fin 0, fin 0, fin 100, fin 1⟩) =
        ⟨fin 0, fin 0, fin 0, fin 1⟩ ∧ ¬ (|(0 : ℝ) - 100| ≤ 1)) ∧
    (rgbaToHwba (hwbaToRgba ⟨fin 200, fin 60, fin 40, fin 1⟩) =
        ⟨fin 0, fin 60, fin 40, fin 1⟩ ∧ ¬ (|(0 : ℝ) - 200| ≤ 1)) :=
  ⟨cmyk_rev_cex, ⟨cmyk_fwd_cex, by norm_num⟩, ⟨lch_rev_cex, by norm_num⟩,
    ⟨hwb_rev_cex, by norm_num⟩⟩

/-- C2 (amended): the two round-trip directions that start from a valid RGBA
color hold for HWB and LCH. For every RGBA color with real channels in
[0, 255], converting to HWB with rgbaToHwba and back with hwbaToRgba returns
exactly the original color, with the alpha channel passing through unchanged;
and for every RGBA color with real channels in [0, 255] and alpha in [0, 1],
converting to LCH with rgbaToLcha and back with lchaToRgba returns a color
whose r, g, b channels each differ from the original by at most 1 unit and
whose alpha is unchanged. (The CMYK round trips in both directions, and the
HWB and LCH round trips starting from the non-RGB model, are refuted by the
counterexample theorem.) -/
theorem c2_amended_roundtrips :
    (∀ (r g b : ℝ) (a : JsNum), 0 ≤ r → r ≤ 255 → 0 ≤ g → g ≤ 255 →
      0 ≤ b → b ≤ 255 →
      hwbaToRgba (rgbaToHwba ⟨fin r, fin g, fin b, a⟩) =
        ⟨fin r, fin g, fin b, a⟩) ∧
    (∀ r g b av : ℝ, 0 ≤ r → r ≤ 255 → 0 ≤ g → g ≤ 255 → 0 ≤ b → b ≤ 255 →
      0 ≤ av → av ≤ 1 →
      ∃ r2 g2 b2 : ℝ,
        lchaToRgba (rgbaToLcha ⟨fin r, fin g, fin b, fin av⟩) =
          ⟨fin r2, fin g2, fin b2, fin av⟩ ∧
        |r2 - r| ≤ 1 ∧ |g2 - g| ≤ 1 ∧ |b2 - b| ≤ 1) := by
  constructor
  · intro r g b a hr0 hr1 hg0 hg1 hb0 hb1
    exact hwb_forward r g b a hr0 hr1 hg0 hg1 hb0 hb1
  · intro r g b av hr0 hr1 hg0 hg1 hb0 hb1 ha0 ha1
    exact lch_forward r g b av hr0 hr1 hg0 hg1 hb0 hb1 ha0 ha1

end Colord
